import Mathlib

/-!
# FLASHDeconvAlgorithm::Deconvolution

A shallow embedding of `FLASHDeconvAlgorithm::Deconvolution`
(`src/openms/source/ANALYSIS/TOPDOWN/FLASHDeconvAlgorithm.cpp`, lines 68-248)
and theorems about it.

Modelling conventions.

* C++ `double` values (m/z, intensity, mass) are rationals: comparisons and
  the additions `-lo + mz`, `hi + mz`, `mm + 100` are exact, NaN does not exist.
* `int` is 32 bits wide. The `int` values the function computes itself - the
  increments `++` of the counters and of the two indices, the product
  `numOverlappedScans[j-1] * 10` and the conversion `(int) peakGroups.size()` -
  are reduced to the 32-bit two's-complement range by `wrapInt`, which is what
  the target computes on overflow. `int` values that come in with the data
  (charges, `minCharge`, `chargeRange`) are integers, and the subtraction
  `mc - minCharge` of two such values is exact. `UInt` values (MS levels) are
  naturals, and the one unsigned subtraction of the function, `msLevel - 1`,
  wraps at zero.
* `std::map<double, V>` is an association list kept in increasing key order;
  iteration is list order, `find`, `operator[]` and assignment are the
  functions of `MzMap`.
* `std::map<UInt, ...>` (one inner container per MS level) is a function of the
  level: `operator[]` on an absent level creates an empty container, and the
  outer maps are never iterated, so absent and empty are indistinguishable.
* The caller arrays `specCntr`, `qspecCntr`, `massCntr`, the vector
  `numOverlappedScans` and the two `new[]` arrays are lists; an index outside
  the list is the fault `outOfRange`.
* `reserve(n)` with a negative `int` argument, which converts to a `size_type`
  above `max_size()`, throws `std::length_error`: the fault `lengthError`.
  Exhaustion of storage is not modelled.
* The pointer `pg.spec = &(*it)` is the position of the spectrum in the
  experiment.
* The per-spectrum deconvolution (`SpectrumDeconvolution`) is not part of the
  source file; `getPeakGroupsFromSpectrum` is a parameter of the development.
  The run state keeps a history of its invocations so that statements can
  speak of what it was given and what it returned.
* Progress printing is omitted; a capacity hint has no effect other than the
  vector index it reads and the exception it may throw.

The file has three parts: the embedding, the definitions that the statements and
proofs use, and the theorems (supporting facts first, then the claims C1-C20).
-/

namespace FLASHDeconv

/-! ## Data model -/

/-- Member peak of a peak group (`p.mz`, `p.intensity`, `p.charge`). -/
structure LogMzPeak where
  mz : ℚ
  intensity : ℚ
  charge : Int
  deriving DecidableEq, Repr

/-- Peak group: the fields `Deconvolution` reads (`peaks`, `monoisotopicMass`)
and the four fields it writes (`spec`, `massIndex`, `specIndex`, `massCntr`). -/
structure PeakGroup where
  peaks : List LogMzPeak
  monoisotopicMass : ℚ
  spec : Option Nat
  massIndex : Int
  specIndex : Int
  massCntr : Int
  deriving DecidableEq, Repr

/-- Precursor record: `getMZ`, `getIsolationWindowLowerOffset`,
`getIsolationWindowUpperOffset`. -/
structure Precursor where
  mz : ℚ
  isolationWindowLowerOffset : ℚ
  isolationWindowUpperOffset : ℚ
  deriving DecidableEq, Repr

/-- Spectrum: `getMSLevel`, `getPrecursors`, and its (m/z, intensity) peaks. -/
structure Spectrum where
  msLevel : Nat
  precursors : List Precursor
  peaks : List (ℚ × ℚ)
  deriving DecidableEq, Repr

/-- The fields of `Parameter` that `Deconvolution` reads or writes. The four
`current*` fields are written by the function; the others are configuration. -/
structure Parameter where
  minCharge : Int
  chargeRange : Int
  maxMass : ℚ
  maxMassCount : Int
  maxMSLevel : Nat
  numOverlappedScans : List Int
  currentMaxMSLevel : Nat
  currentChargeRange : Int
  currentMaxMass : ℚ
  currentMaxMassCount : Int
  deriving DecidableEq, Repr

/-- The failures the embedding knows: an array or vector index outside the
allocated range (undefined behaviour in the source), and the exception
`std::length_error` thrown by `reserve`. -/
inductive Fault where
  | outOfRange
  | lengthError
  deriving DecidableEq, Repr

/-- Value of an `int` expression whose exact result is `x`: the representative
of `x` modulo `2^32` in the range `[-2^31, 2^31)`. -/
def wrapInt (x : Int) : Int := (x + 2 ^ 31) % 2 ^ 32 - 2 ^ 31

/-- Value of the `UInt` expression `msLevel - 1`: unsigned subtraction wraps
to `2^32 - 1` at zero. -/
def uintPred (msLevel : Nat) : Nat :=
  if msLevel = 0 then 2 ^ 32 - 1 else msLevel - 1

/-! ## `std::map<double, V>` -/

/-- Ordered map keyed by m/z: an association list in increasing key order. -/
abbrev MzMap (V : Type) := List (ℚ × V)

namespace MzMap

variable {V : Type}

/-- Keys in iteration order. -/
def keys (m : MzMap V) : List ℚ := m.map Prod.fst

/-- Look-up (`find`): the value stored at `k`, if any. -/
def find? : MzMap V → ℚ → Option V
  | [], _ => none
  | (k', v) :: rest, k => if k = k' then some v else find? rest k

/-- Assignment `m[k] = v`: replaces the value at `k` or inserts the entry at
its place in the key order. -/
def insert : MzMap V → ℚ → V → MzMap V
  | [], k, v => [(k, v)]
  | (k', v') :: rest, k, v =>
    if k < k' then (k, v) :: (k', v') :: rest
    else if k = k' then (k, v) :: rest
    else (k', v') :: insert rest k v

/-- Read through `operator[]`: the stored value, or the default `d`, which is
then inserted. Returns the value and the map after the access. -/
def index (m : MzMap V) (k : ℚ) (d : V) : V × MzMap V :=
  match m.find? k with
  | some v => (v, m)
  | none => (d, m.insert k d)

/-- Strictly increasing keys: the representation invariant of `std::map`. -/
def WF (m : MzMap V) : Prop := m.Pairwise (fun a b => a.1 < b.1)

instance (m : MzMap V) : Decidable m.WF := by
  unfold WF; infer_instance

end MzMap

/-! ## Isolation-window normalisation (lines 150-151) -/

/-- Lower bound of the window, line 150. -/
def startMz (pre : Precursor) : ℚ :=
  if pre.isolationWindowLowerOffset > 100 then pre.isolationWindowLowerOffset
  else -pre.isolationWindowLowerOffset + pre.mz

/-- Upper bound of the window, line 151. -/
def endMz (pre : Precursor) : ℚ :=
  if pre.isolationWindowUpperOffset > 100 then pre.isolationWindowUpperOffset
  else pre.isolationWindowUpperOffset + pre.mz

/-! ## Precursor scan (lines 142-170) -/

/-- Local variables `mc`, `pint`, `mm` of the `else` branch at line 141 and the
three parent-level maps they are computed from (held by reference). -/
structure ScanState where
  mc : Int
  pint : ℚ
  mm : ℚ
  subPeakChargeMap : MzMap Int
  subPeakIntMap : MzMap ℚ
  subPeakMassMap : MzMap ℚ
  deriving DecidableEq, Repr

/-- Inner loop, lines 153-169, over the keys of `subPeakChargeMap` still to be
visited. `cint` is a reference into `subPeakIntMap`, so `cint = pint` (line 165)
stores `pint` in that map; `pint` itself is never assigned. -/
def scanKeys (startMz endMz : ℚ) : List ℚ → ScanState → ScanState
  | [], st => st
  | mz :: rest, st =>
    if mz < startMz then scanKeys startMz endMz rest st
    else if mz > endMz then st
    else
      let (cint, intMap) := st.subPeakIntMap.index mz 0
      if st.pint < cint then
        let intMap := intMap.insert mz st.pint
        let (c, chargeMap) := st.subPeakChargeMap.index mz 0
        let (m, massMap) := st.subPeakMassMap.index mz 0
        scanKeys startMz endMz rest
          { mc := c, pint := st.pint, mm := m, subPeakChargeMap := chargeMap,
            subPeakIntMap := intMap, subPeakMassMap := massMap }
      else
        scanKeys startMz endMz rest { st with subPeakIntMap := intMap }

/-- Body of the loop over precursors, lines 149-170, for one precursor. -/
def scanPrecursor (st : ScanState) (pre : Precursor) : ScanState :=
  scanKeys (startMz pre) (endMz pre) st.subPeakChargeMap.keys st

/-- Lines 145-170: `mc = -1`, `pint = 0`, `mm = -1`, then every precursor in turn. -/
def scanPrecursors (chargeMap : MzMap Int) (intMap massMap : MzMap ℚ)
    (precursors : List Precursor) : ScanState :=
  precursors.foldl scanPrecursor
    { mc := -1, pint := 0, mm := -1, subPeakChargeMap := chargeMap,
      subPeakIntMap := intMap, subPeakMassMap := massMap }

/-! ## Level state update (lines 202-221) -/

/-- Lines 211-219 for one member peak `p` of a group of monoisotopic mass `mono`. -/
def updatePeak (mono : ℚ) (maps : MzMap Int × MzMap ℚ × MzMap ℚ) (p : LogMzPeak) :
    MzMap Int × MzMap ℚ × MzMap ℚ :=
  let mc := p.charge
  let mc :=
    match maps.1.find? p.mz with
    | some pc => if mc > pc then mc else pc
    | none => mc
  (maps.1.insert p.mz mc, maps.2.1.insert p.mz p.intensity, maps.2.2.insert p.mz mono)

/-- Lines 209-220: all member peaks of one group. -/
def updateGroup (maps : MzMap Int × MzMap ℚ × MzMap ℚ) (pg : PeakGroup) :
    MzMap Int × MzMap ℚ × MzMap ℚ :=
  pg.peaks.foldl (updatePeak pg.monoisotopicMass) maps

/-- The call `clear()` on a map (lines 202-204). -/
def MzMap.clear {V : Type} (_m : MzMap V) : MzMap V := []

/-- Lines 202-221: the three maps of the level are cleared, then rebuilt from
the peak groups. -/
def levelStateUpdate (maps : MzMap Int × MzMap ℚ × MzMap ℚ) (peakGroups : List PeakGroup) :
    MzMap Int × MzMap ℚ × MzMap ℚ :=
  peakGroups.foldl updateGroup (maps.1.clear, maps.2.1.clear, maps.2.2.clear)

/-! ## Run state and collaborator -/

/-- The per-spectrum deconvolution `SpectrumDeconvolution::getPeakGroupsFromSpectrum`
(line 190). It is given the spectrum, the parameter object (held by reference, so
with the `current*` fields as they stand at the call), the level's overlap
windows `prevMassBinMap[msLevel]` and `prevMinBinLogMassMap[msLevel]`, and the
level; it returns the peak groups and the two windows as it leaves them. The
averagine table is fixed for a run and is part of the function. -/
structure Collaborator where
  getPeakGroupsFromSpectrum :
    Spectrum → Parameter → List (List Nat) → List ℚ → Nat →
      List PeakGroup × List (List Nat) × List ℚ

/-- Modelled from the spec: `SpectrumDeconvolution::empty` (line 187) is not in
the source file; the spec says the spectrum is skipped when its peak count is
zero. -/
def SpectrumDeconvolution.empty (spec : Spectrum) : Bool := spec.peaks.isEmpty

/-- History entry for one invocation of the collaborator: which spectrum, at
which level, the parameter object it saw, and what it returned. The history is
an observation of the run; no instruction of the source reads it. -/
structure CallRecord where
  specPos : Nat
  msLevel : Nat
  param : Parameter
  peakGroups : List PeakGroup
  deriving DecidableEq, Repr

/-- Everything `Deconvolution` reads or writes: the parameter object, the three
caller arrays, the two caller indices, and the locals declared at lines 74-83
and 107-108. -/
structure RunState where
  param : Parameter
  specCntr : List Int
  qspecCntr : List Int
  massCntr : List Int
  specIndex : Int
  massIndex : Int
  allPeakGroups : List PeakGroup
  prevMassBinMap : Nat → List (List Nat)
  prevMinBinLogMassMap : Nat → List ℚ
  peakChargeMap : Nat → MzMap Int
  peakIntMap : Nat → MzMap ℚ
  peakMassMap : Nat → MzMap ℚ
  prevChargeRanges : List Int
  prevMaxMasses : List ℚ
  calls : List CallRecord

/-- The statement `a[i]++` on an `int` array. -/
def incrAt (a : List Int) (i : Nat) : Except Fault (List Int) :=
  match a[i]? with
  | some v => .ok (a.set i (wrapInt (v + 1)))
  | none => .error .outOfRange

/-! ## Initialisation (lines 85-111) -/

/-- Lines 85-91: the largest MS level in the experiment, starting from `cur`. -/
def scanMaxMSLevel (map : List Spectrum) (cur : Nat) : Nat :=
  map.foldl (fun c s => if c < s.msLevel then s.msLevel else c) cur

/-- Lines 85-93: the level ceiling of the run. -/
def computeCurrentMaxMSLevel (map : List Spectrum) (maxMSLevel : Nat) : Nat :=
  let cur := scanMaxMSLevel map 0
  if cur > maxMSLevel then maxMSLevel else cur

/-- Lines 97-104 for one level `j`: the read `numOverlappedScans[j-1]`, then the
two calls `reserve(numOverlappedScans[j-1] * 10)`. The product is an `int`; a
negative `int` converts to a `size_type` above `max_size()` and `reserve`
throws. The containers created for the level are empty, as they are in the
state before the loop. -/
def initLevel (numOverlappedScans : List Int) (j : Nat) : Except Fault Unit :=
  match numOverlappedScans[j - 1]? with
  | none => .error .outOfRange
  | some n => if wrapInt (n * 10) < 0 then .error .lengthError else .ok ()

/-- Lines 96-105: the loop over the levels `js`, in order. -/
def initLevels (numOverlappedScans : List Int) : List Nat → Except Fault Unit
  | [] => .ok ()
  | j :: rest =>
    match initLevel numOverlappedScans j with
    | .error e => .error e
    | .ok _ => initLevels numOverlappedScans rest

/-- Lines 73-111: the state at the head of the main loop. -/
def init (map : List Spectrum) (param : Parameter) (specCntr qspecCntr massCntr : List Int)
    (specIndex massIndex : Int) : Except Fault RunState :=
  let cur := computeCurrentMaxMSLevel map param.maxMSLevel
  match initLevels param.numOverlappedScans (List.range' 1 cur) with
  | .error e => .error e
  | .ok _ =>
    .ok
      { param := { param with currentMaxMSLevel := cur }
        specCntr := specCntr
        qspecCntr := qspecCntr
        massCntr := massCntr
        specIndex := specIndex
        massIndex := massIndex
        allPeakGroups := []
        prevMassBinMap := fun _ => []
        prevMinBinLogMassMap := fun _ => []
        peakChargeMap := fun _ => []
        peakIntMap := fun _ => []
        peakMassMap := fun _ => []
        prevChargeRanges := List.replicate cur param.chargeRange
        prevMaxMasses := List.replicate cur param.maxMass
        calls := [] }

/-! ## One iteration of the main loop (lines 113-240) -/

/-- Lines 132-185: the charge range and max mass for this spectrum. -/
def resolveBounds (s : RunState) (spec : Spectrum) : Except Fault RunState :=
  let msLevel := spec.msLevel
  let precursorMsLevel := uintPred msLevel
  if msLevel = 1 then
    .ok { s with
      param := { s.param with
        currentChargeRange := s.param.chargeRange
        currentMaxMass := s.param.maxMass
        currentMaxMassCount := s.param.maxMassCount } }
  else
    let st := scanPrecursors (s.peakChargeMap precursorMsLevel)
      (s.peakIntMap precursorMsLevel) (s.peakMassMap precursorMsLevel) spec.precursors
    let s := { s with
      peakChargeMap := Function.update s.peakChargeMap precursorMsLevel st.subPeakChargeMap
      peakIntMap := Function.update s.peakIntMap precursorMsLevel st.subPeakIntMap
      peakMassMap := Function.update s.peakMassMap precursorMsLevel st.subPeakMassMap }
    if st.mc > 0 then
      let chargeRange := st.mc - s.param.minCharge
      let maxMass := st.mm + 100
      if uintPred msLevel < s.prevChargeRanges.length ∧
          uintPred msLevel < s.prevMaxMasses.length then
        .ok { s with
          param := { s.param with
            currentChargeRange := chargeRange
            currentMaxMass := maxMass }
          prevChargeRanges := s.prevChargeRanges.set (uintPred msLevel) chargeRange
          prevMaxMasses := s.prevMaxMasses.set (uintPred msLevel) maxMass }
      else .error .outOfRange
    else
      match s.prevChargeRanges[uintPred msLevel]?, s.prevMaxMasses[uintPred msLevel]? with
      | some chargeRange, some maxMass =>
        .ok { s with
          param := { s.param with
            currentChargeRange := chargeRange
            currentMaxMass := maxMass } }
      | _, _ => .error .outOfRange

/-- Lines 230-239: the loop that stamps the groups of one spectrum and appends
them. `n` is `(int) peakGroups.size()`, `idx` is `msLevel - 1`; the result is
`massCntr`, `massIndex` and `allPeakGroups` after the loop. -/
def stampGroups (specPos : Nat) (n : Int) (specIndex : Int) (idx : Nat) :
    List PeakGroup → List Int → Int → List PeakGroup →
      Except Fault (List Int × Int × List PeakGroup)
  | [], massCntr, massIndex, all => .ok (massCntr, massIndex, all)
  | pg :: rest, massCntr, massIndex, all =>
    match incrAt massCntr idx with
    | .error e => .error e
    | .ok massCntr =>
      let massIndex := wrapInt (massIndex + 1)
      let pg := { pg with
        spec := some specPos
        massIndex := massIndex
        specIndex := specIndex
        massCntr := n }
      stampGroups specPos n specIndex idx rest massCntr massIndex (all ++ [pg])

/-- Lines 190-239: invocation of the collaborator, level state update, result
assembly, for the spectrum at position `specPos`. -/
def deconvolveAndAssemble (collab : Collaborator) (s : RunState) (specPos : Nat)
    (spec : Spectrum) : Except Fault RunState :=
  let msLevel := spec.msLevel
  let r := collab.getPeakGroupsFromSpectrum spec s.param (s.prevMassBinMap msLevel)
    (s.prevMinBinLogMassMap msLevel) msLevel
  let peakGroups := r.1
  let s := { s with
    prevMassBinMap := Function.update s.prevMassBinMap msLevel r.2.1
    prevMinBinLogMassMap := Function.update s.prevMinBinLogMassMap msLevel r.2.2
    calls := s.calls ++
      [{ specPos := specPos, msLevel := msLevel, param := s.param, peakGroups := peakGroups }] }
  if peakGroups.isEmpty then .ok s
  else
    let s :=
      if msLevel < s.param.currentMaxMSLevel then
        let maps := levelStateUpdate
          (s.peakChargeMap msLevel, s.peakIntMap msLevel, s.peakMassMap msLevel) peakGroups
        { s with
          peakChargeMap := Function.update s.peakChargeMap msLevel maps.1
          peakIntMap := Function.update s.peakIntMap msLevel maps.2.1
          peakMassMap := Function.update s.peakMassMap msLevel maps.2.2 }
      else s
    match incrAt s.qspecCntr (uintPred msLevel) with
    | .error e => .error e
    | .ok qspecCntr =>
      let specIndex := wrapInt (s.specIndex + 1)
      match stampGroups specPos (wrapInt (peakGroups.length : Int)) specIndex (uintPred msLevel)
          peakGroups s.massCntr s.massIndex s.allPeakGroups with
      | .error e => .error e
      | .ok (massCntr, massIndex, all) =>
        .ok { s with
          qspecCntr := qspecCntr
          specIndex := specIndex
          massCntr := massCntr
          massIndex := massIndex
          allPeakGroups := all }

/-- Body of the main loop, lines 115-239, for the spectrum at position `specPos`. -/
def step (collab : Collaborator) (s : RunState) (specPos : Nat) (spec : Spectrum) :
    Except Fault RunState :=
  let msLevel := spec.msLevel
  if msLevel > s.param.currentMaxMSLevel then .ok s
  else
    match incrAt s.specCntr (uintPred msLevel) with
    | .error e => .error e
    | .ok specCntr =>
      match resolveBounds { s with specCntr := specCntr } spec with
      | .error e => .error e
      | .ok s =>
        if SpectrumDeconvolution.empty spec then .ok s
        else deconvolveAndAssemble collab s specPos spec

/-- Main loop, lines 113-240, over the spectra from position `specPos` on. -/
def processAll (collab : Collaborator) : RunState → Nat → List Spectrum → Except Fault RunState
  | s, _, [] => .ok s
  | s, specPos, spec :: rest =>
    match step collab s specPos spec with
    | .error e => .error e
    | .ok s => processAll collab s (specPos + 1) rest

/-- `FLASHDeconvAlgorithm::Deconvolution`: `map` and `param` are the members of
the algorithm object, the other arguments are the arguments of the call. The
returned collection is `allPeakGroups` of the final state; the final state also
holds the caller arrays, indices and parameter object as the call leaves them. -/
def Deconvolution (collab : Collaborator) (map : List Spectrum) (param : Parameter)
    (specCntr qspecCntr massCntr : List Int) (specIndex massIndex : Int) :
    Except Fault RunState :=
  match init map param specCntr qspecCntr massCntr specIndex massIndex with
  | .error e => .error e
  | .ok s => processAll collab s 0 map

/-! ## Definitions used by the statements and proofs -/

/-- Member peaks of a list of peak groups, in group order and then peak order,
each paired with the monoisotopic mass of the group that owns it. -/
def memberPeaks (groups : List PeakGroup) : List (ℚ × LogMzPeak) :=
  groups.flatMap (fun pg => pg.peaks.map (fun p => (pg.monoisotopicMass, p)))

/-- Member peaks whose m/z is exactly `k`, in the same order. -/
def membersAt (groups : List PeakGroup) (k : ℚ) : List (ℚ × LogMzPeak) :=
  (memberPeaks groups).filter (fun m => decide (m.2.mz = k))

/-- What the rebuild loop has established after the member peaks `l`. -/
def UpdateInv (l : List (ℚ × LogMzPeak)) (r : MzMap Int × MzMap ℚ × MzMap ℚ) : Prop :=
  r.1.WF ∧ r.2.1.WF ∧ r.2.2.WF ∧
  ∀ k : ℚ,
    (k ∈ r.1.keys ↔ ∃ m ∈ l, m.2.mz = k) ∧
    (∀ c, r.1.find? k = some c →
      (∃ m ∈ l, m.2.mz = k ∧ m.2.charge = c) ∧ ∀ m ∈ l, m.2.mz = k → m.2.charge ≤ c) ∧
    r.2.1.find? k =
      ((l.filter (fun m => decide (m.2.mz = k))).getLast?).map (fun m => m.2.intensity) ∧
    r.2.2.find? k =
      ((l.filter (fun m => decide (m.2.mz = k))).getLast?).map (fun m => m.1)

/-- The key `k` lies in the normalised window of `pre` (both bounds inclusive). -/
def InWindow (pre : Precursor) (k : ℚ) : Prop := startMz pre ≤ k ∧ k ≤ endMz pre

instance (pre : Precursor) (k : ℚ) : Decidable (InWindow pre k) := by
  unfold InWindow; infer_instance

/-- The `int` variable that holds `v` after `n` executions of `++`. -/
def incrTimes (v : Int) (n : Nat) : Int := (fun x => wrapInt (x + 1))^[n] v

/-- The value is a 32-bit `int`. -/
def InIntRange (v : Int) : Prop := -2 ^ 31 ≤ v ∧ v < 2 ^ 31

instance (v : Int) : Decidable (InIntRange v) := by
  unfold InIntRange; infer_instance

/-- The array `a` after `n` executions of `a[i]++`. -/
def bumpBy (a : List Int) (i : Nat) (n : Nat) : List Int :=
  a.set i (incrTimes ((a[i]?).getD 0) n)

/-- The groups of one spectrum as lines 230-239 append them: `massIndex`
counts on from its value before the loop, the other three stamps are the same
for all groups. -/
def stampList (specPos : Nat) (n : Int) (specIndex : Int) : Int → List PeakGroup → List PeakGroup
  | _, [] => []
  | massIndex, pg :: rest =>
    { pg with
      spec := some specPos
      massIndex := wrapInt (massIndex + 1)
      specIndex := specIndex
      massCntr := n } :: stampList specPos n specIndex (wrapInt (massIndex + 1)) rest

/-- The configuration fields of the parameter object agree (the fields the main
loop never assigns). -/
def Parameter.SameConfig (p q : Parameter) : Prop :=
  p.minCharge = q.minCharge ∧ p.chargeRange = q.chargeRange ∧ p.maxMass = q.maxMass ∧
  p.maxMassCount = q.maxMassCount ∧ p.maxMSLevel = q.maxMSLevel ∧
  p.numOverlappedScans = q.numOverlappedScans ∧ p.currentMaxMSLevel = q.currentMaxMSLevel

/-- Fields that the resolution stage (lines 132-185) leaves alone. -/
def ResolveFrame (s s1 : RunState) : Prop :=
  s1.specCntr = s.specCntr ∧ s1.qspecCntr = s.qspecCntr ∧ s1.massCntr = s.massCntr ∧
  s1.specIndex = s.specIndex ∧ s1.massIndex = s.massIndex ∧
  s1.allPeakGroups = s.allPeakGroups ∧ s1.calls = s.calls ∧
  s1.prevMassBinMap = s.prevMassBinMap ∧ s1.prevMinBinLogMassMap = s.prevMinBinLogMassMap ∧
  Parameter.SameConfig s1.param s.param ∧
  s1.prevChargeRanges.length = s.prevChargeRanges.length ∧
  s1.prevMaxMasses.length = s.prevMaxMasses.length

/-- The peak groups the collaborator returns for `spec` in state `s`. -/
def collabGroups (collab : Collaborator) (s : RunState) (spec : Spectrum) : List PeakGroup :=
  (collab.getPeakGroupsFromSpectrum spec s.param (s.prevMassBinMap spec.msLevel)
    (s.prevMinBinLogMassMap spec.msLevel) spec.msLevel).1

/-- The history entry of the call made for `spec` in state `s`. -/
def callOf (collab : Collaborator) (s : RunState) (specPos : Nat) (spec : Spectrum) :
    CallRecord :=
  { specPos := specPos, msLevel := spec.msLevel, param := s.param,
    peakGroups := collabGroups collab s spec }

/-- What lines 190-239 do to the fields that later stages and the caller read,
given that they complete. -/
def AssembleEffect (collab : Collaborator) (s : RunState) (specPos : Nat) (spec : Spectrum)
    (s' : RunState) : Prop :=
  s'.param = s.param ∧ s'.specCntr = s.specCntr ∧
  s'.prevChargeRanges = s.prevChargeRanges ∧ s'.prevMaxMasses = s.prevMaxMasses ∧
  s'.qspecCntr.length = s.qspecCntr.length ∧ s'.massCntr.length = s.massCntr.length ∧
  s'.calls = s.calls ++ [callOf collab s specPos spec] ∧
  ((collabGroups collab s spec = [] ∧ s'.allPeakGroups = s.allPeakGroups ∧
      s'.specIndex = s.specIndex ∧ s'.massIndex = s.massIndex ∧
      s'.peakChargeMap = s.peakChargeMap ∧ s'.peakIntMap = s.peakIntMap ∧
      s'.peakMassMap = s.peakMassMap) ∨
    (collabGroups collab s spec ≠ [] ∧
      s'.allPeakGroups = s.allPeakGroups ++
        stampList specPos (wrapInt (collabGroups collab s spec).length)
          (wrapInt (s.specIndex + 1)) s.massIndex (collabGroups collab s spec) ∧
      s'.specIndex = wrapInt (s.specIndex + 1) ∧
      s'.massIndex = incrTimes s.massIndex (collabGroups collab s spec).length ∧
      (spec.msLevel < s.param.currentMaxMSLevel →
        (s'.peakChargeMap spec.msLevel, s'.peakIntMap spec.msLevel,
            s'.peakMassMap spec.msLevel) =
          levelStateUpdate (s.peakChargeMap spec.msLevel, s.peakIntMap spec.msLevel,
            s.peakMassMap spec.msLevel) (collabGroups collab s spec))))

/-- Sizes that keep every array index of the main loop in range. -/
def RunState.Sized (s : RunState) : Prop :=
  s.param.currentMaxMSLevel ≤ s.specCntr.length ∧
  s.param.currentMaxMSLevel ≤ s.qspecCntr.length ∧
  s.param.currentMaxMSLevel ≤ s.massCntr.length ∧
  s.prevChargeRanges.length = s.param.currentMaxMSLevel ∧
  s.prevMaxMasses.length = s.param.currentMaxMSLevel

/-- A peak group with the four fields written by lines 234-237 blanked: what
the collaborator produced, whatever the stamps. -/
def PeakGroup.unstamped (g : PeakGroup) : PeakGroup :=
  { g with spec := none, massIndex := 0, specIndex := 0, massCntr := 0 }

/-- The collaborator was not invoked: no history entry, no output, indices kept. -/
def Quiet (s s' : RunState) : Prop :=
  s'.calls = s.calls ∧ s'.allPeakGroups = s.allPeakGroups ∧
  s'.specIndex = s.specIndex ∧ s'.massIndex = s.massIndex

/-- The collaborator was invoked once, as recorded in `c`, and its groups were
stamped and appended. -/
def Invoked (collab : Collaborator) (s : RunState) (specPos : Nat) (spec : Spectrum)
    (s' : RunState) (c : CallRecord) : Prop :=
  s'.calls = s.calls ++ [c] ∧ c.specPos = specPos ∧ c.msLevel = spec.msLevel ∧
  c.param = s'.param ∧
  c.peakGroups = (collab.getPeakGroupsFromSpectrum spec c.param (s.prevMassBinMap spec.msLevel)
    (s.prevMinBinLogMassMap spec.msLevel) spec.msLevel).1 ∧
  (spec.msLevel = 1 → c.param.currentChargeRange = s.param.chargeRange ∧
    c.param.currentMaxMass = s.param.maxMass ∧
    c.param.currentMaxMassCount = s.param.maxMassCount) ∧
  ((c.peakGroups = [] ∧ s'.allPeakGroups = s.allPeakGroups ∧
      s'.specIndex = s.specIndex ∧ s'.massIndex = s.massIndex) ∨
    (c.peakGroups ≠ [] ∧
      s'.allPeakGroups = s.allPeakGroups ++
        stampList specPos (wrapInt c.peakGroups.length) (wrapInt (s.specIndex + 1)) s.massIndex
          c.peakGroups ∧
      s'.specIndex = wrapInt (s.specIndex + 1) ∧
      s'.massIndex = incrTimes s.massIndex c.peakGroups.length))

/-- The state at the head of the main loop, when initialisation completes. -/
def initState (map : List Spectrum) (param : Parameter) (specCntr qspecCntr massCntr : List Int)
    (specIndex massIndex : Int) : RunState :=
  { param := { param with
      currentMaxMSLevel := computeCurrentMaxMSLevel map param.maxMSLevel }
    specCntr := specCntr
    qspecCntr := qspecCntr
    massCntr := massCntr
    specIndex := specIndex
    massIndex := massIndex
    allPeakGroups := []
    prevMassBinMap := fun _ => []
    prevMinBinLogMassMap := fun _ => []
    peakChargeMap := fun _ => []
    peakIntMap := fun _ => []
    peakMassMap := fun _ => []
    prevChargeRanges :=
      List.replicate (computeCurrentMaxMSLevel map param.maxMSLevel) param.chargeRange
    prevMaxMasses :=
      List.replicate (computeCurrentMaxMSLevel map param.maxMSLevel) param.maxMass
    calls := [] }

/-- Inputs for which every index of the run is in range: all MS levels are at
least 1, and the overlap-scan vector and the three caller arrays have an entry
for every processed level. -/
def WellSized (map : List Spectrum) (param : Parameter)
    (specCntr qspecCntr massCntr : List Int) : Prop :=
  (∀ spec ∈ map, 1 ≤ spec.msLevel) ∧
  computeCurrentMaxMSLevel map param.maxMSLevel ≤ param.numOverlappedScans.length ∧
  computeCurrentMaxMSLevel map param.maxMSLevel ≤ specCntr.length ∧
  computeCurrentMaxMSLevel map param.maxMSLevel ≤ qspecCntr.length ∧
  computeCurrentMaxMSLevel map param.maxMSLevel ≤ massCntr.length

/-- The arguments of `reserve` at lines 98 and 100 are sizes: every entry of
`numOverlappedScans` that the initialisation reads is non-negative, and ten
times the entry is an `int`. -/
def ReserveSized (map : List Spectrum) (param : Parameter) : Prop :=
  ∀ n ∈ param.numOverlappedScans.take (computeCurrentMaxMSLevel map param.maxMSLevel),
    0 ≤ n ∧ n * 10 < 2 ^ 31

instance (map : List Spectrum) (param : Parameter) : Decidable (ReserveSized map param) := by
  unfold ReserveSized; infer_instance

/-- The spectrum is one the collaborator is invoked for: within the level
ceiling `cur` and not empty. -/
def isDeconvolved (cur : Nat) (spec : Spectrum) : Bool :=
  decide (spec.msLevel ≤ cur) && !SpectrumDeconvolution.empty spec

instance (s : RunState) : Decidable s.Sized := by
  unfold RunState.Sized; infer_instance

instance (map : List Spectrum) (param : Parameter) (specCntr qspecCntr massCntr : List Int) :
    Decidable (WellSized map param specCntr qspecCntr massCntr) := by
  unfold WellSized; infer_instance

/-- Two output groups come from the same spectrum and carry the same spectrum
index, or from different spectra and the later one carries the larger index. -/
def SpecIndexOrdered (g g' : PeakGroup) : Prop :=
  (g.spec = g'.spec ∧ g.specIndex = g'.specIndex) ∨
  (g.spec ≠ g'.spec ∧ g.specIndex < g'.specIndex)

/-- What the main loop maintains about the mass indices, for a run started
with mass index `m0`: they count on from `m0` by `++`. -/
def MassIndexInv (m0 : Int) (s : RunState) : Prop :=
  s.massIndex = incrTimes m0 s.allPeakGroups.length ∧
  ∀ k (hk : k < s.allPeakGroups.length),
    (s.allPeakGroups[k]).massIndex = incrTimes m0 (k + 1)

/-- What the main loop maintains about the spectrum indices, for a run over `N`
spectra started with spectrum index `si0`, before the spectrum at position
`specPos`, when `si0 + N` is an `int` and so no `specIndex++` of the run
overflows. -/
def SpecIndexInv (N : Nat) (si0 : Int) (s : RunState) (specPos : Nat) : Prop :=
  specPos ≤ N →
    (∀ g ∈ s.allPeakGroups, si0 < g.specIndex ∧ g.specIndex ≤ s.specIndex ∧
      ∃ p, g.spec = some p ∧ p < specPos) ∧
    si0 ≤ s.specIndex ∧ s.specIndex ≤ si0 + specPos ∧
    s.allPeakGroups.Pairwise SpecIndexOrdered

/-- What the main loop maintains about the history, for a run started
with parameter object `param`: the configuration is untouched, and every
invocation at level 1 saw the configured defaults. -/
def DefaultsInv (param : Parameter) (s : RunState) : Prop :=
  Parameter.SameConfig s.param param ∧
  ∀ c ∈ s.calls, c.msLevel = 1 →
    c.param.currentChargeRange = param.chargeRange ∧ c.param.currentMaxMass = param.maxMass ∧
    c.param.currentMaxMassCount = param.maxMassCount

/-! ## Worked examples -/

/-- Parameters of the worked examples: minimum charge 2, defaults 50 / 100000 / 7,
ceiling 3; the `current*` fields hold values left by an earlier run. -/
def exampleParam : Parameter :=
  { minCharge := 2, chargeRange := 50, maxMass := 100000, maxMassCount := 7, maxMSLevel := 3,
    numOverlappedScans := [1, 1, 1], currentMaxMSLevel := 9, currentChargeRange := 9,
    currentMaxMass := 9, currentMaxMassCount := 9 }

/-- A peak group as the collaborator hands it over, stamps not yet set. -/
def rawGroup (mass : ℚ) (peaks : List LogMzPeak) : PeakGroup :=
  { peaks := peaks, monoisotopicMass := mass, spec := none, massIndex := 0, specIndex := 0,
    massCntr := 0 }

/-- Collaborator of the worked examples: for a level-1 spectrum two groups,
mass 5000 with the peak (500, intensity 100, charge 10) and mass 2500 with the
peak (501, intensity 50, charge 5); for a deeper spectrum one group, mass 1200
with the peak (300, intensity 10, charge 4). The windows are passed through. -/
def exampleCollab : Collaborator :=
  { getPeakGroupsFromSpectrum := fun spec _ bins logs _ =>
      (if spec.msLevel = 1 then
          [rawGroup 5000 [⟨500, 100, 10⟩], rawGroup 2500 [⟨501, 50, 5⟩]]
        else [rawGroup 1200 [⟨300, 10, 4⟩]], bins, logs) }

/-- Level-1 spectrum with one peak. -/
def specA : Spectrum := { msLevel := 1, precursors := [], peaks := [(1, 1)] }

/-- Level-2 spectrum with one peak and one precursor, window [499, 502]. -/
def specB : Spectrum :=
  { msLevel := 2, precursors := [⟨500.5, 1.5, 1.5⟩], peaks := [(1, 1)] }

/-- Level-2 spectrum with one peak and one precursor, window [499.5, 500.5]. -/
def specC : Spectrum :=
  { msLevel := 2, precursors := [⟨500, 0.5, 0.5⟩], peaks := [(1, 1)] }

/-- Level-2 spectrum with one peak and one precursor, window [600, 601]. -/
def specD : Spectrum :=
  { msLevel := 2, precursors := [⟨600.5, 0.5, 0.5⟩], peaks := [(1, 1)] }

/-- State at the head of the main loop for the run over `[specA, specB]` with
`exampleParam`, counters of two zeros each, spectrum index 7 and mass index 40. -/
def exampleStart : RunState :=
  initState [specA, specB] exampleParam [0, 0] [0, 0] [0, 0] 7 40

/-- State for the worked example of the fallback: the head of the main loop of a
run over `[specA, specD]`, with level 1 holding the entry m/z 500 and level 2's
fallback values standing at 3 and 2600. -/
def fallbackState : RunState :=
  { initState [specA, specD] exampleParam [0, 0] [0, 0] [0, 0] 0 0 with
    peakChargeMap := fun _ => [(500, 10)]
    peakIntMap := fun _ => [(500, 100)]
    peakMassMap := fun _ => [(500, 5000)]
    prevChargeRanges := [50, 3]
    prevMaxMasses := [100000, 2600] }

/-- The part of a state the worked examples look at: the charge range and max
mass in force, the two fallback arrays, and level 1's intensity map. -/
structure Summary where
  currentChargeRange : Int
  currentMaxMass : ℚ
  prevChargeRanges : List Int
  prevMaxMasses : List ℚ
  levelOneIntensities : List (ℚ × ℚ)
  deriving DecidableEq, Repr

/-- Summary of the state a run or an iteration ends in, if it completes. -/
def summary (r : Except Fault RunState) : Option Summary :=
  match r with
  | .error _ => none
  | .ok s => some
      { currentChargeRange := s.param.currentChargeRange
        currentMaxMass := s.param.currentMaxMass
        prevChargeRanges := s.prevChargeRanges
        prevMaxMasses := s.prevMaxMasses
        levelOneIntensities := s.peakIntMap 1 }

/-- Lines 163-168: the body of the inner loop at a key `mz` inside the window. -/
def scanVisit (st : ScanState) (mz : ℚ) : ScanState :=
  let (cint, intMap) := st.subPeakIntMap.index mz 0
  if st.pint < cint then
    let intMap := intMap.insert mz st.pint
    let (c, chargeMap) := st.subPeakChargeMap.index mz 0
    let (m, massMap) := st.subPeakMassMap.index mz 0
    { mc := c, pint := st.pint, mm := m, subPeakChargeMap := chargeMap,
      subPeakIntMap := intMap, subPeakMassMap := massMap }
  else
    { st with subPeakIntMap := intMap }

/-- The keys at which the inner loop (lines 153-169) runs its body: keys below
`lo` are passed over, the first key above `hi` ends the loop. -/
def examinedKeys (lo hi : ℚ) : List ℚ → List ℚ
  | [] => []
  | mz :: rest =>
    if mz < lo then examinedKeys lo hi rest
    else if mz > hi then []
    else mz :: examinedKeys lo hi rest

/-- The keys a full pass would keep when filtering on the closed interval
`[lo, hi]`: the range filter of the specification. -/
def rangeFilter (lo hi : ℚ) (keys : List ℚ) : List ℚ :=
  keys.filter (fun k => decide (lo ≤ k ∧ k ≤ hi))

/-- The scan can run on the three maps without creating entries: the maps are
well formed and the charge map's keys are keys of the other two. -/
def ScanState.Closed (st : ScanState) : Prop :=
  st.subPeakIntMap.WF ∧
  (∀ k ∈ st.subPeakChargeMap.keys, k ∈ st.subPeakIntMap.keys) ∧
  (∀ k ∈ st.subPeakChargeMap.keys, k ∈ st.subPeakMassMap.keys)

/-- The scan that the resolution stage runs for `spec` in state `s`: lines
142-170 on the maps of the parent level `msLevel - 1`. -/
def scanOf (s : RunState) (spec : Spectrum) : ScanState :=
  scanPrecursors (s.peakChargeMap (uintPred spec.msLevel)) (s.peakIntMap (uintPred spec.msLevel))
    (s.peakMassMap (uintPred spec.msLevel)) spec.precursors

/-- What the resolution stage (lines 132-185) does to the maps, the fallback
arrays and the charge range and max mass in force, given that it completes. -/
def ResolveEffect (s : RunState) (spec : Spectrum) (s1 : RunState) : Prop :=
  (spec.msLevel = 1 →
    s1.peakChargeMap = s.peakChargeMap ∧ s1.peakIntMap = s.peakIntMap ∧
    s1.peakMassMap = s.peakMassMap ∧ s1.prevChargeRanges = s.prevChargeRanges ∧
    s1.prevMaxMasses = s.prevMaxMasses) ∧
  (spec.msLevel ≠ 1 →
    s1.peakChargeMap =
      Function.update s.peakChargeMap (uintPred spec.msLevel) (scanOf s spec).subPeakChargeMap ∧
    s1.peakIntMap =
      Function.update s.peakIntMap (uintPred spec.msLevel) (scanOf s spec).subPeakIntMap ∧
    s1.peakMassMap =
      Function.update s.peakMassMap (uintPred spec.msLevel) (scanOf s spec).subPeakMassMap ∧
    s1.param.currentMaxMassCount = s.param.currentMaxMassCount ∧
    (((scanOf s spec).mc > 0 ∧
        s1.param.currentChargeRange = (scanOf s spec).mc - s.param.minCharge ∧
        s1.param.currentMaxMass = (scanOf s spec).mm + 100 ∧
        s1.prevChargeRanges =
          s.prevChargeRanges.set (uintPred spec.msLevel) s1.param.currentChargeRange ∧
        s1.prevMaxMasses = s.prevMaxMasses.set (uintPred spec.msLevel) s1.param.currentMaxMass ∧
        uintPred spec.msLevel < s.prevChargeRanges.length ∧
        uintPred spec.msLevel < s.prevMaxMasses.length) ∨
      (¬ (scanOf s spec).mc > 0 ∧
        s1.prevChargeRanges = s.prevChargeRanges ∧ s1.prevMaxMasses = s.prevMaxMasses ∧
        s.prevChargeRanges[uintPred spec.msLevel]? = some s1.param.currentChargeRange ∧
        s.prevMaxMasses[uintPred spec.msLevel]? = some s1.param.currentMaxMass)))

/-- Level-2 spectrum without peaks and with one precursor, window [499.5, 500.5]. -/
def specE : Spectrum :=
  { msLevel := 2, precursors := [⟨500, 0.5, 0.5⟩], peaks := [] }

/-- The maximum MS level over the input spectra (0 for an empty input). -/
def maxLevel (map : List Spectrum) : Nat :=
  (map.map Spectrum.msLevel).foldr max 0

/-- The run or iteration ended in a fault instead of a state. -/
def faults (r : Except Fault RunState) : Bool :=
  match r with
  | .error _ => true
  | .ok _ => false

/-- Spectrum with MS level 0 and one peak. -/
def specZero : Spectrum := { msLevel := 0, precursors := [], peaks := [(1, 1)] }

/-- The parameters of the worked examples with the level ceiling set to 0. -/
def zeroCeilingParam : Parameter := { exampleParam with maxMSLevel := 0 }

/-- The state with the charge range and max mass in force blanked: the two
`current*` fields that every processed spectrum assigns before they are read. -/
def forgetStale (s : RunState) : RunState :=
  { s with param := { s.param with currentChargeRange := 0, currentMaxMass := 0 } }

/-- Two parameter objects hold the same configuration and the same
`currentMaxMassCount`; `currentMaxMSLevel`, `currentChargeRange` and
`currentMaxMass` may differ. -/
def Parameter.SameInputs (p q : Parameter) : Prop :=
  p.minCharge = q.minCharge ∧ p.chargeRange = q.chargeRange ∧ p.maxMass = q.maxMass ∧
  p.maxMassCount = q.maxMassCount ∧ p.maxMSLevel = q.maxMSLevel ∧
  p.numOverlappedScans = q.numOverlappedScans ∧ p.currentMaxMassCount = q.currentMaxMassCount

instance (p q : Parameter) : Decidable (Parameter.SameInputs p q) := by
  unfold Parameter.SameInputs; infer_instance

/-- Collaborator whose result depends on the ambient max mass count: it returns
as many copies of one group as `currentMaxMassCount` says. -/
def countCollab : Collaborator :=
  { getPeakGroupsFromSpectrum := fun _ p bins logs _ =>
      (List.replicate p.currentMaxMassCount.toNat (rawGroup 1200 [⟨300, 10, 4⟩]), bins, logs) }

/-- The parameters of the worked examples as a different earlier run may have
left them: same configuration, other values in the four `current*` fields. -/
def staleParam : Parameter :=
  { exampleParam with
    currentMaxMSLevel := 1, currentChargeRange := 4, currentMaxMass := 4,
    currentMaxMassCount := 11 }

/-- The ambient configuration the collaborator is handed at a call. -/
structure Ambient where
  currentChargeRange : Int
  currentMaxMass : ℚ
  currentMaxMassCount : Int
  deriving DecidableEq, Repr

/-- What a run shows to its caller and its collaborator: the ambient
configuration of every call, in order, and the number of groups returned. -/
structure RunView where
  ambient : List Ambient
  outputLength : Nat
  deriving DecidableEq, Repr

/-- View of a run, if it completes. -/
def runView (r : Except Fault RunState) : Option RunView :=
  match r with
  | .error _ => none
  | .ok s => some
      { ambient := s.calls.map (fun c =>
          { currentChargeRange := c.param.currentChargeRange
            currentMaxMass := c.param.currentMaxMass
            currentMaxMassCount := c.param.currentMaxMassCount })
        outputLength := s.allPeakGroups.length }

/-- A successful precursor resolution: the level of the spectrum and the charge
range and max mass resolved for it. -/
structure Resolution where
  level : Nat
  chargeRange : Int
  maxMass : ℚ
  deriving DecidableEq, Repr

/-- Outcome of the resolution stage for `spec` entered in state `s`: the
resolved pair when the spectrum is within the ceiling, deeper than level 1 and
the scan ended with a positive charge (line 171); nothing otherwise. -/
def resolutionOf (s : RunState) (spec : Spectrum) : Option Resolution :=
  if spec.msLevel ≤ s.param.currentMaxMSLevel ∧ spec.msLevel ≠ 1 ∧ (scanOf s spec).mc > 0 then
    some { level := spec.msLevel, chargeRange := (scanOf s spec).mc - s.param.minCharge,
           maxMass := (scanOf s spec).mm + 100 }
  else none

/-- The successful resolutions of the main loop entered in state `s` over
`specs`, oldest first, up to the end or the first fault. -/
def resolutions (collab : Collaborator) : RunState → Nat → List Spectrum → List Resolution
  | _, _, [] => []
  | s, specPos, spec :: rest =>
    match step collab s specPos spec with
    | .error _ => []
    | .ok s' => (resolutionOf s spec).toList ++ resolutions collab s' (specPos + 1) rest

/-- The fallback pair a level should hold after the resolutions `rs`: the pair
of the most recent resolution at that level, or the defaults if there is none. -/
def expectedFallback (defaults : Int × ℚ) (L : Nat) (rs : List Resolution) : Int × ℚ :=
  match (rs.filter (fun r => decide (r.level = L))).getLast? with
  | some r => (r.chargeRange, r.maxMass)
  | none => defaults

/-- The three maps of one level hold the same keys: each has strictly
increasing keys and the key lists coincide. -/
def KeysAgree (chargeMap : MzMap Int) (intMap massMap : MzMap ℚ) : Prop :=
  chargeMap.WF ∧ intMap.WF ∧ massMap.WF ∧
  intMap.keys = chargeMap.keys ∧ massMap.keys = chargeMap.keys

instance (chargeMap : MzMap Int) (intMap massMap : MzMap ℚ) :
    Decidable (KeysAgree chargeMap intMap massMap) := by
  unfold KeysAgree; infer_instance

/-- Key agreement at every level of a run state. -/
def KeyInv (s : RunState) : Prop :=
  ∀ L : Nat, KeysAgree (s.peakChargeMap L) (s.peakIntMap L) (s.peakMassMap L)

/-- The fault a run or an iteration ended in, if any. -/
def faultOf (r : Except Fault RunState) : Option Fault :=
  match r with
  | .error e => some e
  | .ok _ => none

/-- The parameters of the worked examples with a negative overlap-scan entry
for level 1. -/
def negativeOverlapParam : Parameter := { exampleParam with numOverlappedScans := [-1, 1, 1] }

/-- The state in which the collaborator is invoked for `spec` when the iteration
for `spec` starts in `s`: `s` after the counter increment (line 120) and the
resolution stage (lines 132-185). -/
def invokedIn (s : RunState) (spec : Spectrum) : RunState :=
  match resolveBounds { s with specCntr := bumpBy s.specCntr (uintPred spec.msLevel) 1 } spec with
  | .ok s1 => s1
  | .error _ => s

/-- The peak groups the collaborator returns for `spec` when the iteration for
`spec` starts in `s`: its result on the spectrum, the parameter object as the
resolution stage leaves it, the overlap windows of the level and the level. -/
def returnedFor (collab : Collaborator) (s : RunState) (spec : Spectrum) : List PeakGroup :=
  (collab.getPeakGroupsFromSpectrum spec (invokedIn s spec).param
    (s.prevMassBinMap spec.msLevel) (s.prevMinBinLogMassMap spec.msLevel) spec.msLevel).1

/-- The invocations of the collaborator that the main loop makes from state `s`
on, in order: one for every spectrum within the level ceiling that is not
empty, with the position and the level of the spectrum, the parameter object
handed over and the peak groups the collaborator returns. -/
def invocations (collab : Collaborator) : RunState → Nat → List Spectrum → List CallRecord
  | _, _, [] => []
  | s, specPos, spec :: rest =>
    match step collab s specPos spec with
    | .error _ => []
    | .ok s' =>
      (if isDeconvolved s.param.currentMaxMSLevel spec then
          [{ specPos := specPos, msLevel := spec.msLevel, param := (invokedIn s spec).param,
             peakGroups := returnedFor collab s spec }]
        else []) ++ invocations collab s' (specPos + 1) rest

/-- The collaborator's peak groups depend on the spectrum and the level only,
not on the parameter object or the overlap windows it is handed. -/
def Collaborator.Ambientless (collab : Collaborator) : Prop :=
  ∀ (spec : Spectrum) (p p' : Parameter) (b b' : List (List Nat)) (m m' : List ℚ) (l : Nat),
    (collab.getPeakGroupsFromSpectrum spec p b m l).1 =
      (collab.getPeakGroupsFromSpectrum spec p' b' m' l).1

/-- The two indices stamped on the groups of the returned collection, in output
order, if the run completes. -/
def stampedIndices (r : Except Fault RunState) : Option (List (Int × Int)) :=
  match r with
  | .error _ => none
  | .ok s => some (s.allPeakGroups.map (fun g => (g.massIndex, g.specIndex)))

/-! ## Facts about `MzMap` -/

namespace MzMap

variable {V : Type}

theorem find?_insert (m : MzMap V) (k : ℚ) (v : V) (k' : ℚ) :
    (m.insert k v).find? k' = if k' = k then some v else m.find? k' := by
  induction m with
  | nil => simp [insert, find?]
  | cons hd tl ih =>
    obtain ⟨a, b⟩ := hd
    unfold insert
    by_cases h1 : k < a
    · simp [h1, find?]
    · by_cases h2 : k = a
      · subst h2
        simp only [h1, if_false, if_true, find?]
        by_cases h3 : k' = k <;> simp [h3]
      · simp only [h1, h2, if_false, find?, ih]
        by_cases h3 : k' = a
        · subst h3
          have : ¬ k' = k := fun h => h2 h.symm
          simp [this]
        · simp [h3]

theorem mem_keys_insert (m : MzMap V) (k : ℚ) (v : V) (k' : ℚ) :
    k' ∈ (m.insert k v).keys ↔ k' = k ∨ k' ∈ m.keys := by
  induction m with
  | nil => simp [insert, keys]
  | cons hd tl ih =>
    obtain ⟨a, b⟩ := hd
    unfold insert
    by_cases h1 : k < a
    · simp [h1, keys]
    · by_cases h2 : k = a
      · subst h2
        simp [h1, keys]
      · simp only [keys] at ih
        simp only [h1, h2, if_false, keys, List.map_cons, List.mem_cons, ih]
        tauto

theorem find?_isSome_iff (m : MzMap V) (k : ℚ) : (m.find? k).isSome ↔ k ∈ m.keys := by
  induction m with
  | nil => simp [find?, keys]
  | cons hd tl ih =>
    obtain ⟨a, b⟩ := hd
    simp only [keys] at ih
    by_cases h : k = a
    · simp [find?, keys, h]
    · simp [find?, keys, h, ih]

theorem find?_eq_none_iff (m : MzMap V) (k : ℚ) : m.find? k = none ↔ k ∉ m.keys := by
  rw [← find?_isSome_iff]
  cases m.find? k <;> simp

theorem wf_insert (m : MzMap V) (k : ℚ) (v : V) (h : m.WF) : (m.insert k v).WF := by
  induction m with
  | nil => simp [insert, WF]
  | cons hd tl ih =>
    obtain ⟨a, b⟩ := hd
    unfold WF at h ih ⊢
    rw [List.pairwise_cons] at h
    unfold insert
    by_cases h1 : k < a
    · simp only [h1, if_true]
      refine List.Pairwise.cons ?_ (List.Pairwise.cons h.1 h.2)
      intro x hx
      rcases List.mem_cons.1 hx with rfl | hx
      · exact h1
      · exact lt_trans h1 (h.1 x hx)
    · by_cases h2 : k = a
      · subst h2
        simp only [h1, if_false, if_true]
        exact List.Pairwise.cons h.1 h.2
      · simp only [h1, h2, if_false]
        refine List.Pairwise.cons ?_ (ih h.2)
        intro x hx
        have hk : x.1 ∈ keys (insert tl k v) := List.mem_map_of_mem Prod.fst hx
        rw [mem_keys_insert] at hk
        rcases hk with hk | hk
        · rw [hk]
          exact lt_of_le_of_ne (not_lt.1 h1) (fun h => h2 h.symm)
        · obtain ⟨y, hy, hxy⟩ := List.mem_map.1 hk
          rw [← hxy]
          exact h.1 y hy

/-- Reading an existing key through `operator[]` leaves the map as it is. -/
theorem index_of_mem (m : MzMap V) (k : ℚ) (d : V) (h : k ∈ m.keys) :
    (m.index k d).2 = m ∧ m.find? k = some (m.index k d).1 := by
  have := (find?_isSome_iff m k).2 h
  unfold index
  cases hf : m.find? k with
  | none => rw [hf] at this; simp at this
  | some v => simp

end MzMap

/-! ## Level state update -/

theorem foldl_updateGroup_eq (groups : List PeakGroup) (init : MzMap Int × MzMap ℚ × MzMap ℚ) :
    groups.foldl updateGroup init =
      (memberPeaks groups).foldl (fun maps m => updatePeak m.1 maps m.2) init := by
  induction groups generalizing init with
  | nil => simp [memberPeaks]
  | cons pg rest ih =>
    simp only [List.foldl_cons, ih, memberPeaks, List.flatMap_cons, List.foldl_append]
    congr 1
    simp [updateGroup, List.foldl_map]

theorem updateInv_foldl (l : List (ℚ × LogMzPeak)) :
    UpdateInv l (l.foldl (fun maps m => updatePeak m.1 maps m.2) ([], [], [])) := by
  induction l using List.reverseRecOn with
  | nil =>
    refine ⟨List.Pairwise.nil, List.Pairwise.nil, List.Pairwise.nil, ?_⟩
    intro k
    simp [MzMap.keys, MzMap.find?]
  | append_singleton l x ih =>
    rw [List.foldl_append]
    simp only [List.foldl_cons, List.foldl_nil]
    generalize l.foldl (fun maps m => updatePeak m.1 maps m.2) ([], [], []) = r at ih ⊢
    obtain ⟨w1, w2, w3, hk⟩ := ih
    refine ⟨MzMap.wf_insert _ _ _ w1, MzMap.wf_insert _ _ _ w2, MzMap.wf_insert _ _ _ w3, ?_⟩
    intro k
    obtain ⟨hkeys, hmax, hint, hmass⟩ := hk k
    simp only [updatePeak, MzMap.mem_keys_insert, MzMap.find?_insert, List.filter_append,
      List.mem_append, List.mem_singleton]
    refine ⟨?_, ?_, ?_, ?_⟩
    · rw [hkeys]
      constructor
      · rintro (h | ⟨m, hm, h⟩)
        · exact ⟨x, Or.inr rfl, h.symm⟩
        · exact ⟨m, Or.inl hm, h⟩
      · rintro ⟨m, hm | hm, h⟩
        · exact Or.inr ⟨m, hm, h⟩
        · subst hm; exact Or.inl h.symm
    · intro c hc
      by_cases hx : k = x.2.mz
      · subst hx
        simp only [if_true, Option.some.injEq] at hc
        cases hf : r.1.find? x.2.mz with
        | none =>
          rw [hf] at hc
          simp only at hc
          have hno : ¬ ∃ m ∈ l, m.2.mz = x.2.mz := by
            rw [← hkeys, ← MzMap.find?_eq_none_iff]; exact hf
          refine ⟨⟨x, Or.inr rfl, rfl, hc⟩, ?_⟩
          rintro m (hm | hm) hmz
          · exact absurd ⟨m, hm, hmz⟩ hno
          · subst hm; exact le_of_eq hc
        | some pc =>
          rw [hf] at hc
          simp only at hc
          obtain ⟨⟨m0, hm0, hmz0, hc0⟩, hle⟩ := hmax pc hf
          by_cases hgt : x.2.charge > pc
          · rw [if_pos hgt] at hc
            refine ⟨⟨x, Or.inr rfl, rfl, hc⟩, ?_⟩
            rintro m (hm | hm) hmz
            · exact le_trans (hle m hm hmz) (by rw [← hc]; exact le_of_lt hgt)
            · subst hm; exact le_of_eq hc
          · rw [if_neg hgt] at hc
            subst hc
            refine ⟨⟨m0, Or.inl hm0, hmz0, hc0⟩, ?_⟩
            rintro m (hm | hm) hmz
            · exact hle m hm hmz
            · subst hm; exact not_lt.1 hgt
      · rw [if_neg hx] at hc
        obtain ⟨⟨m0, hm0, hmz0, hc0⟩, hle⟩ := hmax c hc
        refine ⟨⟨m0, Or.inl hm0, hmz0, hc0⟩, ?_⟩
        rintro m (hm | hm) hmz
        · exact hle m hm hmz
        · subst hm; exact absurd hmz.symm hx
    · by_cases hx : k = x.2.mz
      · subst hx
        simp
      · have hx' : ¬ x.2.mz = k := fun h => hx h.symm
        simp [hx, hx', hint]
    · by_cases hx : k = x.2.mz
      · subst hx
        simp
      · have hx' : ¬ x.2.mz = k := fun h => hx h.symm
        simp [hx, hx', hmass]

theorem scanKeys_no_match (lo hi : ℚ) (ks : List ℚ) (st : ScanState)
    (h : ∀ k ∈ ks, ¬ (lo ≤ k ∧ k ≤ hi)) : scanKeys lo hi ks st = st := by
  induction ks with
  | nil => rfl
  | cons k rest ih =>
    unfold scanKeys
    by_cases h1 : k < lo
    · simp only [h1, if_true]
      exact ih (fun k' hk' => h k' (List.mem_cons_of_mem _ hk'))
    · have h2 : k > hi := by
        by_contra hc
        exact h k (List.mem_cons_self _ _) ⟨not_lt.1 h1, not_lt.1 hc⟩
      simp only [h1, h2, if_false, if_true]

theorem scanPrecursors_no_match (cm : MzMap Int) (im mm : MzMap ℚ) (pres : List Precursor)
    (h : ∀ pre ∈ pres, ∀ k ∈ cm.keys, ¬ InWindow pre k) :
    scanPrecursors cm im mm pres =
      { mc := -1, pint := 0, mm := -1, subPeakChargeMap := cm,
        subPeakIntMap := im, subPeakMassMap := mm } := by
  unfold scanPrecursors
  induction pres with
  | nil => rfl
  | cons pre rest ih =>
    rw [List.foldl_cons]
    have h0 : scanPrecursor
        { mc := -1, pint := 0, mm := -1, subPeakChargeMap := cm,
          subPeakIntMap := im, subPeakMassMap := mm } pre =
        { mc := -1, pint := 0, mm := -1, subPeakChargeMap := cm,
          subPeakIntMap := im, subPeakMassMap := mm } := by
      unfold scanPrecursor
      exact scanKeys_no_match _ _ _ _ (h pre (List.mem_cons_self _ _))
    rw [h0]
    exact ih (fun p hp => h p (List.mem_cons_of_mem _ hp))

theorem uintPred_of_pos (n : Nat) (h : 0 < n) : uintPred n = n - 1 := by
  unfold uintPred
  rw [if_neg (Nat.pos_iff_ne_zero.1 h)]

theorem wrapInt_of_range (x : Int) (h1 : -2 ^ 31 ≤ x) (h2 : x < 2 ^ 31) : wrapInt x = x := by
  unfold wrapInt
  omega

theorem wrapInt_range (x : Int) : InIntRange (wrapInt x) := by
  unfold InIntRange wrapInt
  omega

theorem incrTimes_zero (v : Int) : incrTimes v 0 = v := rfl

theorem incrTimes_one (v : Int) : incrTimes v 1 = wrapInt (v + 1) := rfl

theorem incrTimes_succ (v : Int) (n : Nat) :
    incrTimes v (n + 1) = wrapInt (incrTimes v n + 1) := by
  unfold incrTimes
  rw [Function.iterate_succ_apply']

theorem incrTimes_succ_left (v : Int) (n : Nat) :
    incrTimes (wrapInt (v + 1)) n = incrTimes v (n + 1) := by
  unfold incrTimes
  rw [Function.iterate_succ_apply]

theorem incrTimes_add (v : Int) (a b : Nat) :
    incrTimes (incrTimes v a) b = incrTimes v (a + b) := by
  unfold incrTimes
  rw [Nat.add_comm, Function.iterate_add_apply]

theorem incrTimes_eq (v : Int) (n : Nat) (h1 : -2 ^ 31 ≤ v) (h2 : v + n < 2 ^ 31) :
    incrTimes v n = v + n := by
  induction n with
  | zero => simp [incrTimes]
  | succ k ih =>
    rw [incrTimes_succ, ih (by push_cast at h2; omega)]
    rw [wrapInt_of_range _ (by omega) (by push_cast at h2 ⊢; omega)]
    push_cast
    ring

theorem length_bumpBy (a : List Int) (i n : Nat) : (bumpBy a i n).length = a.length := by
  simp [bumpBy]

theorem bumpBy_zero (a : List Int) (i : Nat) : bumpBy a i 0 = a := by
  unfold bumpBy
  apply List.ext_getElem?
  intro j
  by_cases hj : i = j
  · subst hj
    by_cases hl : i < a.length
    · simp [List.getElem?_set, hl, incrTimes_zero]
    · simp [List.getElem?_set, hl, List.getElem?_eq_none (not_lt.1 hl)]
  · simp [List.getElem?_set, hj]

theorem bumpBy_bumpBy (a : List Int) (i m n : Nat) :
    bumpBy (bumpBy a i m) i n = bumpBy a i (m + n) := by
  unfold bumpBy
  by_cases hl : i < a.length
  · simp [List.set_set, List.getElem?_set, hl, incrTimes_add]
  · have h1 : a[i]? = none := List.getElem?_eq_none (not_lt.1 hl)
    simp [List.set_set, h1, List.set_eq_of_length_le (not_lt.1 hl)]

theorem incrAt_eq (a : List Int) (i : Nat) (h : i < a.length) :
    incrAt a i = .ok (bumpBy a i 1) := by
  unfold incrAt bumpBy
  simp [List.getElem?_eq_getElem h, incrTimes_one]

theorem incrAt_eq_ok (a a' : List Int) (i : Nat) (h : incrAt a i = .ok a') :
    i < a.length ∧ a' = bumpBy a i 1 := by
  by_cases hl : i < a.length
  · rw [incrAt_eq a i hl] at h
    exact ⟨hl, (Except.ok.inj h).symm⟩
  · unfold incrAt at h
    rw [List.getElem?_eq_none (not_lt.1 hl)] at h
    cases h

theorem length_stampList (specPos : Nat) (n si : Int) (m : Int) (gs : List PeakGroup) :
    (stampList specPos n si m gs).length = gs.length := by
  induction gs generalizing m with
  | nil => rfl
  | cons g rest ih => simp [stampList, ih]

theorem stampGroups_eq (specPos : Nat) (n si : Int) (idx : Nat) (gs : List PeakGroup)
    (massCntr : List Int) (m : Int) (all : List PeakGroup) (h : idx < massCntr.length) :
    stampGroups specPos n si idx gs massCntr m all =
      .ok (bumpBy massCntr idx gs.length, incrTimes m gs.length,
        all ++ stampList specPos n si m gs) := by
  induction gs generalizing massCntr m all with
  | nil => simp [stampGroups, stampList, bumpBy_zero, incrTimes_zero]
  | cons g rest ih =>
    unfold stampGroups
    rw [incrAt_eq _ _ h]
    simp only
    rw [ih _ _ _ (by rw [length_bumpBy]; exact h), bumpBy_bumpBy, incrTimes_succ_left]
    simp only [stampList, List.length_cons, List.append_assoc, List.singleton_append]
    congr 3
    rw [Nat.add_comm]

theorem stampGroups_eq_ok (specPos : Nat) (n si : Int) (idx : Nat) (g : PeakGroup)
    (gs : List PeakGroup) (massCntr : List Int) (m : Int) (all : List PeakGroup)
    (r : List Int × Int × List PeakGroup)
    (h : stampGroups specPos n si idx (g :: gs) massCntr m all = .ok r) :
    idx < massCntr.length := by
  by_contra hl
  unfold stampGroups incrAt at h
  rw [List.getElem?_eq_none (not_lt.1 hl)] at h
  cases h

theorem Parameter.SameConfig.refl (p : Parameter) : Parameter.SameConfig p p :=
  ⟨rfl, rfl, rfl, rfl, rfl, rfl, rfl⟩

theorem Parameter.SameConfig.trans {p q r : Parameter} (h1 : Parameter.SameConfig p q)
    (h2 : Parameter.SameConfig q r) : Parameter.SameConfig p r := by
  obtain ⟨a1, a2, a3, a4, a5, a6, a7⟩ := h1
  obtain ⟨b1, b2, b3, b4, b5, b6, b7⟩ := h2
  exact ⟨a1.trans b1, a2.trans b2, a3.trans b3, a4.trans b4, a5.trans b5, a6.trans b6,
    a7.trans b7⟩

theorem resolveBounds_frame (s s1 : RunState) (spec : Spectrum)
    (h : resolveBounds s spec = .ok s1) : ResolveFrame s s1 := by
  unfold resolveBounds at h
  simp only at h
  split at h
  · cases h
    exact ⟨rfl, rfl, rfl, rfl, rfl, rfl, rfl, rfl, rfl, ⟨rfl, rfl, rfl, rfl, rfl, rfl, rfl⟩,
      rfl, rfl⟩
  · split at h
    · split at h
      · cases h
        refine ⟨rfl, rfl, rfl, rfl, rfl, rfl, rfl, rfl, rfl, ⟨rfl, rfl, rfl, rfl, rfl, rfl, rfl⟩,
          ?_, ?_⟩ <;> simp
      · cases h
    · split at h
      · cases h
        exact ⟨rfl, rfl, rfl, rfl, rfl, rfl, rfl, rfl, rfl, ⟨rfl, rfl, rfl, rfl, rfl, rfl, rfl⟩,
          rfl, rfl⟩
      · cases h

theorem resolveBounds_level_one (s : RunState) (spec : Spectrum) (h1 : spec.msLevel = 1) :
    resolveBounds s spec = .ok { s with
      param := { s.param with
        currentChargeRange := s.param.chargeRange
        currentMaxMass := s.param.maxMass
        currentMaxMassCount := s.param.maxMassCount } } := by
  unfold resolveBounds
  simp [h1]

theorem resolveBounds_ok (s : RunState) (spec : Spectrum)
    (h : spec.msLevel = 1 ∨ (uintPred spec.msLevel < s.prevChargeRanges.length ∧
      uintPred spec.msLevel < s.prevMaxMasses.length)) :
    ∃ s1, resolveBounds s spec = .ok s1 := by
  by_cases h1 : spec.msLevel = 1
  · exact ⟨_, resolveBounds_level_one s spec h1⟩
  · rcases h with h | ⟨ha, hb⟩
    · exact absurd h h1
    · unfold resolveBounds
      simp only [h1, if_false]
      split
      · rw [if_pos ⟨ha, hb⟩]
        exact ⟨_, rfl⟩
      · rw [List.getElem?_eq_getElem ha, List.getElem?_eq_getElem hb]
        exact ⟨_, rfl⟩

theorem resolveBounds_no_match (s : RunState) (spec : Spectrum) (cr : Int) (mx : ℚ)
    (h1 : spec.msLevel ≠ 1)
    (hno : ∀ pre ∈ spec.precursors,
      ∀ k ∈ (s.peakChargeMap (uintPred spec.msLevel)).keys, ¬ InWindow pre k)
    (hc : s.prevChargeRanges[uintPred spec.msLevel]? = some cr)
    (hm : s.prevMaxMasses[uintPred spec.msLevel]? = some mx) :
    resolveBounds s spec = .ok { s with
      param := { s.param with currentChargeRange := cr, currentMaxMass := mx } } := by
  unfold resolveBounds
  simp only [h1, if_false, scanPrecursors_no_match _ _ _ _ hno, Function.update_eq_self]
  rw [if_neg (by decide), hc, hm]

theorem deconvolveAndAssemble_effect (collab : Collaborator) (s s' : RunState) (specPos : Nat)
    (spec : Spectrum) (h : deconvolveAndAssemble collab s specPos spec = .ok s') :
    AssembleEffect collab s specPos spec s' := by
  unfold deconvolveAndAssemble at h
  simp only at h
  by_cases hg : collabGroups collab s spec = []
  · have hg' := hg
    unfold collabGroups at hg'
    rw [hg'] at h
    simp only [List.isEmpty_nil, if_true] at h
    cases h
    refine ⟨rfl, rfl, rfl, rfl, rfl, rfl, ?_, Or.inl ⟨hg, rfl, rfl, rfl, rfl, rfl, rfl⟩⟩
    simp [callOf, collabGroups, hg']
  · have hne : (collab.getPeakGroupsFromSpectrum spec s.param (s.prevMassBinMap spec.msLevel)
        (s.prevMinBinLogMassMap spec.msLevel) spec.msLevel).1.isEmpty = false := by
      cases hx : collabGroups collab s spec with
      | nil => exact absurd hx hg
      | cons a b => unfold collabGroups at hx; rw [hx]; rfl
    rw [hne] at h
    simp only [Bool.false_eq_true, if_false] at h
    by_cases hlt : spec.msLevel < s.param.currentMaxMSLevel
    · simp only [hlt, if_true] at h
      split at h
      · cases h
      · rename_i q hq
        obtain ⟨hql, hqe⟩ := incrAt_eq_ok _ _ _ hq
        split at h
        · cases h
        · rename_i mc mi al hst
          obtain ⟨g, gs, hgs⟩ := List.exists_cons_of_ne_nil hg
          have hgs' := hgs
          unfold collabGroups at hgs'
          have hml : uintPred spec.msLevel < s.massCntr.length := by
            rw [hgs'] at hst
            exact stampGroups_eq_ok _ _ _ _ _ _ _ _ _ _ hst
          rw [stampGroups_eq _ _ _ _ _ _ _ _ hml] at hst
          cases hst
          cases h
          refine ⟨rfl, rfl, rfl, rfl, ?_, ?_, ?_, Or.inr ⟨hg, rfl, rfl, rfl, ?_⟩⟩
          · simp [hqe, length_bumpBy]
          · simp [length_bumpBy]
          · simp [callOf, collabGroups]
          · intro _
            simp [collabGroups]
    · simp only [hlt, if_false] at h
      split at h
      · cases h
      · rename_i q hq
        obtain ⟨hql, hqe⟩ := incrAt_eq_ok _ _ _ hq
        split at h
        · cases h
        · rename_i mc mi al hst
          obtain ⟨g, gs, hgs⟩ := List.exists_cons_of_ne_nil hg
          have hgs' := hgs
          unfold collabGroups at hgs'
          have hml : uintPred spec.msLevel < s.massCntr.length := by
            rw [hgs'] at hst
            exact stampGroups_eq_ok _ _ _ _ _ _ _ _ _ _ hst
          rw [stampGroups_eq _ _ _ _ _ _ _ _ hml] at hst
          cases hst
          cases h
          refine ⟨rfl, rfl, rfl, rfl, ?_, ?_, ?_, Or.inr ⟨hg, rfl, rfl, rfl, ?_⟩⟩
          · simp [hqe, length_bumpBy]
          · simp [length_bumpBy]
          · simp [callOf, collabGroups]
          · intro hc
            exact absurd hc hlt

theorem deconvolveAndAssemble_ok (collab : Collaborator) (s : RunState) (specPos : Nat)
    (spec : Spectrum) (hq : uintPred spec.msLevel < s.qspecCntr.length)
    (hm : uintPred spec.msLevel < s.massCntr.length) :
    ∃ s', deconvolveAndAssemble collab s specPos spec = .ok s' := by
  unfold deconvolveAndAssemble
  simp only
  split
  · exact ⟨_, rfl⟩
  · by_cases hlt : spec.msLevel < s.param.currentMaxMSLevel
    · simp only [hlt, if_true]
      rw [incrAt_eq _ _ hq, stampGroups_eq _ _ _ _ _ _ _ _ hm]
      exact ⟨_, rfl⟩
    · simp only [hlt, if_false]
      rw [incrAt_eq _ _ hq, stampGroups_eq _ _ _ _ _ _ _ _ hm]
      exact ⟨_, rfl⟩

/-! ## One iteration as a whole -/

/-- The three ways an iteration of the main loop completes: the spectrum is
above the level ceiling (line 118), it is counted and resolved but empty
(line 188), or the collaborator is invoked (line 190). -/
theorem step_cases (collab : Collaborator) (s s' : RunState) (specPos : Nat) (spec : Spectrum)
    (h : step collab s specPos spec = .ok s') :
    (spec.msLevel > s.param.currentMaxMSLevel ∧ s' = s) ∨
    (spec.msLevel ≤ s.param.currentMaxMSLevel ∧
      ∃ s1, resolveBounds { s with specCntr := bumpBy s.specCntr (uintPred spec.msLevel) 1 } spec
          = .ok s1 ∧
        uintPred spec.msLevel < s.specCntr.length ∧
        ((SpectrumDeconvolution.empty spec = true ∧ s' = s1) ∨
          (SpectrumDeconvolution.empty spec = false ∧
            deconvolveAndAssemble collab s1 specPos spec = .ok s'))) := by
  unfold step at h
  simp only at h
  by_cases hgt : spec.msLevel > s.param.currentMaxMSLevel
  · rw [if_pos hgt] at h
    exact Or.inl ⟨hgt, (Except.ok.inj h).symm⟩
  · rw [if_neg hgt] at h
    right
    refine ⟨not_lt.1 hgt, ?_⟩
    split at h
    · cases h
    · rename_i sc hsc
      obtain ⟨hl, he⟩ := incrAt_eq_ok _ _ _ hsc
      subst he
      split at h
      · cases h
      · rename_i s1 hs1
        refine ⟨s1, hs1, hl, ?_⟩
        by_cases he : SpectrumDeconvolution.empty spec = true
        · rw [if_pos he] at h
          exact Or.inl ⟨he, (Except.ok.inj h).symm⟩
        · rw [if_neg he] at h
          exact Or.inr ⟨by simpa using he, h⟩

theorem step_skip (collab : Collaborator) (s : RunState) (specPos : Nat) (spec : Spectrum)
    (h : spec.msLevel > s.param.currentMaxMSLevel) : step collab s specPos spec = .ok s := by
  unfold step
  simp only [h, if_true]

theorem step_eq (collab : Collaborator) (s s1 : RunState) (specPos : Nat) (spec : Spectrum)
    (hle : spec.msLevel ≤ s.param.currentMaxMSLevel)
    (hl : uintPred spec.msLevel < s.specCntr.length)
    (h1 : resolveBounds { s with specCntr := bumpBy s.specCntr (uintPred spec.msLevel) 1 } spec
      = .ok s1) :
    step collab s specPos spec =
      if SpectrumDeconvolution.empty spec then .ok s1
      else deconvolveAndAssemble collab s1 specPos spec := by
  unfold step
  simp only [not_lt.2 hle, if_false, incrAt_eq _ _ hl, h1]

/-- Effect of one iteration on the sizes and the configuration. -/
theorem step_preserves (collab : Collaborator) (s s' : RunState) (specPos : Nat)
    (spec : Spectrum) (h : step collab s specPos spec = .ok s') :
    Parameter.SameConfig s'.param s.param ∧
    s'.specCntr.length = s.specCntr.length ∧ s'.qspecCntr.length = s.qspecCntr.length ∧
    s'.massCntr.length = s.massCntr.length ∧
    s'.prevChargeRanges.length = s.prevChargeRanges.length ∧
    s'.prevMaxMasses.length = s.prevMaxMasses.length := by
  rcases step_cases collab s s' specPos spec h with ⟨_, rfl⟩ | ⟨_, s1, h1, _, hrest⟩
  · exact ⟨Parameter.SameConfig.refl _, rfl, rfl, rfl, rfl, rfl⟩
  · obtain ⟨f1, f2, f3, _, _, _, _, _, _, f10, f11, f12⟩ := resolveBounds_frame _ _ _ h1
    simp only [length_bumpBy] at f1 f2 f3 f10 f11 f12
    have f1' : s1.specCntr.length = s.specCntr.length := by rw [f1, length_bumpBy]
    rcases hrest with ⟨_, rfl⟩ | ⟨_, hd⟩
    · exact ⟨f10, f1', by rw [f2], by rw [f3], f11, f12⟩
    · obtain ⟨e1, e2, e3, e4, e5, e6, _, _⟩ := deconvolveAndAssemble_effect _ _ _ _ _ hd
      exact ⟨by rw [e1]; exact f10, by rw [e2]; exact f1', by rw [e5, f2], by rw [e6, f3],
        by rw [e3]; exact f11, by rw [e4]; exact f12⟩

theorem step_sized (collab : Collaborator) (s s' : RunState) (specPos : Nat)
    (spec : Spectrum) (h : step collab s specPos spec = .ok s') (hs : s.Sized) : s'.Sized := by
  obtain ⟨c, l1, l2, l3, l4, l5⟩ := step_preserves collab s s' specPos spec h
  obtain ⟨h1, h2, h3, h4, h5⟩ := hs
  have hc := c.2.2.2.2.2.2
  exact ⟨by rw [hc, l1]; exact h1, by rw [hc, l2]; exact h2, by rw [hc, l3]; exact h3,
    by rw [hc, l4]; exact h4, by rw [hc, l5]; exact h5⟩

theorem step_ok (collab : Collaborator) (s : RunState) (specPos : Nat) (spec : Spectrum)
    (hs : s.Sized) (hpos : 1 ≤ spec.msLevel) : ∃ s', step collab s specPos spec = .ok s' := by
  by_cases hgt : spec.msLevel > s.param.currentMaxMSLevel
  · exact ⟨s, step_skip collab s specPos spec hgt⟩
  · have hle := not_lt.1 hgt
    obtain ⟨h1, h2, h3, h4, h5⟩ := hs
    have hidx : uintPred spec.msLevel < s.param.currentMaxMSLevel := by
      rw [uintPred_of_pos _ hpos]; omega
    obtain ⟨s1, hs1⟩ := resolveBounds_ok
      { s with specCntr := bumpBy s.specCntr (uintPred spec.msLevel) 1 } spec
      (Or.inr ⟨by simp only [h4]; exact hidx, by simp only [h5]; exact hidx⟩)
    rw [step_eq collab s s1 specPos spec hle (lt_of_lt_of_le hidx h1) hs1]
    by_cases he : SpectrumDeconvolution.empty spec = true
    · rw [if_pos he]; exact ⟨s1, rfl⟩
    · rw [if_neg he]
      obtain ⟨_, f2, f3, _⟩ := resolveBounds_frame _ _ _ hs1
      simp only at f2 f3
      exact deconvolveAndAssemble_ok collab s1 specPos spec
        (by rw [f2]; exact lt_of_lt_of_le hidx h2) (by rw [f3]; exact lt_of_lt_of_le hidx h3)

theorem mem_stampList (specPos : Nat) (n si m : Int) (gs : List PeakGroup) (g : PeakGroup)
    (h : g ∈ stampList specPos n si m gs) :
    g.spec = some specPos ∧ g.specIndex = si ∧ g.massCntr = n := by
  induction gs generalizing m with
  | nil => cases h
  | cons a rest ih =>
    rcases List.mem_cons.1 h with rfl | h
    · exact ⟨rfl, rfl, rfl⟩
    · exact ih _ h

theorem stampList_unstamped (specPos : Nat) (n si m : Int) (gs : List PeakGroup) :
    (stampList specPos n si m gs).map PeakGroup.unstamped = gs.map PeakGroup.unstamped := by
  induction gs generalizing m with
  | nil => rfl
  | cons a rest ih =>
    simp only [stampList, List.map_cons, ih]
    rfl

theorem stampList_massIndex (specPos : Nat) (n si m : Int) (gs : List PeakGroup) (k : Nat)
    (hk : k < (stampList specPos n si m gs).length) :
    ((stampList specPos n si m gs)[k]).massIndex = incrTimes m (k + 1) := by
  induction gs generalizing m k with
  | nil => simp [stampList] at hk
  | cons a rest ih =>
    cases k with
    | zero => simp [stampList, incrTimes_one]
    | succ j =>
      simp only [stampList, List.getElem_cons_succ]
      rw [ih, incrTimes_succ_left]

theorem step_effect (collab : Collaborator) (s s' : RunState) (specPos : Nat) (spec : Spectrum)
    (h : step collab s specPos spec = .ok s') :
    ((spec.msLevel > s.param.currentMaxMSLevel ∨ SpectrumDeconvolution.empty spec = true) ∧
      Quiet s s') ∨
    (spec.msLevel ≤ s.param.currentMaxMSLevel ∧ SpectrumDeconvolution.empty spec = false ∧
      ∃ c, Invoked collab s specPos spec s' c) := by
  rcases step_cases collab s s' specPos spec h with ⟨hgt, rfl⟩ | ⟨hle, s1, h1, _, hrest⟩
  · exact Or.inl ⟨Or.inl hgt, rfl, rfl, rfl, rfl⟩
  · obtain ⟨_, _, _, f4, f5, f6, f7, f8, f9, f10, _, _⟩ := resolveBounds_frame _ _ _ h1
    simp only at f4 f5 f6 f7 f8 f9 f10
    rcases hrest with ⟨he, rfl⟩ | ⟨he, hd⟩
    · exact Or.inl ⟨Or.inr he, f7, f6, f4, f5⟩
    · right
      refine ⟨hle, he, callOf collab s1 specPos spec, ?_⟩
      obtain ⟨e1, _, _, _, _, _, e7, e8⟩ := deconvolveAndAssemble_effect _ _ _ _ _ hd
      refine ⟨by rw [e7, f7], rfl, rfl, e1.symm, ?_, ?_, ?_⟩
      · simp only [callOf, collabGroups, f8, f9]
      · intro hone
        rw [resolveBounds_level_one _ _ hone] at h1
        cases h1
        exact ⟨rfl, rfl, rfl⟩
      · rcases e8 with ⟨g0, a, b, c, _⟩ | ⟨g1, a, b, c, _⟩
        · exact Or.inl ⟨g0, by rw [a, f6], by rw [b, f4], by rw [c, f5]⟩
        · refine Or.inr ⟨g1, ?_, by rw [b, f4], ?_⟩
          · rw [a, f6, f4, f5]; rfl
          · rw [c, f5]; rfl

/-! ## The main loop -/

theorem processAll_invariant (collab : Collaborator) (P : RunState → Nat → Prop)
    (hstep : ∀ s specPos spec s', P s specPos → step collab s specPos spec = .ok s' →
      P s' (specPos + 1))
    (specs : List Spectrum) (s : RunState) (specPos : Nat) (s' : RunState)
    (h0 : P s specPos) (h : processAll collab s specPos specs = .ok s') :
    P s' (specPos + specs.length) := by
  induction specs generalizing s specPos with
  | nil =>
    unfold processAll at h
    cases h
    exact h0
  | cons spec rest ih =>
    unfold processAll at h
    split at h
    · cases h
    · rename_i s1 hs1
      have := ih s1 (specPos + 1) (hstep s specPos spec s1 h0 hs1) h
      rw [List.length_cons]
      rw [show specPos + (rest.length + 1) = specPos + 1 + rest.length by omega]
      exact this

theorem processAll_ok (collab : Collaborator) (specs : List Spectrum) (s : RunState)
    (specPos : Nat) (hs : s.Sized) (hpos : ∀ spec ∈ specs, 1 ≤ spec.msLevel) :
    ∃ s', processAll collab s specPos specs = .ok s' := by
  induction specs generalizing s specPos with
  | nil => exact ⟨s, rfl⟩
  | cons spec rest ih =>
    obtain ⟨s1, hs1⟩ := step_ok collab s specPos spec hs (hpos spec (List.mem_cons_self _ _))
    unfold processAll
    rw [hs1]
    exact ih s1 (specPos + 1) (step_sized collab s s1 specPos spec hs1 hs)
      (fun sp hsp => hpos sp (List.mem_cons_of_mem _ hsp))

/-! ## Initialisation and the whole run -/

theorem initLevels_eq_ok_iff (nos : List Int) (js : List Nat) :
    initLevels nos js = .ok () ↔
      ∀ j ∈ js, ∃ n, nos[j - 1]? = some n ∧ 0 ≤ wrapInt (n * 10) := by
  induction js with
  | nil => simp [initLevels]
  | cons j rest ih =>
    unfold initLevels initLevel
    cases hn : nos[j - 1]? with
    | none => simp [hn]
    | some n =>
      by_cases hneg : wrapInt (n * 10) < 0
      · simp only [hneg, if_true]
        constructor
        · intro hc
          cases hc
        intro h
        obtain ⟨n', h1, h2⟩ := h j (List.mem_cons_self _ _)
        rw [hn] at h1
        obtain rfl := Option.some.inj h1
        omega
      · simp only [hneg, if_false, ih, List.mem_cons, forall_eq_or_imp, hn, Option.some.injEq,
          exists_eq_left', not_lt.1 hneg, true_and]

theorem initLevels_cases (nos : List Int) (js : List Nat) :
    initLevels nos js = .ok () ∨ initLevels nos js = .error .outOfRange ∨
      initLevels nos js = .error .lengthError := by
  induction js with
  | nil => exact Or.inl rfl
  | cons j rest ih =>
    unfold initLevels initLevel
    cases nos[j - 1]? with
    | none => exact Or.inr (Or.inl rfl)
    | some n =>
      by_cases hneg : wrapInt (n * 10) < 0
      · simp only [if_pos hneg]
        exact Or.inr (Or.inr trivial)
      · simp only [if_neg hneg]
        exact ih

theorem initLevels_in_range (nos : List Int) (js : List Nat)
    (h : ∀ j ∈ js, j - 1 < nos.length) : initLevels nos js ≠ .error .outOfRange := by
  induction js with
  | nil => intro hc; cases hc
  | cons j rest ih =>
    unfold initLevels initLevel
    have hj : j - 1 < nos.length := h j (List.mem_cons_self _ _)
    rw [List.getElem?_eq_getElem hj]
    by_cases hneg : wrapInt (nos[j - 1] * 10) < 0
    · simp only [if_pos hneg]
      intro hc
      cases hc
    · simp only [if_neg hneg]
      exact ih (fun k hk => h k (List.mem_cons_of_mem _ hk))

theorem initLevels_length (nos : List Int) (cur : Nat)
    (h : initLevels nos (List.range' 1 cur) = .ok ()) : cur ≤ nos.length := by
  rw [initLevels_eq_ok_iff] at h
  by_contra hc
  have hlt : nos.length < cur := not_le.1 hc
  have hm : nos.length + 1 ∈ List.range' 1 cur := by
    rw [List.mem_range'_1]; omega
  obtain ⟨n, hn, _⟩ := h _ hm
  simp at hn

theorem initLevels_of_sized (map : List Spectrum) (param : Parameter)
    (h1 : computeCurrentMaxMSLevel map param.maxMSLevel ≤ param.numOverlappedScans.length)
    (h2 : ReserveSized map param) :
    initLevels param.numOverlappedScans
      (List.range' 1 (computeCurrentMaxMSLevel map param.maxMSLevel)) = .ok () := by
  rw [initLevels_eq_ok_iff]
  intro j hj
  rw [List.mem_range'_1] at hj
  have hlt : j - 1 < param.numOverlappedScans.length := by omega
  refine ⟨param.numOverlappedScans[j - 1], List.getElem?_eq_getElem hlt, ?_⟩
  have hmem : param.numOverlappedScans[j - 1] ∈
      param.numOverlappedScans.take (computeCurrentMaxMSLevel map param.maxMSLevel) := by
    rw [List.mem_take_iff_getElem]
    exact ⟨j - 1, by omega, rfl⟩
  obtain ⟨a, b⟩ := h2 _ hmem
  rw [wrapInt_of_range _ (by omega) b]
  omega

theorem init_eq_of_levels (map : List Spectrum) (param : Parameter)
    (specCntr qspecCntr massCntr : List Int) (specIndex massIndex : Int)
    (h : initLevels param.numOverlappedScans
      (List.range' 1 (computeCurrentMaxMSLevel map param.maxMSLevel)) = .ok ()) :
    init map param specCntr qspecCntr massCntr specIndex massIndex =
      .ok (initState map param specCntr qspecCntr massCntr specIndex massIndex) := by
  unfold init
  simp only [h, initState]

theorem init_eq (map : List Spectrum) (param : Parameter) (specCntr qspecCntr massCntr : List Int)
    (specIndex massIndex : Int)
    (h : computeCurrentMaxMSLevel map param.maxMSLevel ≤ param.numOverlappedScans.length)
    (hr : ReserveSized map param) :
    init map param specCntr qspecCntr massCntr specIndex massIndex =
      .ok (initState map param specCntr qspecCntr massCntr specIndex massIndex) :=
  init_eq_of_levels _ _ _ _ _ _ _ (initLevels_of_sized map param h hr)

theorem init_error (map : List Spectrum) (param : Parameter)
    (specCntr qspecCntr massCntr : List Int) (specIndex massIndex : Int) (e : Fault)
    (h : initLevels param.numOverlappedScans
      (List.range' 1 (computeCurrentMaxMSLevel map param.maxMSLevel)) = .error e) :
    init map param specCntr qspecCntr massCntr specIndex massIndex = .error e := by
  unfold init
  simp only [h]

theorem init_eq_ok (map : List Spectrum) (param : Parameter)
    (specCntr qspecCntr massCntr : List Int) (specIndex massIndex : Int) (s0 : RunState)
    (h : init map param specCntr qspecCntr massCntr specIndex massIndex = .ok s0) :
    computeCurrentMaxMSLevel map param.maxMSLevel ≤ param.numOverlappedScans.length ∧
    s0 = initState map param specCntr qspecCntr massCntr specIndex massIndex := by
  rcases initLevels_cases param.numOverlappedScans
    (List.range' 1 (computeCurrentMaxMSLevel map param.maxMSLevel)) with hl | hl | hl
  · rw [init_eq_of_levels _ _ _ _ _ _ _ hl] at h
    exact ⟨initLevels_length _ _ hl, (Except.ok.inj h).symm⟩
  · rw [init_error _ _ _ _ _ _ _ _ hl] at h
    cases h
  · rw [init_error _ _ _ _ _ _ _ _ hl] at h
    cases h

theorem Deconvolution_eq_ok (collab : Collaborator) (map : List Spectrum) (param : Parameter)
    (specCntr qspecCntr massCntr : List Int) (specIndex massIndex : Int) (s : RunState)
    (h : Deconvolution collab map param specCntr qspecCntr massCntr specIndex massIndex = .ok s) :
    computeCurrentMaxMSLevel map param.maxMSLevel ≤ param.numOverlappedScans.length ∧
    processAll collab (initState map param specCntr qspecCntr massCntr specIndex massIndex) 0 map
      = .ok s := by
  unfold Deconvolution at h
  split at h
  · cases h
  · rename_i s0 hs0
    obtain ⟨hr, rfl⟩ := init_eq_ok _ _ _ _ _ _ _ _ hs0
    exact ⟨hr, h⟩

theorem Deconvolution_ok (collab : Collaborator) (map : List Spectrum) (param : Parameter)
    (specCntr qspecCntr massCntr : List Int) (specIndex massIndex : Int)
    (h : WellSized map param specCntr qspecCntr massCntr) (hr : ReserveSized map param) :
    ∃ s, Deconvolution collab map param specCntr qspecCntr massCntr specIndex massIndex
      = .ok s := by
  obtain ⟨h1, h2, h3, h4, h5⟩ := h
  unfold Deconvolution
  rw [init_eq _ _ _ _ _ _ _ h2 hr]
  exact processAll_ok collab map _ 0
    ⟨h3, h4, h5, by simp [initState], by simp [initState]⟩ h1

theorem processAll_calls (collab : Collaborator) (specs : List Spectrum) (s s' : RunState)
    (specPos : Nat) (h : processAll collab s specPos specs = .ok s') :
    s'.calls.map (fun c => (c.specPos, c.msLevel)) =
      s.calls.map (fun c => (c.specPos, c.msLevel)) ++
        ((specs.enumFrom specPos).filter
          (fun x => isDeconvolved s.param.currentMaxMSLevel x.2)).map
            (fun x => (x.1, x.2.msLevel)) := by
  induction specs generalizing s specPos with
  | nil =>
    unfold processAll at h
    cases h
    simp
  | cons spec rest ih =>
    unfold processAll at h
    split at h
    · cases h
    · rename_i s1 hs1
      have hcfg := (step_preserves collab s s1 specPos spec hs1).1.2.2.2.2.2.2
      rw [ih s1 (specPos + 1) h, hcfg, List.enumFrom_cons, List.filter_cons]
      rcases step_effect collab s s1 specPos spec hs1 with
        ⟨hq, hc, _⟩ | ⟨hle, he, c, hc, hp, hl, _⟩
      · have : isDeconvolved s.param.currentMaxMSLevel spec = false := by
          unfold isDeconvolved
          rcases hq with hq | hq
          · simp [not_le.2 hq]
          · simp [hq]
        simp only [this, hc]
        simp
      · have : isDeconvolved s.param.currentMaxMSLevel spec = true := by
          unfold isDeconvolved
          simp [hle, he]
        simp only [this, hc, if_true, List.map_append, List.map_cons, List.map_nil, hp, hl,
          List.append_assoc, List.singleton_append]

theorem step_massIndexInv (collab : Collaborator) (m0 : Int) (s : RunState) (specPos : Nat)
    (spec : Spectrum) (s' : RunState) (hi : MassIndexInv m0 s)
    (h : step collab s specPos spec = .ok s') : MassIndexInv m0 s' := by
  obtain ⟨i1, i2⟩ := hi
  have keep : s'.allPeakGroups = s.allPeakGroups → s'.massIndex = s.massIndex →
      MassIndexInv m0 s' := by
    intro ha hc
    refine ⟨by rw [hc, ha]; exact i1, ?_⟩
    intro k hk
    simp only [ha] at hk ⊢
    exact i2 k hk
  rcases step_effect collab s s' specPos spec h with
    ⟨_, _, ha, _, hc⟩ | ⟨_, _, c, _, _, _, _, _, _, hr⟩
  · exact keep ha hc
  · rcases hr with ⟨_, ha, _, hc⟩ | ⟨_, ha, _, hc⟩
    · exact keep ha hc
    · refine ⟨?_, ?_⟩
      · rw [hc, ha, i1, List.length_append, length_stampList, incrTimes_add]
      · intro k hk
        simp only [ha] at hk ⊢
        by_cases hlt : k < s.allPeakGroups.length
        · rw [List.getElem_append_left hlt]
          exact i2 k hlt
        · rw [List.getElem_append_right (not_lt.1 hlt), stampList_massIndex, i1, incrTimes_add]
          congr 1
          omega

theorem step_specIndexInv (collab : Collaborator) (N : Nat) (si0 : Int)
    (hlo : -2 ^ 31 ≤ si0) (hhi : si0 + N < 2 ^ 31) (s : RunState) (specPos : Nat)
    (spec : Spectrum) (s' : RunState) (hi : SpecIndexInv N si0 s specPos)
    (h : step collab s specPos spec = .ok s') : SpecIndexInv N si0 s' (specPos + 1) := by
  intro hN
  obtain ⟨i3, i4, i6, i5⟩ := hi (by omega)
  have keep : s'.allPeakGroups = s.allPeakGroups → s'.specIndex = s.specIndex →
      (∀ g ∈ s'.allPeakGroups, si0 < g.specIndex ∧ g.specIndex ≤ s'.specIndex ∧
        ∃ p, g.spec = some p ∧ p < specPos + 1) ∧
      si0 ≤ s'.specIndex ∧ s'.specIndex ≤ si0 + ((specPos + 1 : Nat) : Int) ∧
      s'.allPeakGroups.Pairwise SpecIndexOrdered := by
    intro ha hb
    refine ⟨?_, by rw [hb]; exact i4, by rw [hb]; push_cast; omega, by rw [ha]; exact i5⟩
    intro g hg
    rw [ha] at hg
    obtain ⟨a, b, p, hp, hlt⟩ := i3 g hg
    exact ⟨a, by rw [hb]; exact b, p, hp, Nat.lt_succ_of_lt hlt⟩
  rcases step_effect collab s s' specPos spec h with
    ⟨_, _, ha, hb, _⟩ | ⟨_, _, c, _, _, _, _, _, _, hr⟩
  · exact keep ha hb
  · rcases hr with ⟨_, ha, hb, _⟩ | ⟨_, ha, hb, _⟩
    · exact keep ha hb
    · have hw : wrapInt (s.specIndex + 1) = s.specIndex + 1 :=
        wrapInt_of_range _ (by omega) (by omega)
      rw [hw] at ha hb
      refine ⟨?_, by rw [hb]; omega, by rw [hb]; push_cast; omega, ?_⟩
      · intro g hg
        rw [ha] at hg
        rcases List.mem_append.1 hg with hg | hg
        · obtain ⟨a, b, p, hp, hlt⟩ := i3 g hg
          exact ⟨a, by rw [hb]; omega, p, hp, Nat.lt_succ_of_lt hlt⟩
        · obtain ⟨a, b, _⟩ := mem_stampList _ _ _ _ _ _ hg
          exact ⟨by rw [b]; omega, by rw [b, hb], specPos, a, Nat.lt_succ_self _⟩
      · rw [ha, List.pairwise_append]
        refine ⟨i5, ?_, ?_⟩
        · rw [List.pairwise_iff_forall_sublist]
          intro a b hab
          have ha' := mem_stampList _ _ _ _ _ _ (hab.subset (List.mem_cons_self _ _))
          have hb' := mem_stampList _ _ _ _ _ _
            (hab.subset (List.mem_cons_of_mem _ (List.mem_cons_self _ _)))
          exact Or.inl ⟨by rw [ha'.1, hb'.1], by rw [ha'.2.1, hb'.2.1]⟩
        · intro a ha' b hb'
          obtain ⟨_, a2, p, hp, hlt⟩ := i3 a ha'
          obtain ⟨b1, b2, _⟩ := mem_stampList _ _ _ _ _ _ hb'
          refine Or.inr ⟨?_, by rw [b2]; omega⟩
          rw [hp, b1]
          intro heq
          have := Option.some.inj heq
          omega

theorem processAll_massIndexInv (collab : Collaborator) (map : List Spectrum) (param : Parameter)
    (specCntr qspecCntr massCntr : List Int) (specIndex massIndex : Int) (s : RunState)
    (hp : processAll collab
      (initState map param specCntr qspecCntr massCntr specIndex massIndex) 0 map = .ok s) :
    MassIndexInv massIndex s := by
  refine processAll_invariant collab (fun t _ => MassIndexInv massIndex t)
    (fun s specPos spec s' hi hs => step_massIndexInv collab _ s specPos spec s' hi hs)
    map _ 0 s ?_ hp
  refine ⟨by simp [initState, incrTimes_zero], ?_⟩
  intro k hk
  simp [initState] at hk

theorem processAll_specIndexInv (collab : Collaborator) (map : List Spectrum) (param : Parameter)
    (specCntr qspecCntr massCntr : List Int) (specIndex massIndex : Int) (s : RunState)
    (hlo : -2 ^ 31 ≤ specIndex) (hhi : specIndex + map.length < 2 ^ 31)
    (hp : processAll collab
      (initState map param specCntr qspecCntr massCntr specIndex massIndex) 0 map = .ok s) :
    SpecIndexInv map.length specIndex s map.length := by
  have := processAll_invariant collab (SpecIndexInv map.length specIndex)
    (fun s specPos spec s' hi hs =>
      step_specIndexInv collab _ _ hlo hhi s specPos spec s' hi hs)
    map _ 0 s ?_ hp
  · simpa using this
  · intro _
    refine ⟨?_, by simp [initState], by simp [initState], by simp [initState]⟩
    intro g hg
    simp [initState] at hg

/-! ## Invariants of the history -/

theorem step_defaultsInv (collab : Collaborator) (param : Parameter) (s : RunState)
    (specPos : Nat) (spec : Spectrum) (s' : RunState) (hi : DefaultsInv param s)
    (h : step collab s specPos spec = .ok s') : DefaultsInv param s' := by
  obtain ⟨hcfg, hcalls⟩ := hi
  have hcfg' := (step_preserves collab s s' specPos spec h).1.trans hcfg
  refine ⟨hcfg', ?_⟩
  rcases step_effect collab s s' specPos spec h with
    ⟨_, hc, _⟩ | ⟨_, _, c, hc, _, hl, _, _, hd, _⟩
  · rw [hc]; exact hcalls
  · intro c' hc' hone
    rw [hc] at hc'
    rcases List.mem_append.1 hc' with hc' | hc'
    · exact hcalls c' hc' hone
    · rw [List.mem_singleton] at hc'
      subst hc'
      obtain ⟨d1, d2, d3⟩ := hd (by rw [← hl]; exact hone)
      exact ⟨by rw [d1, hcfg.2.1], by rw [d2, hcfg.2.2.1], by rw [d3, hcfg.2.2.2.1]⟩

theorem calls_in_experiment (collab : Collaborator) (map : List Spectrum) (param : Parameter)
    (specCntr qspecCntr massCntr : List Int) (specIndex massIndex : Int) (s : RunState)
    (h : Deconvolution collab map param specCntr qspecCntr massCntr specIndex massIndex = .ok s) :
    s.calls.map (fun c => (c.specPos, c.msLevel)) =
      (map.enum.filter
        (fun x => isDeconvolved (computeCurrentMaxMSLevel map param.maxMSLevel) x.2)).map
          (fun x => (x.1, x.2.msLevel)) := by
  obtain ⟨_, hp⟩ := Deconvolution_eq_ok _ _ _ _ _ _ _ _ _ h
  have := processAll_calls collab map _ s 0 hp
  simpa [initState, List.enum] using this

/-! ## Single-entry parent maps and the no-match case -/

theorem resolveBounds_no_match_ok (s s1 : RunState) (spec : Spectrum)
    (h : resolveBounds s spec = .ok s1) (h1 : spec.msLevel ≠ 1)
    (hno : ∀ pre ∈ spec.precursors,
      ∀ k ∈ (s.peakChargeMap (uintPred spec.msLevel)).keys, ¬ InWindow pre k) :
    ∃ cr mx, s.prevChargeRanges[uintPred spec.msLevel]? = some cr ∧
      s.prevMaxMasses[uintPred spec.msLevel]? = some mx ∧
      s1 = { s with param := { s.param with currentChargeRange := cr, currentMaxMass := mx } } := by
  cases hc : s.prevChargeRanges[uintPred spec.msLevel]? with
  | none =>
    unfold resolveBounds at h
    simp only [h1, if_false, scanPrecursors_no_match _ _ _ _ hno, Function.update_eq_self] at h
    rw [if_neg (by decide), hc] at h
    cases h
  | some cr =>
    cases hm : s.prevMaxMasses[uintPred spec.msLevel]? with
    | none =>
      unfold resolveBounds at h
      simp only [h1, if_false, scanPrecursors_no_match _ _ _ _ hno, Function.update_eq_self] at h
      rw [if_neg (by decide), hc, hm] at h
      cases h
    | some mx =>
      rw [resolveBounds_no_match s spec cr mx h1 hno hc hm] at h
      exact ⟨cr, mx, rfl, rfl, (Except.ok.inj h).symm⟩

/-! ## The scan as a fold over the examined keys -/

theorem scanKeys_cons (lo hi mz : ℚ) (rest : List ℚ) (st : ScanState) :
    scanKeys lo hi (mz :: rest) st =
      if mz < lo then scanKeys lo hi rest st
      else if mz > hi then st
      else scanKeys lo hi rest (scanVisit st mz) := by
  rw [scanKeys]
  unfold scanVisit
  by_cases h1 : mz < lo
  · simp only [h1, if_true]
  · by_cases h2 : mz > hi
    · simp only [h1, h2, if_false, if_true]
    · simp only [h1, h2, if_false]
      generalize st.subPeakIntMap.index mz 0 = a
      generalize st.subPeakChargeMap.index mz 0 = b
      generalize st.subPeakMassMap.index mz 0 = c
      obtain ⟨a1, a2⟩ := a
      obtain ⟨b1, b2⟩ := b
      obtain ⟨c1, c2⟩ := c
      simp only
      split <;> rfl

theorem scanKeys_eq_foldl (lo hi : ℚ) (keys : List ℚ) (st : ScanState) :
    scanKeys lo hi keys st = (examinedKeys lo hi keys).foldl scanVisit st := by
  induction keys generalizing st with
  | nil => rfl
  | cons mz rest ih =>
    rw [scanKeys_cons, examinedKeys]
    by_cases h1 : mz < lo
    · simp only [h1, if_true]; exact ih st
    · by_cases h2 : mz > hi
      · simp only [h1, h2, if_false, if_true, List.foldl_nil]
      · simp only [h1, h2, if_false, List.foldl_cons]; exact ih _

theorem examinedKeys_eq_rangeFilter (lo hi : ℚ) (keys : List ℚ)
    (hs : keys.Pairwise (fun a b => a < b)) :
    examinedKeys lo hi keys = rangeFilter lo hi keys := by
  induction keys with
  | nil => rfl
  | cons mz rest ih =>
    rw [List.pairwise_cons] at hs
    unfold examinedKeys rangeFilter
    rw [List.filter_cons]
    by_cases h1 : mz < lo
    · have : ¬ (lo ≤ mz ∧ mz ≤ hi) := fun h => absurd h.1 (not_le.2 h1)
      simp only [h1, if_true, this, decide_False, Bool.false_eq_true, if_false]
      exact ih hs.2
    · by_cases h2 : mz > hi
      · have : ¬ (lo ≤ mz ∧ mz ≤ hi) := fun h => absurd h.2 (not_le.2 h2)
        simp only [h1, h2, if_false, if_true, this, decide_False, Bool.false_eq_true]
        symm
        rw [List.filter_eq_nil_iff]
        intro k hk
        have hlt : mz < k := hs.1 k hk
        have : ¬ (lo ≤ k ∧ k ≤ hi) := fun h => absurd h.2 (not_le.2 (lt_trans h2 hlt))
        simp [this]
      · have : lo ≤ mz ∧ mz ≤ hi := ⟨not_lt.1 h1, not_lt.1 h2⟩
        simp only [h1, h2, if_false, this, and_self, decide_True, if_true]
        congr 1
        exact ih hs.2

theorem examinedKeys_empty_window (lo hi : ℚ) (keys : List ℚ) (h : hi < lo) :
    examinedKeys lo hi keys = [] := by
  induction keys with
  | nil => rfl
  | cons mz rest ih =>
    unfold examinedKeys
    by_cases h1 : mz < lo
    · simp only [h1, if_true]; exact ih
    · have h2 : mz > hi := lt_of_lt_of_le h (not_lt.1 h1)
      simp only [h1, h2, if_false, if_true]

theorem examinedKeys_sublist (lo hi : ℚ) (keys : List ℚ) :
    (examinedKeys lo hi keys).Sublist keys := by
  induction keys with
  | nil => exact List.Sublist.slnil
  | cons mz rest ih =>
    unfold examinedKeys
    split
    · exact List.Sublist.cons _ ih
    · split
      · exact List.nil_sublist _
      · exact List.Sublist.cons₂ _ ih

theorem MzMap.keys_pairwise {V : Type} (m : MzMap V) (h : m.WF) :
    m.keys.Pairwise (fun a b => a < b) := by
  unfold MzMap.keys
  rw [List.pairwise_map]
  exact h

/-! ## The scan on maps with agreeing keys -/

theorem MzMap.keys_insert_of_mem {V : Type} (m : MzMap V) (k : ℚ) (v : V) (hwf : m.WF)
    (hk : k ∈ m.keys) : (m.insert k v).keys = m.keys := by
  induction m with
  | nil => simp [MzMap.keys] at hk
  | cons hd tl ih =>
    obtain ⟨a, b⟩ := hd
    unfold MzMap.WF at hwf ih
    rw [List.pairwise_cons] at hwf
    unfold MzMap.insert
    have hmem : k = a ∨ k ∈ MzMap.keys tl := by
      simpa [MzMap.keys] using hk
    by_cases h1 : k < a
    · exfalso
      rcases hmem with h | h
      · exact absurd h (ne_of_lt h1)
      · obtain ⟨y, hy, hyk⟩ := List.mem_map.1 h
        have := hwf.1 y hy
        rw [hyk] at this
        exact absurd h1 (not_lt.2 (le_of_lt this))
    · by_cases h2 : k = a
      · subst h2
        simp [h1, MzMap.keys]
      · simp only [h1, h2, if_false]
        rcases hmem with h | h
        · exact absurd h h2
        · have := ih hwf.2 h
          simp only [MzMap.keys, List.map_cons] at this ⊢
          rw [this]

theorem scanVisit_chargeMap (st : ScanState) (mz : ℚ) (h : mz ∈ st.subPeakChargeMap.keys) :
    (scanVisit st mz).subPeakChargeMap = st.subPeakChargeMap := by
  unfold scanVisit
  have hc := (MzMap.index_of_mem st.subPeakChargeMap mz 0 h).1
  generalize st.subPeakIntMap.index mz 0 = a
  generalize st.subPeakMassMap.index mz 0 = c
  revert hc
  generalize st.subPeakChargeMap.index mz 0 = b
  intro hc
  obtain ⟨a1, a2⟩ := a
  obtain ⟨b1, b2⟩ := b
  obtain ⟨c1, c2⟩ := c
  simp only at hc ⊢
  split
  · exact hc
  · rfl

theorem scanVisit_pint (st : ScanState) (mz : ℚ) : (scanVisit st mz).pint = st.pint := by
  unfold scanVisit
  generalize st.subPeakIntMap.index mz 0 = a
  generalize st.subPeakMassMap.index mz 0 = c
  generalize st.subPeakChargeMap.index mz 0 = b
  obtain ⟨a1, a2⟩ := a
  obtain ⟨b1, b2⟩ := b
  obtain ⟨c1, c2⟩ := c
  simp only
  split <;> rfl

theorem scanVisit_closed (st : ScanState) (mz : ℚ) (hcl : st.Closed)
    (h : mz ∈ st.subPeakChargeMap.keys) :
    (scanVisit st mz).subPeakMassMap = st.subPeakMassMap ∧
    (scanVisit st mz).subPeakIntMap.keys = st.subPeakIntMap.keys ∧
    (scanVisit st mz).Closed := by
  obtain ⟨hwf, hci, hcm⟩ := hcl
  have hcc := scanVisit_chargeMap st mz h
  have hi := (MzMap.index_of_mem st.subPeakIntMap mz 0 (hci mz h)).1
  have hm := (MzMap.index_of_mem st.subPeakMassMap mz 0 (hcm mz h)).1
  have hc := (MzMap.index_of_mem st.subPeakChargeMap mz 0 h).1
  have key : (scanVisit st mz).subPeakMassMap = st.subPeakMassMap ∧
      (scanVisit st mz).subPeakIntMap.keys = st.subPeakIntMap.keys ∧
      (scanVisit st mz).subPeakIntMap.WF := by
    unfold scanVisit
    revert hi hm hc
    generalize st.subPeakIntMap.index mz 0 = a
    generalize st.subPeakMassMap.index mz 0 = c
    generalize st.subPeakChargeMap.index mz 0 = b
    intro hi hm hc
    obtain ⟨a1, a2⟩ := a
    obtain ⟨b1, b2⟩ := b
    obtain ⟨c1, c2⟩ := c
    simp only at hi hm hc ⊢
    subst hi hm hc
    split
    · exact ⟨rfl, MzMap.keys_insert_of_mem _ _ _ hwf (hci mz h), MzMap.wf_insert _ _ _ hwf⟩
    · exact ⟨rfl, rfl, hwf⟩
  refine ⟨key.1, key.2.1, key.2.2, ?_, ?_⟩
  · intro k hk
    rw [hcc] at hk
    rw [key.2.1]
    exact hci k hk
  · intro k hk
    rw [hcc] at hk
    rw [key.1]
    exact hcm k hk

theorem foldl_scanVisit_chargeMap (ks : List ℚ) (st : ScanState)
    (h : ∀ k ∈ ks, k ∈ st.subPeakChargeMap.keys) :
    (ks.foldl scanVisit st).subPeakChargeMap = st.subPeakChargeMap ∧
    (ks.foldl scanVisit st).pint = st.pint := by
  induction ks generalizing st with
  | nil => exact ⟨rfl, rfl⟩
  | cons k rest ih =>
    rw [List.foldl_cons]
    have hc := scanVisit_chargeMap st k (h k (List.mem_cons_self _ _))
    have := ih (scanVisit st k) (fun x hx => by rw [hc]; exact h x (List.mem_cons_of_mem _ hx))
    exact ⟨by rw [this.1, hc], by rw [this.2, scanVisit_pint]⟩

theorem foldl_scanVisit_closed (ks : List ℚ) (st : ScanState) (hcl : st.Closed)
    (h : ∀ k ∈ ks, k ∈ st.subPeakChargeMap.keys) :
    (ks.foldl scanVisit st).subPeakMassMap = st.subPeakMassMap ∧
    (ks.foldl scanVisit st).subPeakIntMap.keys = st.subPeakIntMap.keys ∧
    (ks.foldl scanVisit st).Closed := by
  induction ks generalizing st with
  | nil => exact ⟨rfl, rfl, hcl⟩
  | cons k rest ih =>
    rw [List.foldl_cons]
    have hk := h k (List.mem_cons_self _ _)
    have hc := scanVisit_chargeMap st k hk
    obtain ⟨v1, v2, v3⟩ := scanVisit_closed st k hcl hk
    have := ih (scanVisit st k) v3
      (fun x hx => by rw [hc]; exact h x (List.mem_cons_of_mem _ hx))
    exact ⟨by rw [this.1, v1], by rw [this.2.1, v2], this.2.2⟩

theorem scanPrecursor_chargeMap (st : ScanState) (pre : Precursor) :
    (scanPrecursor st pre).subPeakChargeMap = st.subPeakChargeMap ∧
    (scanPrecursor st pre).pint = st.pint := by
  unfold scanPrecursor
  rw [scanKeys_eq_foldl]
  exact foldl_scanVisit_chargeMap _ st
    (fun k hk => (examinedKeys_sublist _ _ _).subset hk)

theorem scanPrecursor_closed (st : ScanState) (pre : Precursor) (hcl : st.Closed) :
    (scanPrecursor st pre).subPeakMassMap = st.subPeakMassMap ∧
    (scanPrecursor st pre).subPeakIntMap.keys = st.subPeakIntMap.keys ∧
    (scanPrecursor st pre).Closed := by
  unfold scanPrecursor
  rw [scanKeys_eq_foldl]
  exact foldl_scanVisit_closed _ st hcl
    (fun k hk => (examinedKeys_sublist _ _ _).subset hk)

theorem foldl_scanPrecursor_chargeMap (pres : List Precursor) (st : ScanState) :
    (pres.foldl scanPrecursor st).subPeakChargeMap = st.subPeakChargeMap ∧
    (pres.foldl scanPrecursor st).pint = st.pint := by
  induction pres generalizing st with
  | nil => exact ⟨rfl, rfl⟩
  | cons pre rest ih =>
    rw [List.foldl_cons]
    have h1 := scanPrecursor_chargeMap st pre
    have h2 := ih (scanPrecursor st pre)
    exact ⟨by rw [h2.1, h1.1], by rw [h2.2, h1.2]⟩

theorem foldl_scanPrecursor_closed (pres : List Precursor) (st : ScanState) (hcl : st.Closed) :
    (pres.foldl scanPrecursor st).subPeakMassMap = st.subPeakMassMap ∧
    (pres.foldl scanPrecursor st).subPeakIntMap.keys = st.subPeakIntMap.keys ∧
    (pres.foldl scanPrecursor st).Closed := by
  induction pres generalizing st with
  | nil => exact ⟨rfl, rfl, hcl⟩
  | cons pre rest ih =>
    rw [List.foldl_cons]
    obtain ⟨v1, v2, v3⟩ := scanPrecursor_closed st pre hcl
    have := ih (scanPrecursor st pre) v3
    exact ⟨by rw [this.1, v1], by rw [this.2.1, v2], this.2.2⟩

theorem scanOf_chargeMap (s : RunState) (spec : Spectrum) :
    (scanOf s spec).subPeakChargeMap = s.peakChargeMap (uintPred spec.msLevel) ∧
    (scanOf s spec).pint = 0 := by
  unfold scanOf scanPrecursors
  exact foldl_scanPrecursor_chargeMap _ _

theorem scanOf_closed (s : RunState) (spec : Spectrum)
    (hwf : (s.peakIntMap (uintPred spec.msLevel)).WF)
    (hci : ∀ k ∈ (s.peakChargeMap (uintPred spec.msLevel)).keys,
      k ∈ (s.peakIntMap (uintPred spec.msLevel)).keys)
    (hcm : ∀ k ∈ (s.peakChargeMap (uintPred spec.msLevel)).keys,
      k ∈ (s.peakMassMap (uintPred spec.msLevel)).keys) :
    (scanOf s spec).subPeakMassMap = s.peakMassMap (uintPred spec.msLevel) ∧
    (scanOf s spec).subPeakIntMap.keys = (s.peakIntMap (uintPred spec.msLevel)).keys ∧
    (scanOf s spec).subPeakIntMap.WF := by
  unfold scanOf scanPrecursors
  obtain ⟨v1, v2, v3⟩ := foldl_scanPrecursor_closed spec.precursors
    { mc := -1, pint := 0, mm := -1,
      subPeakChargeMap := s.peakChargeMap (uintPred spec.msLevel),
      subPeakIntMap := s.peakIntMap (uintPred spec.msLevel),
      subPeakMassMap := s.peakMassMap (uintPred spec.msLevel) } ⟨hwf, hci, hcm⟩
  exact ⟨v1, v2, v3.1⟩

/-! ## The resolution stage in full -/

theorem resolveBounds_effect (s s1 : RunState) (spec : Spectrum)
    (h : resolveBounds s spec = .ok s1) : ResolveEffect s spec s1 := by
  constructor
  · intro h1
    rw [resolveBounds_level_one s spec h1] at h
    cases h
    exact ⟨rfl, rfl, rfl, rfl, rfl⟩
  · intro h1
    unfold resolveBounds at h
    simp only [h1, if_false] at h
    by_cases hmc : (scanOf s spec).mc > 0
    · have hmc' := hmc
      unfold scanOf at hmc'
      simp only [hmc', if_true] at h
      split at h
      · rename_i hlen
        cases h
        exact ⟨rfl, rfl, rfl, rfl, Or.inl ⟨hmc, rfl, rfl, rfl, rfl, hlen.1, hlen.2⟩⟩
      · cases h
    · have hmc' := hmc
      unfold scanOf at hmc'
      simp only [hmc', if_false] at h
      split at h
      · rename_i cr mx hc hm
        cases h
        exact ⟨rfl, rfl, rfl, rfl, Or.inr ⟨hmc, rfl, rfl, hc, hm⟩⟩
      · cases h

/-! ## Counters -/

theorem processAll_config (collab : Collaborator) (specs : List Spectrum) (s s' : RunState)
    (specPos : Nat) (h : processAll collab s specPos specs = .ok s') :
    Parameter.SameConfig s'.param s.param :=
  processAll_invariant collab (fun t _ => Parameter.SameConfig t.param s.param)
    (fun t p sp t' hi ht => (step_preserves collab t t' p sp ht).1.trans hi)
    specs s specPos s' (Parameter.SameConfig.refl _) h

theorem calls_levels (collab : Collaborator) (map : List Spectrum) (param : Parameter)
    (specCntr qspecCntr massCntr : List Int) (specIndex massIndex : Int) (s : RunState)
    (h : Deconvolution collab map param specCntr qspecCntr massCntr specIndex massIndex = .ok s)
    (c : CallRecord) (hc : c ∈ s.calls) :
    ∃ spec ∈ map, spec.msLevel = c.msLevel ∧
      spec.msLevel ≤ computeCurrentMaxMSLevel map param.maxMSLevel := by
  have hkeys := calls_in_experiment _ _ _ _ _ _ _ _ _ h
  have hmem : (c.specPos, c.msLevel) ∈ s.calls.map (fun c => (c.specPos, c.msLevel)) :=
    List.mem_map.2 ⟨c, hc, rfl⟩
  rw [hkeys] at hmem
  obtain ⟨x, hx, hxe⟩ := List.mem_map.1 hmem
  obtain ⟨hx1, hx2⟩ := List.mem_filter.1 hx
  refine ⟨x.2, List.snd_mem_of_mem_enum hx1, congrArg Prod.snd hxe, ?_⟩
  unfold isDeconvolved at hx2
  simp only [Bool.and_eq_true, decide_eq_true_eq] at hx2
  exact hx2.1

theorem scanMaxMSLevel_eq (map : List Spectrum) (c : Nat) :
    scanMaxMSLevel map c = max c (maxLevel map) := by
  unfold scanMaxMSLevel maxLevel
  induction map generalizing c with
  | nil => simp
  | cons sp rest ih =>
    rw [List.foldl_cons, ih, List.map_cons, List.foldr_cons]
    by_cases h : c < sp.msLevel
    · rw [if_pos h, ← max_assoc, max_eq_right (le_of_lt h)]
    · rw [if_neg h, ← max_assoc, max_eq_left (not_lt.1 h)]

theorem computeCurrentMaxMSLevel_eq (map : List Spectrum) (maxMSLevel : Nat) :
    computeCurrentMaxMSLevel map maxMSLevel = min maxMSLevel (maxLevel map) := by
  unfold computeCurrentMaxMSLevel
  simp only [scanMaxMSLevel_eq, Nat.zero_max]
  by_cases h : maxLevel map > maxMSLevel
  · rw [if_pos h, min_eq_left (le_of_lt h)]
  · rw [if_neg h, min_eq_right (not_lt.1 h)]

theorem processAll_no_level_zero (collab : Collaborator) (specs : List Spectrum)
    (s s' : RunState) (specPos : Nat) (h : processAll collab s specPos specs = .ok s')
    (hlen : s.specCntr.length < 2 ^ 32) : ∀ sp ∈ specs, 1 ≤ sp.msLevel := by
  induction specs generalizing s specPos with
  | nil => intro sp hsp; cases hsp
  | cons spec rest ih =>
    unfold processAll at h
    split at h
    · cases h
    · rename_i s1 hs1
      have hl := (step_preserves collab s s1 specPos spec hs1).2.1
      intro sp hsp
      rcases List.mem_cons.1 hsp with rfl | hsp
      · by_contra hz
        have hz0 : sp.msLevel = 0 := by omega
        rcases step_cases collab s s1 specPos sp hs1 with ⟨hgt, _⟩ | ⟨_, _, _, hidx, _⟩
        · omega
        · rw [hz0] at hidx
          have : uintPred 0 = 2 ^ 32 - 1 := rfl
          omega
      · exact ih s1 (specPos + 1) h (by rw [hl]; exact hlen) sp hsp

theorem processAll_all_skipped (collab : Collaborator) (specs : List Spectrum) (s : RunState)
    (specPos : Nat) (h : ∀ sp ∈ specs, sp.msLevel > s.param.currentMaxMSLevel) :
    processAll collab s specPos specs = .ok s := by
  induction specs generalizing specPos with
  | nil => rfl
  | cons spec rest ih =>
    unfold processAll
    rw [step_skip collab s specPos spec (h spec (List.mem_cons_self _ _))]
    exact ih (specPos + 1) (fun sp hsp => h sp (List.mem_cons_of_mem _ hsp))

theorem step_no_match (collab : Collaborator) (s s' : RunState) (specPos : Nat)
    (spec : Spectrum) (h1 : 1 < spec.msLevel)
    (hno : ∀ pre ∈ spec.precursors,
      ∀ k ∈ (s.peakChargeMap (spec.msLevel - 1)).keys, ¬ InWindow pre k)
    (h : step collab s specPos spec = .ok s') :
    (s.prevChargeRanges[spec.msLevel - 1]? = some s'.param.currentChargeRange ∧
      s.prevMaxMasses[spec.msLevel - 1]? = some s'.param.currentMaxMass ∧
      s'.prevChargeRanges = s.prevChargeRanges ∧ s'.prevMaxMasses = s.prevMaxMasses) ∨
    spec.msLevel > s.param.currentMaxMSLevel := by
  have hu : uintPred spec.msLevel = spec.msLevel - 1 := uintPred_of_pos _ (by omega)
  rcases step_cases collab s s' specPos spec h with ⟨hgt, _⟩ | ⟨_, s1, hs1, _, hrest⟩
  · exact Or.inr hgt
  · left
    obtain ⟨cr, mx, hc, hm, rfl⟩ := resolveBounds_no_match_ok _ _ _ hs1 (by omega)
      (by rw [hu]; exact hno)
    rw [hu] at hc hm
    rcases hrest with ⟨_, rfl⟩ | ⟨_, hd⟩
    · exact ⟨hc, hm, rfl, rfl⟩
    · obtain ⟨e1, _, e3, e4, _⟩ := deconvolveAndAssemble_effect _ _ _ _ _ hd
      exact ⟨by rw [e1]; exact hc, by rw [e1]; exact hm, e3, e4⟩

/-! ## Runs that differ in stale `current*` values -/

theorem eq_of_forgetStale (s t : RunState) (h : forgetStale s = forgetStale t) :
    t = { s with param := { s.param with
      currentChargeRange := t.param.currentChargeRange
      currentMaxMass := t.param.currentMaxMass } } := by
  obtain ⟨sp, s1, s2, s3, s4, s5, s6, s7, s8, s9, s10, s11, s12, s13, s14⟩ := s
  obtain ⟨tp, t1, t2, t3, t4, t5, t6, t7, t8, t9, t10, t11, t12, t13, t14⟩ := t
  obtain ⟨a1, a2, a3, a4, a5, a6, a7, a8, a9, a10⟩ := sp
  obtain ⟨b1, b2, b3, b4, b5, b6, b7, b8, b9, b10⟩ := tp
  simp only [forgetStale, RunState.mk.injEq, Parameter.mk.injEq] at h
  obtain ⟨⟨rfl, rfl, rfl, rfl, rfl, rfl, rfl, _, _, rfl⟩, rfl, rfl, rfl, rfl, rfl, rfl, rfl, rfl,
    rfl, rfl, rfl, rfl, rfl, rfl⟩ := h
  rfl

theorem resolveBounds_forgetStale (s t : RunState) (spec : Spectrum)
    (h : forgetStale s = forgetStale t) : resolveBounds s spec = resolveBounds t spec := by
  rw [eq_of_forgetStale s t h]
  rfl

theorem step_forgetStale (collab : Collaborator) (s t : RunState) (specPos : Nat)
    (spec : Spectrum) (h : forgetStale s = forgetStale t) :
    (step collab s specPos spec).map forgetStale = (step collab t specPos spec).map forgetStale := by
  have ht := eq_of_forgetStale s t h
  by_cases hgt : spec.msLevel > s.param.currentMaxMSLevel
  · have hgt' : spec.msLevel > t.param.currentMaxMSLevel := by rw [ht]; exact hgt
    rw [step_skip collab s specPos spec hgt, step_skip collab t specPos spec hgt']
    simp only [Except.map, h]
  · have hgt' : ¬ spec.msLevel > t.param.currentMaxMSLevel := by rw [ht]; exact hgt
    have hc : t.specCntr = s.specCntr := by rw [ht]
    have hr : ∀ sc, resolveBounds { s with specCntr := sc } spec =
        resolveBounds { t with specCntr := sc } spec := by
      intro sc
      apply resolveBounds_forgetStale
      rw [ht]
      rfl
    unfold step
    simp only [hgt, hgt', if_false, hc]
    cases incrAt s.specCntr (uintPred spec.msLevel) with
    | error e => rfl
    | ok sc =>
      simp only [hr sc]

theorem processAll_forgetStale (collab : Collaborator) (specs : List Spectrum) (s t : RunState)
    (specPos : Nat) (h : forgetStale s = forgetStale t) :
    (processAll collab s specPos specs).map forgetStale =
      (processAll collab t specPos specs).map forgetStale := by
  induction specs generalizing s t specPos with
  | nil =>
    unfold processAll
    simp only [Except.map, h]
  | cons spec rest ih =>
    have hs := step_forgetStale collab s t specPos spec h
    unfold processAll
    revert hs
    generalize step collab s specPos spec = a
    generalize step collab t specPos spec = b
    intro hs
    cases a with
    | error e =>
      cases b with
      | error e' => exact hs
      | ok t1 => cases hs
    | ok s1 =>
      cases b with
      | error e' => cases hs
      | ok t1 =>
        simp only [Except.map, Except.ok.injEq] at hs
        exact ih s1 t1 (specPos + 1) hs

/-! ## Fallback values -/

theorem expectedFallback_nil (d : Int × ℚ) (L : Nat) : expectedFallback d L [] = d := rfl

theorem expectedFallback_cons (d : Int × ℚ) (L : Nat) (r : Resolution) (rs : List Resolution) :
    expectedFallback d L (r :: rs) =
      expectedFallback (if r.level = L then (r.chargeRange, r.maxMass) else d) L rs := by
  unfold expectedFallback
  rw [List.filter_cons]
  by_cases h : r.level = L
  · simp only [h, decide_True, if_true]
    cases hf : rs.filter (fun r => decide (r.level = L)) with
    | nil => simp
    | cons a l =>
      rw [List.getLast?_cons_cons]
      have : ∃ x, (a :: l).getLast? = some x := ⟨_, List.getLast?_eq_getLast _ (by simp)⟩
      obtain ⟨x, hx⟩ := this
      rw [hx]
  · simp only [h, decide_False, Bool.false_eq_true, if_false]

theorem step_fallback (collab : Collaborator) (s s' : RunState) (specPos : Nat) (spec : Spectrum)
    (h : step collab s specPos spec = .ok s') :
    (resolutionOf s spec = none ∧ s'.prevChargeRanges = s.prevChargeRanges ∧
      s'.prevMaxMasses = s.prevMaxMasses) ∨
    (∃ r, resolutionOf s spec = some r ∧ r.level = spec.msLevel ∧
      s'.param.currentChargeRange = r.chargeRange ∧ s'.param.currentMaxMass = r.maxMass ∧
      s'.prevChargeRanges = s.prevChargeRanges.set (uintPred spec.msLevel) r.chargeRange ∧
      s'.prevMaxMasses = s.prevMaxMasses.set (uintPred spec.msLevel) r.maxMass ∧
      uintPred spec.msLevel < s.prevChargeRanges.length ∧
      uintPred spec.msLevel < s.prevMaxMasses.length) := by
  rcases step_cases collab s s' specPos spec h with ⟨hgt, rfl⟩ | ⟨hle, s1, hs1, _, hrest⟩
  · left
    refine ⟨?_, rfl, rfl⟩
    unfold resolutionOf
    rw [if_neg]
    intro hc
    omega
  · obtain ⟨e1, e2⟩ := resolveBounds_effect _ _ _ hs1
    have hscan : scanOf { s with specCntr := bumpBy s.specCntr (uintPred spec.msLevel) 1 } spec
        = scanOf s spec := rfl
    rw [hscan] at e2
    simp only at e1 e2
    have hfin : s'.param = s1.param ∧ s'.prevChargeRanges = s1.prevChargeRanges ∧
        s'.prevMaxMasses = s1.prevMaxMasses := by
      rcases hrest with ⟨_, rfl⟩ | ⟨_, hd⟩
      · exact ⟨rfl, rfl, rfl⟩
      · obtain ⟨a, _, b, c, _⟩ := deconvolveAndAssemble_effect _ _ _ _ _ hd
        exact ⟨a, b, c⟩
    obtain ⟨fp, fc, fm⟩ := hfin
    by_cases h1 : spec.msLevel = 1
    · left
      refine ⟨?_, by rw [fc, (e1 h1).2.2.2.1], by rw [fm, (e1 h1).2.2.2.2]⟩
      unfold resolutionOf
      rw [if_neg]
      intro hc
      exact hc.2.1 h1
    · rcases (e2 h1).2.2.2.2 with ⟨hmc, c1, c2, p1, p2, l1, l2⟩ | ⟨hmc, p1, p2, _, _⟩
      · right
        refine ⟨⟨spec.msLevel, (scanOf s spec).mc - s.param.minCharge,
          (scanOf s spec).mm + 100⟩, ?_, rfl, ?_, ?_, ?_, ?_, l1, l2⟩
        · unfold resolutionOf
          rw [if_pos ⟨hle, h1, hmc⟩]
        · rw [fp, c1]
        · rw [fp, c2]
        · rw [fc, p1, c1]
        · rw [fm, p2, c2]
      · left
        refine ⟨?_, by rw [fc, p1], by rw [fm, p2]⟩
        unfold resolutionOf
        rw [if_neg]
        intro hc
        exact hmc hc.2.2

theorem resolutions_cons_ok (collab : Collaborator) (s s1 : RunState) (specPos : Nat)
    (spec : Spectrum) (rest : List Spectrum) (h : step collab s specPos spec = .ok s1) :
    resolutions collab s specPos (spec :: rest) =
      (resolutionOf s spec).toList ++ resolutions collab s1 (specPos + 1) rest := by
  rw [resolutions]
  simp only [h]

theorem processAll_fallback (collab : Collaborator) (specs : List Spectrum) (s s' : RunState)
    (specPos : Nat) (h : processAll collab s specPos specs = .ok s')
    (hpos : ∀ sp ∈ specs, 1 ≤ sp.msLevel) (L : Nat) (hL : 1 ≤ L) (cr : Int) (mx : ℚ)
    (hc : s.prevChargeRanges[L - 1]? = some cr) (hm : s.prevMaxMasses[L - 1]? = some mx) :
    s'.prevChargeRanges[L - 1]? =
      some (expectedFallback (cr, mx) L (resolutions collab s specPos specs)).1 ∧
    s'.prevMaxMasses[L - 1]? =
      some (expectedFallback (cr, mx) L (resolutions collab s specPos specs)).2 := by
  induction specs generalizing s specPos cr mx with
  | nil =>
    unfold processAll at h
    obtain rfl := Except.ok.inj h
    exact ⟨hc, hm⟩
  | cons spec rest ih =>
    unfold processAll at h
    split at h
    · cases h
    · rename_i s1 hs1
      rw [resolutions_cons_ok collab s s1 specPos spec rest hs1]
      have hsp := hpos spec (List.mem_cons_self _ _)
      have hu : uintPred spec.msLevel = spec.msLevel - 1 := uintPred_of_pos _ hsp
      have hrest := fun sp hsp => hpos sp (List.mem_cons_of_mem _ hsp)
      rcases step_fallback collab s s1 specPos spec hs1 with
        ⟨hn, p1, p2⟩ | ⟨r, hr, hl, _, _, p1, p2, l1, l2⟩
      · rw [hn]
        simp only [Option.toList, List.nil_append]
        exact ih s1 (specPos + 1) h hrest cr mx (by rw [p1]; exact hc) (by rw [p2]; exact hm)
      · rw [hr]
        simp only [Option.toList, List.singleton_append]
        rw [expectedFallback_cons]
        by_cases he : spec.msLevel = L
        · have hrl : r.level = L := by rw [hl, he]
          simp only [hrl, if_true]
          apply ih s1 (specPos + 1) h hrest
          · rw [p1, hu, he, List.getElem?_set_self (by rw [← he, ← hu]; exact l1)]
          · rw [p2, hu, he, List.getElem?_set_self (by rw [← he, ← hu]; exact l2)]
        · have hrl : ¬ r.level = L := by rw [hl]; exact he
          simp only [hrl, if_false]
          have hne : spec.msLevel - 1 ≠ L - 1 := by omega
          apply ih s1 (specPos + 1) h hrest
          · rw [p1, hu, List.getElem?_set_ne hne]; exact hc
          · rw [p2, hu, List.getElem?_set_ne hne]; exact hm

/-! ## Key agreement of the three maps of a level -/

theorem MzMap.keys_insert_congr {V W : Type} (m1 : MzMap V) (m2 : MzMap W)
    (h : m1.keys = m2.keys) (k : ℚ) (v : V) (w : W) :
    (m1.insert k v).keys = (m2.insert k w).keys := by
  induction m1 generalizing m2 with
  | nil =>
    cases m2 with
    | nil => rfl
    | cons b t => simp [MzMap.keys] at h
  | cons a t ih =>
    cases m2 with
    | nil => simp [MzMap.keys] at h
    | cons b u =>
      obtain ⟨a1, a2⟩ := a
      obtain ⟨b1, b2⟩ := b
      simp only [MzMap.keys, List.map_cons, List.cons.injEq] at h
      obtain ⟨h1, h2⟩ := h
      subst h1
      unfold MzMap.insert
      by_cases c1 : k < a1
      · simp only [c1, if_true, MzMap.keys, List.map_cons, h2]
      · by_cases c2 : k = a1
        · simp only [c1, c2, if_false, if_true, MzMap.keys, List.map_cons, h2, lt_self_iff_false]
        · simp only [c1, c2, if_false, MzMap.keys, List.map_cons, List.cons.injEq, true_and]
          exact ih u h2

theorem updatePeak_keysAgree (mono : ℚ) (r : MzMap Int × MzMap ℚ × MzMap ℚ) (p : LogMzPeak)
    (h : KeysAgree r.1 r.2.1 r.2.2) :
    KeysAgree (updatePeak mono r p).1 (updatePeak mono r p).2.1 (updatePeak mono r p).2.2 := by
  obtain ⟨w1, w2, w3, k2, k3⟩ := h
  unfold updatePeak
  exact ⟨MzMap.wf_insert _ _ _ w1, MzMap.wf_insert _ _ _ w2, MzMap.wf_insert _ _ _ w3,
    MzMap.keys_insert_congr _ _ k2 _ _ _, MzMap.keys_insert_congr _ _ k3 _ _ _⟩

theorem foldl_updatePeak_keysAgree (mono : ℚ) (ps : List LogMzPeak)
    (r : MzMap Int × MzMap ℚ × MzMap ℚ) (h : KeysAgree r.1 r.2.1 r.2.2) :
    KeysAgree (ps.foldl (updatePeak mono) r).1 (ps.foldl (updatePeak mono) r).2.1
      (ps.foldl (updatePeak mono) r).2.2 := by
  induction ps generalizing r with
  | nil => exact h
  | cons p rest ih => exact ih _ (updatePeak_keysAgree mono r p h)

theorem foldl_updateGroup_keysAgree (groups : List PeakGroup)
    (r : MzMap Int × MzMap ℚ × MzMap ℚ) (h : KeysAgree r.1 r.2.1 r.2.2) :
    KeysAgree (groups.foldl updateGroup r).1 (groups.foldl updateGroup r).2.1
      (groups.foldl updateGroup r).2.2 := by
  induction groups generalizing r with
  | nil => exact h
  | cons g rest ih => exact ih _ (foldl_updatePeak_keysAgree _ _ r h)

theorem levelStateUpdate_keysAgree (maps : MzMap Int × MzMap ℚ × MzMap ℚ)
    (groups : List PeakGroup) :
    KeysAgree (levelStateUpdate maps groups).1 (levelStateUpdate maps groups).2.1
      (levelStateUpdate maps groups).2.2 := by
  unfold levelStateUpdate
  exact foldl_updateGroup_keysAgree groups _
    ⟨List.Pairwise.nil, List.Pairwise.nil, List.Pairwise.nil, rfl, rfl⟩

theorem scanOf_keysAgree (s : RunState) (spec : Spectrum)
    (h : KeysAgree (s.peakChargeMap (uintPred spec.msLevel)) (s.peakIntMap (uintPred spec.msLevel))
      (s.peakMassMap (uintPred spec.msLevel))) :
    (scanOf s spec).subPeakChargeMap = s.peakChargeMap (uintPred spec.msLevel) ∧
    (scanOf s spec).subPeakMassMap = s.peakMassMap (uintPred spec.msLevel) ∧
    (scanOf s spec).subPeakIntMap.keys = (s.peakIntMap (uintPred spec.msLevel)).keys ∧
    (scanOf s spec).subPeakIntMap.WF := by
  obtain ⟨w1, w2, w3, k2, k3⟩ := h
  have hc := scanOf_closed s spec w2 (fun k hk => by rw [k2]; exact hk)
    (fun k hk => by rw [k3]; exact hk)
  exact ⟨(scanOf_chargeMap s spec).1, hc.1, hc.2.1, hc.2.2⟩

/-- The resolution stage on maps with agreeing keys: the charge and mass maps
are left as they are, and no key is added to or removed from an intensity map. -/
theorem resolveBounds_keys (s s1 : RunState) (spec : Spectrum) (hi : KeyInv s)
    (h : resolveBounds s spec = .ok s1) :
    s1.peakChargeMap = s.peakChargeMap ∧ s1.peakMassMap = s.peakMassMap ∧
    (∀ L, (s1.peakIntMap L).keys = (s.peakIntMap L).keys) ∧ KeyInv s1 := by
  obtain ⟨e1, e2⟩ := resolveBounds_effect s s1 spec h
  by_cases h1 : spec.msLevel = 1
  · obtain ⟨a, b, c, _, _⟩ := e1 h1
    refine ⟨a, c, fun L => by rw [b], ?_⟩
    intro L
    rw [a, b, c]
    exact hi L
  · obtain ⟨a, b, c, _⟩ := e2 h1
    obtain ⟨q1, q2, q3, q4⟩ := scanOf_keysAgree s spec (hi _)
    have ha : s1.peakChargeMap = s.peakChargeMap := by
      rw [a, q1]; exact Function.update_eq_self _ _
    have hc : s1.peakMassMap = s.peakMassMap := by
      rw [c, q2]; exact Function.update_eq_self _ _
    have hb : ∀ L, (s1.peakIntMap L).keys = (s.peakIntMap L).keys := by
      intro L
      rw [b]
      by_cases hL : L = uintPred spec.msLevel
      · subst hL
        rw [Function.update_same]
        exact q3
      · rw [Function.update_noteq hL]
    refine ⟨ha, hc, hb, ?_⟩
    intro L
    obtain ⟨w1, w2, w3, k2, k3⟩ := hi L
    rw [ha, hc]
    refine ⟨w1, ?_, w3, by rw [hb L]; exact k2, k3⟩
    rw [b]
    by_cases hL : L = uintPred spec.msLevel
    · subst hL
      rw [Function.update_same]
      exact q4
    · rw [Function.update_noteq hL]
      exact w2

theorem deconvolveAndAssemble_maps (collab : Collaborator) (s s' : RunState) (specPos : Nat)
    (spec : Spectrum) (h : deconvolveAndAssemble collab s specPos spec = .ok s') :
    (s'.peakChargeMap = s.peakChargeMap ∧ s'.peakIntMap = s.peakIntMap ∧
      s'.peakMassMap = s.peakMassMap) ∨
    (s'.peakChargeMap = Function.update s.peakChargeMap spec.msLevel
        (levelStateUpdate (s.peakChargeMap spec.msLevel, s.peakIntMap spec.msLevel,
          s.peakMassMap spec.msLevel) (collabGroups collab s spec)).1 ∧
      s'.peakIntMap = Function.update s.peakIntMap spec.msLevel
        (levelStateUpdate (s.peakChargeMap spec.msLevel, s.peakIntMap spec.msLevel,
          s.peakMassMap spec.msLevel) (collabGroups collab s spec)).2.1 ∧
      s'.peakMassMap = Function.update s.peakMassMap spec.msLevel
        (levelStateUpdate (s.peakChargeMap spec.msLevel, s.peakIntMap spec.msLevel,
          s.peakMassMap spec.msLevel) (collabGroups collab s spec)).2.2) := by
  unfold deconvolveAndAssemble at h
  simp only at h
  by_cases hg : (collab.getPeakGroupsFromSpectrum spec s.param (s.prevMassBinMap spec.msLevel)
      (s.prevMinBinLogMassMap spec.msLevel) spec.msLevel).1.isEmpty = true
  · rw [hg] at h
    simp only [if_true] at h
    cases h
    exact Or.inl ⟨rfl, rfl, rfl⟩
  · simp only [hg, Bool.false_eq_true, if_false] at h
    by_cases hlt : spec.msLevel < s.param.currentMaxMSLevel
    · simp only [hlt, if_true] at h
      split at h
      · cases h
      · split at h
        · cases h
        · cases h
          exact Or.inr ⟨rfl, rfl, rfl⟩
    · simp only [hlt, if_false] at h
      split at h
      · cases h
      · split at h
        · cases h
        · cases h
          exact Or.inl ⟨rfl, rfl, rfl⟩

theorem deconvolveAndAssemble_keyInv (collab : Collaborator) (s s' : RunState) (specPos : Nat)
    (spec : Spectrum) (hi : KeyInv s)
    (h : deconvolveAndAssemble collab s specPos spec = .ok s') : KeyInv s' := by
  rcases deconvolveAndAssemble_maps collab s s' specPos spec h with ⟨a, b, c⟩ | ⟨a, b, c⟩
  · intro L
    rw [a, b, c]
    exact hi L
  · intro L
    rw [a, b, c]
    by_cases hL : L = spec.msLevel
    · subst hL
      simp only [Function.update_same]
      exact levelStateUpdate_keysAgree _ _
    · simp only [Function.update_noteq hL]
      exact hi L

theorem step_keyInv (collab : Collaborator) (s s' : RunState) (specPos : Nat) (spec : Spectrum)
    (hi : KeyInv s) (h : step collab s specPos spec = .ok s') : KeyInv s' := by
  rcases step_cases collab s s' specPos spec h with ⟨_, rfl⟩ | ⟨_, s1, hr, _, hc⟩
  · exact hi
  · have h1 : KeyInv s1 :=
      (resolveBounds_keys { s with specCntr := bumpBy s.specCntr (uintPred spec.msLevel) 1 }
        s1 spec hi hr).2.2.2
    rcases hc with ⟨_, rfl⟩ | ⟨_, hd⟩
    · exact h1
    · exact deconvolveAndAssemble_keyInv collab s1 s' specPos spec h1 hd

theorem initState_keyInv (map : List Spectrum) (param : Parameter)
    (specCntr qspecCntr massCntr : List Int) (specIndex massIndex : Int) :
    KeyInv (initState map param specCntr qspecCntr massCntr specIndex massIndex) := by
  intro L
  exact ⟨List.Pairwise.nil, List.Pairwise.nil, List.Pairwise.nil, rfl, rfl⟩

theorem processAll_keyInv (collab : Collaborator) (specs : List Spectrum) (s s' : RunState)
    (specPos : Nat) (hi : KeyInv s) (h : processAll collab s specPos specs = .ok s') :
    KeyInv s' :=
  processAll_invariant collab (fun t _ => KeyInv t)
    (fun t pos spec t' ht hstep => step_keyInv collab t t' pos spec ht hstep)
    specs s specPos s' hi h

/-! ## The invocations of the collaborator -/

theorem step_calls (collab : Collaborator) (s s' : RunState) (specPos : Nat) (spec : Spectrum)
    (h : step collab s specPos spec = .ok s') :
    s'.calls = s.calls ++
      (if isDeconvolved s.param.currentMaxMSLevel spec then
          [{ specPos := specPos, msLevel := spec.msLevel, param := (invokedIn s spec).param,
             peakGroups := returnedFor collab s spec }]
        else []) ∧
    (isDeconvolved s.param.currentMaxMSLevel spec = true →
      deconvolveAndAssemble collab (invokedIn s spec) specPos spec = .ok s' ∧
      collabGroups collab (invokedIn s spec) spec = returnedFor collab s spec ∧
      (invokedIn s spec).specIndex = s.specIndex ∧ (invokedIn s spec).massIndex = s.massIndex ∧
      (invokedIn s spec).allPeakGroups = s.allPeakGroups ∧
      (invokedIn s spec).qspecCntr = s.qspecCntr ∧ (invokedIn s spec).massCntr = s.massCntr) ∧
    (isDeconvolved s.param.currentMaxMSLevel spec = false →
      s'.allPeakGroups = s.allPeakGroups ∧ s'.specIndex = s.specIndex ∧
      s'.massIndex = s.massIndex ∧ s'.qspecCntr = s.qspecCntr ∧ s'.massCntr = s.massCntr) := by
  rcases step_cases collab s s' specPos spec h with ⟨hgt, rfl⟩ | ⟨hle, s1, h1, _, hrest⟩
  · have hd : isDeconvolved s'.param.currentMaxMSLevel spec = false := by
      unfold isDeconvolved
      simp [not_le.2 hgt]
    rw [hd]
    simp
  · obtain ⟨_, f2, f3, f4, f5, f6, f7, f8, f9, _⟩ := resolveBounds_frame _ _ _ h1
    simp only at f2 f3 f4 f5 f6 f7 f8 f9
    have hinv : invokedIn s spec = s1 := by
      unfold invokedIn
      rw [h1]
    rcases hrest with ⟨he, rfl⟩ | ⟨he, hd⟩
    · have hdec : isDeconvolved s.param.currentMaxMSLevel spec = false := by
        unfold isDeconvolved
        simp [he]
      rw [hdec]
      simp [f7, f6, f4, f5, f2, f3]
    · have hdec : isDeconvolved s.param.currentMaxMSLevel spec = true := by
        unfold isDeconvolved
        simp [hle, he]
      obtain ⟨_, _, _, _, _, _, e7, _⟩ := deconvolveAndAssemble_effect _ _ _ _ _ hd
      have hg : collabGroups collab s1 spec = returnedFor collab s spec := by
        unfold collabGroups returnedFor
        rw [hinv, f8, f9]
      rw [hdec, hinv]
      refine ⟨?_, fun _ => ⟨hd, hg, f4, f5, f6, f2, f3⟩, fun hc => by cases hc⟩
      rw [e7, f7]
      simp only [if_true, callOf, hg]

theorem invocations_cons_ok (collab : Collaborator) (s s1 : RunState) (specPos : Nat)
    (spec : Spectrum) (rest : List Spectrum) (h : step collab s specPos spec = .ok s1) :
    invocations collab s specPos (spec :: rest) =
      (if isDeconvolved s.param.currentMaxMSLevel spec then
          [{ specPos := specPos, msLevel := spec.msLevel, param := (invokedIn s spec).param,
             peakGroups := returnedFor collab s spec }]
        else []) ++ invocations collab s1 (specPos + 1) rest := by
  rw [invocations]
  simp only [h]

theorem processAll_invocations (collab : Collaborator) (specs : List Spectrum) (s s' : RunState)
    (specPos : Nat) (h : processAll collab s specPos specs = .ok s') :
    s'.calls = s.calls ++ invocations collab s specPos specs := by
  induction specs generalizing s specPos with
  | nil =>
    unfold processAll at h
    obtain rfl := Except.ok.inj h
    simp [invocations]
  | cons spec rest ih =>
    unfold processAll at h
    split at h
    · cases h
    · rename_i s1 hs1
      rw [ih s1 (specPos + 1) h, (step_calls collab s s1 specPos spec hs1).1,
        invocations_cons_ok collab s s1 specPos spec rest hs1, List.append_assoc]

theorem invocations_positions (collab : Collaborator) (specs : List Spectrum) (s s' : RunState)
    (specPos : Nat) (h : processAll collab s specPos specs = .ok s') :
    (invocations collab s specPos specs).map (fun c => (c.specPos, c.msLevel)) =
      ((specs.enumFrom specPos).filter
        (fun x => isDeconvolved s.param.currentMaxMSLevel x.2)).map
          (fun x => (x.1, x.2.msLevel)) := by
  have h1 := processAll_calls collab specs s s' specPos h
  rw [processAll_invocations collab specs s s' specPos h, List.map_append] at h1
  exact List.append_cancel_left h1

theorem invocations_ambientless (collab : Collaborator) (ha : collab.Ambientless)
    (p0 : Parameter) (specs : List Spectrum) (s s' : RunState) (specPos : Nat)
    (h : processAll collab s specPos specs = .ok s') :
    (invocations collab s specPos specs).map CallRecord.peakGroups =
      (specs.filter (fun sp => isDeconvolved s.param.currentMaxMSLevel sp)).map
        (fun sp => (collab.getPeakGroupsFromSpectrum sp p0 [] [] sp.msLevel).1) := by
  induction specs generalizing s specPos with
  | nil => rfl
  | cons spec rest ih =>
    unfold processAll at h
    split at h
    · cases h
    · rename_i s1 hs1
      have hcfg := (step_preserves collab s s1 specPos spec hs1).1.2.2.2.2.2.2
      rw [invocations_cons_ok collab s s1 specPos spec rest hs1, List.map_append,
        ih s1 (specPos + 1) h, hcfg, List.filter_cons]
      by_cases hd : isDeconvolved s.param.currentMaxMSLevel spec = true
      · simp only [hd, if_true, List.map_cons, List.map_nil, List.singleton_append]
        congr 1
        exact ha _ _ _ _ _ _ _ _
      · simp only [hd, Bool.false_eq_true, if_false, List.map_nil, List.nil_append]

theorem processAll_output (collab : Collaborator) (specs : List Spectrum) (s s' : RunState)
    (specPos : Nat) (h : processAll collab s specPos specs = .ok s') :
    s'.allPeakGroups.map PeakGroup.unstamped =
      s.allPeakGroups.map PeakGroup.unstamped ++
        ((invocations collab s specPos specs).flatMap CallRecord.peakGroups).map
          PeakGroup.unstamped := by
  induction specs generalizing s specPos with
  | nil =>
    unfold processAll at h
    obtain rfl := Except.ok.inj h
    simp [invocations]
  | cons spec rest ih =>
    unfold processAll at h
    split at h
    · cases h
    · rename_i s1 hs1
      rw [ih s1 (specPos + 1) h, invocations_cons_ok collab s s1 specPos spec rest hs1,
        List.flatMap_append, List.map_append, ← List.append_assoc]
      congr 1
      obtain ⟨_, hyes, hno⟩ := step_calls collab s s1 specPos spec hs1
      by_cases hd : isDeconvolved s.param.currentMaxMSLevel spec = true
      · obtain ⟨hda, hg, _, _, f6, _, _⟩ := hyes hd
        obtain ⟨_, _, _, _, _, _, _, e8⟩ := deconvolveAndAssemble_effect _ _ _ _ _ hda
        simp only [hd, if_true, List.flatMap_cons, List.flatMap_nil, List.append_nil]
        rcases e8 with ⟨g0, a, _⟩ | ⟨_, a, _⟩
        · rw [a, f6, ← hg, g0]
          simp
        · rw [a, f6, List.map_append, stampList_unstamped, hg]
      · simp only [hd, Bool.false_eq_true, if_false, List.flatMap_nil, List.map_nil,
          List.append_nil]
        rw [(hno (by simpa using hd)).1]

/-- C1 (the code at a failing input): after the level-1 spectrum of the worked
example, level 1 holds m/z 500 (charge 10, intensity 100, mass 5000) and m/z 501
(charge 5, intensity 50, mass 2500); both lie in the window [499, 502] of the
level-2 spectrum and 500 has the highest intensity, yet the scan ends on the
entry 501: with minimum charge 2 the level-2 spectrum gets charge range 5 - 2 = 3
and max mass 2500 + 100 = 2600, not 10 - 2 = 8 and 5100. -/
theorem scan_selects_last_positive_entry :
    InWindow ⟨500.5, 1.5, 1.5⟩ 500 ∧ InWindow ⟨500.5, 1.5, 1.5⟩ 501 ∧
    (scanPrecursors [(500, 10), (501, 5)] [(500, 100), (501, 50)] [(500, 5000), (501, 2500)]
      specB.precursors).mc = 5 ∧
    (scanPrecursors [(500, 10), (501, 5)] [(500, 100), (501, 50)] [(500, 5000), (501, 2500)]
      specB.precursors).mm = 2500 ∧
    (scanPrecursors [(500, 10), (501, 5)] [(500, 100), (501, 50)] [(500, 5000), (501, 2500)]
      specB.precursors).pint = 0 ∧
    summary (step exampleCollab exampleStart 0 specA) =
      some ⟨50, 100000, [50, 50], [100000, 100000], [(500, 100), (501, 50)]⟩ ∧
    summary (Deconvolution exampleCollab [specA, specB] exampleParam [0, 0] [0, 0] [0, 0] 7 40) =
      some ⟨3, 2600, [50, 3], [100000, 2600], [(500, 0), (501, 0)]⟩ := by
  decide!

/-- C2: a spectrum at level L > 1 (within the ceiling) none of whose normalised
precursor windows contains a key of level L-1's m/z map - a spectrum without
precursors included - is handled with level L's stored fallback values: in a
well-sized state the iteration completes, and whenever it completes, the charge
range and max mass in force afterwards (and seen by the collaborator, if it is
invoked) are prevChargeRanges[L-1] and prevMaxMasses[L-1], and both fallback
arrays are left as they were. -/
theorem fallback_on_no_match (collab : Collaborator) (s : RunState) (specPos : Nat)
    (spec : Spectrum) (h1 : 1 < spec.msLevel) (hle : spec.msLevel ≤ s.param.currentMaxMSLevel)
    (hno : ∀ pre ∈ spec.precursors,
      ∀ k ∈ (s.peakChargeMap (spec.msLevel - 1)).keys, ¬ InWindow pre k) :
    (s.Sized → ∃ s', step collab s specPos spec = .ok s') ∧
    ∀ s', step collab s specPos spec = .ok s' →
      ∃ cr mx, s.prevChargeRanges[spec.msLevel - 1]? = some cr ∧
        s.prevMaxMasses[spec.msLevel - 1]? = some mx ∧
        s'.param.currentChargeRange = cr ∧ s'.param.currentMaxMass = mx ∧
        s'.prevChargeRanges = s.prevChargeRanges ∧ s'.prevMaxMasses = s.prevMaxMasses ∧
        (s'.calls = s.calls ∨
          ∃ c, s'.calls = s.calls ++ [c] ∧ c.specPos = specPos ∧
            c.param.currentChargeRange = cr ∧ c.param.currentMaxMass = mx) := by
  refine ⟨fun hs => step_ok collab s specPos spec hs (by omega), ?_⟩
  intro s' h
  have hu : uintPred spec.msLevel = spec.msLevel - 1 := uintPred_of_pos _ (by omega)
  rcases step_cases collab s s' specPos spec h with ⟨hgt, _⟩ | ⟨_, s1, hs1, _, hrest⟩
  · omega
  · obtain ⟨cr, mx, hc, hm, rfl⟩ := resolveBounds_no_match_ok _ _ _ hs1 (by omega)
      (by rw [hu]; exact hno)
    rw [hu] at hc hm
    refine ⟨cr, mx, hc, hm, ?_⟩
    rcases hrest with ⟨_, rfl⟩ | ⟨_, hd⟩
    · exact ⟨rfl, rfl, rfl, rfl, Or.inl rfl⟩
    · obtain ⟨e1, _, e3, e4, _, _, e7, _⟩ := deconvolveAndAssemble_effect _ _ _ _ _ hd
      exact ⟨by rw [e1], by rw [e1], e3, e4, Or.inr ⟨_, e7, rfl, rfl, rfl⟩⟩

theorem fallback_on_no_match_witness :
    1 < specD.msLevel ∧ specD.msLevel ≤ fallbackState.param.currentMaxMSLevel ∧
    (∀ pre ∈ specD.precursors,
      ∀ k ∈ (fallbackState.peakChargeMap (specD.msLevel - 1)).keys, ¬ InWindow pre k) ∧
    fallbackState.Sized ∧
    ∃ s', step exampleCollab fallbackState 1 specD = .ok s' ∧
      s'.param.currentChargeRange = 3 ∧ s'.param.currentMaxMass = 2600 ∧
      s'.prevChargeRanges = fallbackState.prevChargeRanges ∧
      s'.prevMaxMasses = fallbackState.prevMaxMasses := by
  have hw := fallback_on_no_match exampleCollab fallbackState 1 specD (by decide!) (by decide!)
    (by decide!)
  refine ⟨by decide!, by decide!, by decide!, by decide!, ?_⟩
  obtain ⟨s', hs'⟩ := hw.1 (by decide!)
  obtain ⟨cr, mx, hc, hm, r1, r2, r3, r4, _⟩ := hw.2 s' hs'
  have hcr : cr = 3 := by
    have : fallbackState.prevChargeRanges[specD.msLevel - 1]? = some 3 := by decide!
    rw [this] at hc
    exact (Option.some.inj hc).symm
  have hmx : mx = 2600 := by
    have : fallbackState.prevMaxMasses[specD.msLevel - 1]? = some 2600 := by decide!
    rw [this] at hm
    exact (Option.some.inj hm).symm
  exact ⟨s', hs', by rw [r1, hcr], by rw [r2, hmx], r3, r4⟩

/-- C4: whatever the three maps of the level held before, after the update each
map is a well-formed ordered map whose key set is exactly the set of m/z values
of the member peaks of the given groups; at each key the charge is the maximum
charge over the member peaks with that exact m/z, the intensity is that of the
last such member peak (group order, then peak order) and the mass is the
monoisotopic mass of the group owning that last member peak. -/
theorem levelStateUpdate_rebuilds (prior : MzMap Int × MzMap ℚ × MzMap ℚ)
    (groups : List PeakGroup) :
    levelStateUpdate prior groups = levelStateUpdate ([], [], []) groups ∧
    (levelStateUpdate prior groups).1.WF ∧ (levelStateUpdate prior groups).2.1.WF ∧
    (levelStateUpdate prior groups).2.2.WF ∧
    ∀ k : ℚ,
      (k ∈ (levelStateUpdate prior groups).1.keys ↔ ∃ m ∈ memberPeaks groups, m.2.mz = k) ∧
      (k ∈ (levelStateUpdate prior groups).2.1.keys ↔ ∃ m ∈ memberPeaks groups, m.2.mz = k) ∧
      (k ∈ (levelStateUpdate prior groups).2.2.keys ↔ ∃ m ∈ memberPeaks groups, m.2.mz = k) ∧
      (∀ c, (levelStateUpdate prior groups).1.find? k = some c ↔
        ((∃ m ∈ membersAt groups k, m.2.charge = c) ∧
          ∀ m ∈ membersAt groups k, m.2.charge ≤ c)) ∧
      (levelStateUpdate prior groups).2.1.find? k =
        ((membersAt groups k).getLast?).map (fun m => m.2.intensity) ∧
      (levelStateUpdate prior groups).2.2.find? k =
        ((membersAt groups k).getLast?).map (fun m => m.1) := by
  have hinv := updateInv_foldl (memberPeaks groups)
  rw [← foldl_updateGroup_eq] at hinv
  have heq : levelStateUpdate prior groups = groups.foldl updateGroup ([], [], []) := rfl
  rw [heq]
  obtain ⟨w1, w2, w3, hk⟩ := hinv
  refine ⟨rfl, w1, w2, w3, ?_⟩
  intro k
  obtain ⟨hkeys, hmax, hint, hmass⟩ := hk k
  have hlast : ∀ {β : Type} (f : ℚ × LogMzPeak → β),
      (((membersAt groups k).getLast?).map f).isSome ↔ ∃ m ∈ memberPeaks groups, m.2.mz = k := by
    intro β f
    unfold membersAt
    cases hl : (memberPeaks groups).filter (fun m => decide (m.2.mz = k)) using
      List.reverseRecOn with
    | nil =>
      simp only [List.getLast?_nil, Option.map_none', Option.isSome_none, Bool.false_eq_true,
        false_iff]
      rintro ⟨m, hm, hmz⟩
      have : m ∈ (memberPeaks groups).filter (fun m => decide (m.2.mz = k)) :=
        List.mem_filter.2 ⟨hm, by simpa using hmz⟩
      rw [hl] at this
      cases this
    | append_singleton l x =>
      have hs : (Option.map f ((l ++ [x]).getLast?)).isSome = true := by simp
      refine ⟨fun _ => ?_, fun _ => hs⟩
      have : x ∈ (memberPeaks groups).filter (fun m => decide (m.2.mz = k)) := by
        rw [hl]; simp
      obtain ⟨hx1, hx2⟩ := List.mem_filter.1 this
      exact ⟨x, hx1, by simpa using hx2⟩
  have memAt : ∀ m, m ∈ membersAt groups k ↔ m ∈ memberPeaks groups ∧ m.2.mz = k := by
    intro m
    unfold membersAt
    rw [List.mem_filter]
    simp
  refine ⟨hkeys, ?_, ?_, ?_, hint, hmass⟩
  · rw [← MzMap.find?_isSome_iff, hint]
    exact hlast _
  · rw [← MzMap.find?_isSome_iff, hmass]
    exact hlast _
  · intro c
    constructor
    · intro hc
      obtain ⟨⟨m, hm, hmz, hmc⟩, hle⟩ := hmax c hc
      exact ⟨⟨m, (memAt m).2 ⟨hm, hmz⟩, hmc⟩, fun m' hm' =>
        hle m' ((memAt m').1 hm').1 ((memAt m').1 hm').2⟩
    · rintro ⟨⟨m, hm, hmc⟩, hle⟩
      have hin : k ∈ (groups.foldl updateGroup ([], [], [])).1.keys :=
        hkeys.2 ⟨m, ((memAt m).1 hm).1, ((memAt m).1 hm).2⟩
      have hsome := (MzMap.find?_isSome_iff _ _).2 hin
      obtain ⟨c', hc'⟩ := Option.isSome_iff_exists.1 hsome
      obtain ⟨⟨m', hm', hmz', hmc'⟩, hle'⟩ := hmax c' hc'
      have h1 : c ≤ c' := by rw [← hmc]; exact hle' m ((memAt m).1 hm).1 ((memAt m).1 hm).2
      have h2 : c' ≤ c := by rw [← hmc']; exact hle m' ((memAt m').2 ⟨hm', hmz'⟩)
      rw [hc', le_antisymm h2 h1]

/-- C5 (the code at a failing input): resolving the level-2 spectrum of the worked
example overwrites level 1's intensity map - the intensities 100 and 50 that the
level state update stored become 0 - so a following level-2 spectrum does not
resolve against the data the update produced: with window [499.5, 500.5] it
gets the fallback (3, 2600) left by its predecessor, whereas directly after the
level-1 spectrum it gets (8, 5100) from the entry at m/z 500. -/
theorem scan_overwrites_parent_intensities :
    (levelStateUpdate ([], [], [])
      [rawGroup 5000 [⟨500, 100, 10⟩], rawGroup 2500 [⟨501, 50, 5⟩]]).2.1 =
      [(500, 100), (501, 50)] ∧
    summary (step exampleCollab exampleStart 0 specA) =
      some ⟨50, 100000, [50, 50], [100000, 100000], [(500, 100), (501, 50)]⟩ ∧
    summary (processAll exampleCollab exampleStart 0 [specA, specB]) =
      some ⟨3, 2600, [50, 3], [100000, 2600], [(500, 0), (501, 0)]⟩ ∧
    summary (Deconvolution exampleCollab [specA, specC] exampleParam [0, 0] [0, 0] [0, 0] 7 40) =
      some ⟨8, 5100, [50, 8], [100000, 5100], [(500, 0), (501, 50)]⟩ ∧
    summary (Deconvolution exampleCollab [specA, specB, specC] exampleParam [0, 0] [0, 0] [0, 0]
      7 40) = some ⟨3, 2600, [50, 3], [100000, 2600], [(500, 0), (501, 0)]⟩ := by
  decide!

/-- C6: the window used for a precursor is [startMz, endMz] with startMz = lo if
lo > 100 and c - lo otherwise, endMz = hi if hi > 100 and c + hi otherwise; each
bound looks at its own offset only; an offset of exactly 100 is relative;
c = 600, lo = hi = 0.5 gives [599.5, 600.5]; lo = 400 gives startMz = 400. -/
theorem window_normalisation (pre : Precursor) (st : ScanState) :
    scanPrecursor st pre = scanKeys (startMz pre) (endMz pre) st.subPeakChargeMap.keys st ∧
    startMz pre =
      (if pre.isolationWindowLowerOffset > 100 then pre.isolationWindowLowerOffset
        else pre.mz - pre.isolationWindowLowerOffset) ∧
    endMz pre =
      (if pre.isolationWindowUpperOffset > 100 then pre.isolationWindowUpperOffset
        else pre.mz + pre.isolationWindowUpperOffset) ∧
    startMz ⟨pre.mz, 100, pre.isolationWindowUpperOffset⟩ = pre.mz - 100 ∧
    endMz ⟨pre.mz, pre.isolationWindowLowerOffset, 100⟩ = pre.mz + 100 ∧
    startMz ⟨600, 0.5, 0.5⟩ = 599.5 ∧ endMz ⟨600, 0.5, 0.5⟩ = 600.5 ∧
    startMz ⟨pre.mz, 400, pre.isolationWindowUpperOffset⟩ = 400 := by
  refine ⟨rfl, ?_, ?_, ?_, ?_, ?_, ?_, ?_⟩
  · unfold startMz; split <;> ring
  · unfold endMz; split <;> ring
  · unfold startMz; simp only [gt_iff_lt, lt_self_iff_false, if_false]; ring
  · unfold endMz; simp only [gt_iff_lt, lt_self_iff_false, if_false]; ring
  · unfold startMz; norm_num
  · unfold endMz; norm_num
  · unfold startMz; norm_num

/-- C7: a run over well-sized inputs whose reserve arguments are sizes
completes, and in every completed run each invocation of the collaborator is
for a spectrum of the experiment at the recorded level, and each invocation for a level-1 spectrum - at whatever
position and after whatever spectra - sees charge range, max mass and max mass
count equal to the configured defaults chargeRange, maxMass, maxMassCount; for
a level-1 spectrum the resolution stage is the assignment of these three
defaults, whatever the maps and the fallback arrays hold. -/
theorem level_one_defaults (collab : Collaborator) (map : List Spectrum) (param : Parameter)
    (specCntr qspecCntr massCntr : List Int) (specIndex massIndex : Int) :
    (WellSized map param specCntr qspecCntr massCntr → ReserveSized map param →
      ∃ s, Deconvolution collab map param specCntr qspecCntr massCntr specIndex massIndex
        = .ok s) ∧
    (∀ s, Deconvolution collab map param specCntr qspecCntr massCntr specIndex massIndex = .ok s →
      ∀ c ∈ s.calls, ∃ spec, map[c.specPos]? = some spec ∧ spec.msLevel = c.msLevel ∧
        (spec.msLevel = 1 →
          c.param.currentChargeRange = param.chargeRange ∧
          c.param.currentMaxMass = param.maxMass ∧
          c.param.currentMaxMassCount = param.maxMassCount)) ∧
    (∀ (t : RunState) (spec : Spectrum), spec.msLevel = 1 →
      resolveBounds t spec = .ok { t with
        param := { t.param with
          currentChargeRange := t.param.chargeRange
          currentMaxMass := t.param.maxMass
          currentMaxMassCount := t.param.maxMassCount } }) := by
  refine ⟨Deconvolution_ok collab map param specCntr qspecCntr massCntr specIndex massIndex,
    ?_, resolveBounds_level_one⟩
  intro s hs
  have hkeys := calls_in_experiment _ _ _ _ _ _ _ _ _ hs
  obtain ⟨_, hp⟩ := Deconvolution_eq_ok _ _ _ _ _ _ _ _ _ hs
  have hinv : DefaultsInv
      (initState map param specCntr qspecCntr massCntr specIndex massIndex).param s := by
    have := processAll_invariant collab (fun t _ => DefaultsInv
        (initState map param specCntr qspecCntr massCntr specIndex massIndex).param t)
      (fun t specPos spec t' hi ht => step_defaultsInv collab _ t specPos spec t' hi ht)
      map _ 0 s ?_ hp
    · exact this
    · exact ⟨⟨rfl, rfl, rfl, rfl, rfl, rfl, rfl⟩, by simp [initState]⟩
  intro c hc
  have hmem : (c.specPos, c.msLevel) ∈ s.calls.map (fun c => (c.specPos, c.msLevel)) :=
    List.mem_map.2 ⟨c, hc, rfl⟩
  rw [hkeys] at hmem
  obtain ⟨x, hx, hxe⟩ := List.mem_map.1 hmem
  have hx' := (List.mem_filter.1 hx).1
  rw [List.mem_enum_iff_getElem?] at hx'
  have h1 : x.1 = c.specPos := congrArg Prod.fst hxe
  have h2 : x.2.msLevel = c.msLevel := congrArg Prod.snd hxe
  refine ⟨x.2, by rw [← h1]; exact hx', h2, ?_⟩
  intro hone
  exact hinv.2 c hc (by rw [← h2]; exact hone)

theorem level_one_defaults_witness :
    WellSized [specA, specB, specA] exampleParam [0, 0] [0, 0] [0, 0] ∧
    ReserveSized [specA, specB, specA] exampleParam ∧
    ∃ s, Deconvolution exampleCollab [specA, specB, specA] exampleParam [0, 0] [0, 0] [0, 0] 7 40
        = .ok s ∧
      ∀ c ∈ s.calls, ∃ spec, [specA, specB, specA][c.specPos]? = some spec ∧
        spec.msLevel = c.msLevel ∧
        (spec.msLevel = 1 →
          c.param.currentChargeRange = 50 ∧ c.param.currentMaxMass = 100000 ∧
          c.param.currentMaxMassCount = 7) := by
  have hw := level_one_defaults exampleCollab [specA, specB, specA] exampleParam
    [0, 0] [0, 0] [0, 0] 7 40
  obtain ⟨s, hs⟩ := hw.1 (by decide!) (by decide!)
  exact ⟨by decide!, by decide!, s, hs, hw.2.1 s hs⟩

/-- C8: a run over well-sized inputs whose reserve arguments are sizes
completes, and in every completed run the collaborator is invoked exactly for
the spectra within the level ceiling that are not empty, once each and in
input order (so MS levels interleave as in the input), and the returned
collection is the concatenation, in that order, of the peak-group lists the
collaborator returns for them: each group once, in the collaborator's order,
unchanged except for the four stamped fields. For a collaborator whose result
depends on the spectrum and the level only, the returned collection is the
concatenation of its results over the non-empty spectra within the ceiling. -/
theorem output_is_ordered_concatenation (collab : Collaborator) (map : List Spectrum)
    (param : Parameter) (specCntr qspecCntr massCntr : List Int) (specIndex massIndex : Int) :
    (WellSized map param specCntr qspecCntr massCntr → ReserveSized map param →
      ∃ s, Deconvolution collab map param specCntr qspecCntr massCntr specIndex massIndex
        = .ok s) ∧
    ∀ s, Deconvolution collab map param specCntr qspecCntr massCntr specIndex massIndex = .ok s →
      (invocations collab
          (initState map param specCntr qspecCntr massCntr specIndex massIndex) 0 map).map
          (fun c => (c.specPos, c.msLevel)) =
        (map.enum.filter
          (fun x => isDeconvolved (computeCurrentMaxMSLevel map param.maxMSLevel) x.2)).map
            (fun x => (x.1, x.2.msLevel)) ∧
      s.allPeakGroups.map PeakGroup.unstamped =
        ((invocations collab
          (initState map param specCntr qspecCntr massCntr specIndex massIndex) 0 map).flatMap
            CallRecord.peakGroups).map PeakGroup.unstamped ∧
      s.calls = invocations collab
        (initState map param specCntr qspecCntr massCntr specIndex massIndex) 0 map ∧
      (collab.Ambientless →
        s.allPeakGroups.map PeakGroup.unstamped =
          ((map.filter
            (fun sp => isDeconvolved (computeCurrentMaxMSLevel map param.maxMSLevel) sp)).flatMap
              (fun sp => (collab.getPeakGroupsFromSpectrum sp param [] [] sp.msLevel).1)).map
            PeakGroup.unstamped) := by
  refine ⟨Deconvolution_ok collab map param specCntr qspecCntr massCntr specIndex massIndex, ?_⟩
  intro s hs
  obtain ⟨_, hp⟩ := Deconvolution_eq_ok _ _ _ _ _ _ _ _ _ hs
  have hpos := invocations_positions collab map _ s 0 hp
  have hout := processAll_output collab map _ s 0 hp
  have hcalls := processAll_invocations collab map _ s 0 hp
  have hout' : s.allPeakGroups.map PeakGroup.unstamped =
      ((invocations collab
        (initState map param specCntr qspecCntr massCntr specIndex massIndex) 0 map).flatMap
          CallRecord.peakGroups).map PeakGroup.unstamped := by
    rw [hout]
    simp [initState]
  refine ⟨by simpa [initState, List.enum] using hpos, hout', by simpa [initState] using hcalls, ?_⟩
  intro ha
  have hamb := invocations_ambientless collab ha param map _ s 0 hp
  rw [hout', List.flatMap_def, hamb, ← List.flatMap_def]
  simp [initState, List.flatMap_def]

theorem output_is_ordered_concatenation_witness :
    WellSized [specA, specB, specE, specA] exampleParam [0, 0] [0, 0] [0, 0] ∧
    ReserveSized [specA, specB, specE, specA] exampleParam ∧
    exampleCollab.Ambientless ∧
    ∃ s, Deconvolution exampleCollab [specA, specB, specE, specA] exampleParam
        [0, 0] [0, 0] [0, 0] 7 40 = .ok s ∧
      s.calls.map (fun c => (c.specPos, c.msLevel)) = [(0, 1), (1, 2), (3, 1)] ∧
      s.allPeakGroups.map PeakGroup.unstamped =
        [rawGroup 5000 [⟨500, 100, 10⟩], rawGroup 2500 [⟨501, 50, 5⟩],
          rawGroup 1200 [⟨300, 10, 4⟩],
          rawGroup 5000 [⟨500, 100, 10⟩], rawGroup 2500 [⟨501, 50, 5⟩]] ∧
      s.allPeakGroups.map PeakGroup.unstamped =
        (([specA, specB, specE, specA].filter (fun sp => isDeconvolved 2 sp)).flatMap
          (fun sp => (exampleCollab.getPeakGroupsFromSpectrum sp exampleParam [] []
            sp.msLevel).1)).map PeakGroup.unstamped := by
  have hw := output_is_ordered_concatenation exampleCollab [specA, specB, specE, specA]
    exampleParam [0, 0] [0, 0] [0, 0] 7 40
  have hamb : exampleCollab.Ambientless := fun _ _ _ _ _ _ _ _ => rfl
  obtain ⟨s, hs⟩ := hw.1 (by decide!) (by decide!)
  obtain ⟨h1, h2, h3, h4⟩ := hw.2 s hs
  refine ⟨by decide!, by decide!, hamb, s, hs, ?_, ?_, h4 hamb⟩
  · rw [h3, h1]
    decide!
  · rw [h2]
    decide!

/-- C9 (as stated, refuted): the indices are 32-bit `int` values incremented
with `++`. In the run over one level-1 spectrum that yields two groups, started
with mass index 2147483646 and spectrum index 2147483647, the second group
carries mass index -2147483648, not 2147483648 and not above the first group's
2147483647, and both groups carry spectrum index -2147483648, below the index
the run started with. -/
theorem index_increment_wraps :
    WellSized [specA] exampleParam [0, 0] [0, 0] [0, 0] ∧
    ReserveSized [specA] exampleParam ∧
    stampedIndices (Deconvolution exampleCollab [specA] exampleParam [0, 0] [0, 0] [0, 0]
      2147483647 2147483646) =
      some [(2147483647, -2147483648), (-2147483648, -2147483648)] := by
  decide!

/-- C9 (amended): a run over well-sized inputs whose reserve arguments are
sizes completes. In every completed run started with mass index m0 the k-th
peak group (1-based) of the returned collection carries m0 after k increments
`++`; if m0 is an `int` and m0 plus the number of returned groups does not
exceed 2147483647, that is m0 + k, so mass indices strictly increase along the
output and never repeat. If the spectrum index si0 the run starts with is an
`int` and si0 plus the number of input spectra does not exceed 2147483647, two
output groups of the same spectrum carry the same spectrum index, of two
groups of different spectra the later one carries the strictly larger
spectrum index, whatever the MS levels, and every spectrum index handed out
lies above si0. -/
theorem indices_strictly_increase (collab : Collaborator) (map : List Spectrum)
    (param : Parameter) (specCntr qspecCntr massCntr : List Int) (specIndex massIndex : Int) :
    (WellSized map param specCntr qspecCntr massCntr → ReserveSized map param →
      ∃ s, Deconvolution collab map param specCntr qspecCntr massCntr specIndex massIndex
        = .ok s) ∧
    ∀ s, Deconvolution collab map param specCntr qspecCntr massCntr specIndex massIndex = .ok s →
      (∀ k (hk : k < s.allPeakGroups.length),
        (s.allPeakGroups[k]).massIndex = incrTimes massIndex (k + 1)) ∧
      (-2 ^ 31 ≤ massIndex → massIndex + s.allPeakGroups.length < 2 ^ 31 →
        (∀ k (hk : k < s.allPeakGroups.length),
          (s.allPeakGroups[k]).massIndex = massIndex + (k + 1)) ∧
        (∀ i j (hij : i < j) (hj : j < s.allPeakGroups.length),
          (s.allPeakGroups[i]).massIndex < (s.allPeakGroups[j]).massIndex)) ∧
      (-2 ^ 31 ≤ specIndex → specIndex + map.length < 2 ^ 31 →
        s.allPeakGroups.Pairwise SpecIndexOrdered ∧
        (∀ g ∈ s.allPeakGroups, specIndex < g.specIndex ∧ g.specIndex ≤ s.specIndex ∧
          ∃ p, g.spec = some p ∧ p < map.length)) := by
  refine ⟨Deconvolution_ok collab map param specCntr qspecCntr massCntr specIndex massIndex, ?_⟩
  intro s hs
  obtain ⟨_, hp⟩ := Deconvolution_eq_ok _ _ _ _ _ _ _ _ _ hs
  obtain ⟨_, hm⟩ := processAll_massIndexInv collab map param specCntr qspecCntr massCntr
    specIndex massIndex s hp
  refine ⟨hm, ?_, ?_⟩
  · intro hlo hhi
    have closed : ∀ k (hk : k < s.allPeakGroups.length),
        (s.allPeakGroups[k]).massIndex = massIndex + (k + 1) := by
      intro k hk
      rw [hm k hk, incrTimes_eq _ _ hlo (by push_cast; omega)]
      push_cast
      rfl
    refine ⟨closed, ?_⟩
    intro i j hij hj
    rw [closed i (lt_trans hij hj), closed j hj]
    omega
  · intro hlo hhi
    obtain ⟨i3, _, _, i5⟩ := processAll_specIndexInv collab map param specCntr qspecCntr
      massCntr specIndex massIndex s hlo hhi hp (le_refl _)
    exact ⟨i5, i3⟩

theorem indices_strictly_increase_witness :
    WellSized [specA, specB, specA] exampleParam [0, 0] [0, 0] [0, 0] ∧
    ReserveSized [specA, specB, specA] exampleParam ∧
    ∃ s, Deconvolution exampleCollab [specA, specB, specA] exampleParam [0, 0] [0, 0] [0, 0] 7 40
        = .ok s ∧
      s.allPeakGroups.map (fun g => (g.massIndex, g.specIndex)) =
        [(41, 8), (42, 8), (43, 9), (44, 10), (45, 10)] ∧
      (∀ k (hk : k < s.allPeakGroups.length),
        (s.allPeakGroups[k]).massIndex = 40 + (k + 1)) ∧
      (∀ i j (hij : i < j) (hj : j < s.allPeakGroups.length),
        (s.allPeakGroups[i]).massIndex < (s.allPeakGroups[j]).massIndex) ∧
      s.allPeakGroups.Pairwise SpecIndexOrdered ∧
      (∀ g ∈ s.allPeakGroups, 7 < g.specIndex ∧ g.specIndex ≤ s.specIndex ∧
        ∃ p, g.spec = some p ∧ p < 3) := by
  have hw := indices_strictly_increase exampleCollab [specA, specB, specA] exampleParam
    [0, 0] [0, 0] [0, 0] 7 40
  obtain ⟨s, hs⟩ := hw.1 (by decide!) (by decide!)
  have hv : stampedIndices (Deconvolution exampleCollab [specA, specB, specA] exampleParam
      [0, 0] [0, 0] [0, 0] 7 40) = some [(41, 8), (42, 8), (43, 9), (44, 10), (45, 10)] := by
    decide!
  rw [hs] at hv
  simp only [stampedIndices, Option.some.injEq] at hv
  have hlen : s.allPeakGroups.length = 5 := by
    have := congrArg List.length hv
    simpa using this
  obtain ⟨_, h2, h3⟩ := hw.2 s hs
  obtain ⟨a, b⟩ := h2 (by norm_num) (by rw [hlen]; norm_num)
  obtain ⟨c, d⟩ := h3 (by norm_num) (by norm_num)
  exact ⟨by decide!, by decide!, s, hs, hv, a, b, c, d⟩

/-- C13 (as stated, refuted): in the run over a level-1 spectrum followed by a
spectrum of MS level 0 the ceiling is 1, and the level-0 spectrum is not
skipped by the test at line 116: the iteration goes on to the counter at index
`0u - 1 = 4294967295` and ends in a fault. A spectrum outside [1, ceiling]
is processed. -/
theorem level_zero_is_not_skipped :
    computeCurrentMaxMSLevel [specA, specZero] exampleParam.maxMSLevel = 1 ∧
    specZero.msLevel = 0 ∧
    ¬ specZero.msLevel > computeCurrentMaxMSLevel [specA, specZero] exampleParam.maxMSLevel ∧
    uintPred specZero.msLevel = 4294967295 ∧
    faults (step exampleCollab
      (initState [specA, specZero] exampleParam [0, 0] [0, 0] [0, 0] 7 40) 1 specZero) = true ∧
    faults (Deconvolution exampleCollab [specA, specZero] exampleParam [0, 0] [0, 0] [0, 0]
      7 40) = true := by
  decide!

/-- C13 (amended): after the initial scan currentMaxMSLevel is the minimum of
maxMSLevel and the maximum MS level over the input (0 for an empty input) and
stays so to the end of the run; a spectrum above the ceiling is skipped, so
every spectrum that is processed has MS level at most currentMaxMSLevel; the
loop does not skip level 0, but a run in which the caller's specCntr has fewer
than 2^32 entries completes only if no input spectrum has level 0, so in every
such completed run all processed spectra, and all invocations of the
collaborator, are for MS levels in [1, currentMaxMSLevel]. -/
theorem level_ceiling (collab : Collaborator) (map : List Spectrum) (param : Parameter)
    (specCntr qspecCntr massCntr : List Int) (specIndex massIndex : Int) :
    computeCurrentMaxMSLevel map param.maxMSLevel = min param.maxMSLevel (maxLevel map) ∧
    computeCurrentMaxMSLevel [] param.maxMSLevel = 0 ∧
    (∀ (t : RunState) (specPos : Nat) (spec : Spectrum),
      spec.msLevel > t.param.currentMaxMSLevel → step collab t specPos spec = .ok t) ∧
    (∀ s, Deconvolution collab map param specCntr qspecCntr massCntr specIndex massIndex = .ok s →
      s.param.currentMaxMSLevel = min param.maxMSLevel (maxLevel map) ∧
      (∀ c ∈ s.calls, c.msLevel ≤ s.param.currentMaxMSLevel) ∧
      (specCntr.length < 2 ^ 32 →
        (∀ sp ∈ map, 1 ≤ sp.msLevel) ∧ ∀ c ∈ s.calls, 1 ≤ c.msLevel)) := by
  refine ⟨computeCurrentMaxMSLevel_eq _ _, ?_,
    fun t specPos spec hgt => step_skip collab t specPos spec hgt, ?_⟩
  · rw [computeCurrentMaxMSLevel_eq]
    simp [maxLevel]
  · intro s hs
    obtain ⟨_, hp⟩ := Deconvolution_eq_ok _ _ _ _ _ _ _ _ _ hs
    have hcur : s.param.currentMaxMSLevel = computeCurrentMaxMSLevel map param.maxMSLevel :=
      (processAll_config collab map _ s 0 hp).2.2.2.2.2.2
    refine ⟨by rw [hcur, computeCurrentMaxMSLevel_eq], ?_, ?_⟩
    · intro c hc
      obtain ⟨sp, _, hl, hle⟩ := calls_levels _ _ _ _ _ _ _ _ _ hs c hc
      rw [hcur, ← hl]
      exact hle
    · intro hlen
      have hpos := processAll_no_level_zero collab map _ s 0 hp hlen
      refine ⟨hpos, ?_⟩
      intro c hc
      obtain ⟨sp, hsp, hl, _⟩ := calls_levels _ _ _ _ _ _ _ _ _ hs c hc
      rw [← hl]
      exact hpos sp hsp

theorem level_ceiling_witness :
    computeCurrentMaxMSLevel [specA, specB, specA] exampleParam.maxMSLevel = 2 ∧
    (∃ s, Deconvolution exampleCollab [specA, specB, specA] exampleParam [0, 0] [0, 0] [0, 0]
        7 40 = .ok s ∧ s.param.currentMaxMSLevel = 2 ∧
      ∀ c ∈ s.calls, 1 ≤ c.msLevel ∧ c.msLevel ≤ s.param.currentMaxMSLevel) := by
  have hw := level_ceiling exampleCollab [specA, specB, specA] exampleParam
    [0, 0] [0, 0] [0, 0] 7 40
  obtain ⟨s, hs⟩ := Deconvolution_ok exampleCollab [specA, specB, specA] exampleParam
    [0, 0] [0, 0] [0, 0] 7 40 (by decide!) (by decide!)
  obtain ⟨h1, h2, h3⟩ := hw.2.2.2 s hs
  refine ⟨by decide!, s, hs, ?_, fun c hc => ⟨(h3 (by decide!)).2 c hc, h2 c hc⟩⟩
  rw [h1]
  decide!

/-- C14 (as stated, refuted): a run whose input contains a spectrum of MS level 0,
with arrays sized for the ceiling, ends in the out-of-range fault: the counter
index `msLevel - 1` wraps to 4294967295. A run whose overlap-scan vector holds
a negative entry for a processed level ends in `std::length_error`, thrown by
`reserve` at line 98. -/
theorem level_zero_faults :
    WellSized [specA, specB] exampleParam [0, 0] [0, 0] [0, 0] ∧
    computeCurrentMaxMSLevel [specA, specZero, specB] exampleParam.maxMSLevel = 2 ∧
    faultOf (Deconvolution exampleCollab [specA, specB] exampleParam [0, 0] [0, 0] [0, 0]
      7 40) = none ∧
    faultOf (Deconvolution exampleCollab [specA, specZero, specB] exampleParam [0, 0] [0, 0]
      [0, 0] 7 40) = some .outOfRange ∧
    WellSized [specA, specB] negativeOverlapParam [0, 0] [0, 0] [0, 0] ∧
    faultOf (Deconvolution exampleCollab [specA, specB] negativeOverlapParam [0, 0] [0, 0]
      [0, 0] 7 40) = some .lengthError := by
  decide!

/-- C14 (amended): for every input sequence whose spectra all have MS level at
least 1, with the overlap-scan vector and the three counter arrays covering
the ceiling and with every overlap-scan entry of a processed level
non-negative and at most 214748364 (so that ten times the entry is a size),
Deconvolution completes without a fault, whatever the precursor records; and
in every well-sized state an iteration for a spectrum of level L > 1 within
the ceiling that has no precursor record completes and leaves the level's
fallback charge range and max mass in force, the fallback arrays being
untouched. -/
theorem no_fault_on_levels_from_one (collab : Collaborator) (map : List Spectrum)
    (param : Parameter) (specCntr qspecCntr massCntr : List Int) (specIndex massIndex : Int)
    (h : WellSized map param specCntr qspecCntr massCntr) (hr : ReserveSized map param) :
    (∃ s, Deconvolution collab map param specCntr qspecCntr massCntr specIndex massIndex = .ok s ∧
      faultOf (Deconvolution collab map param specCntr qspecCntr massCntr specIndex massIndex)
        = none) ∧
    ∀ (t : RunState) (specPos : Nat) (spec : Spectrum), t.Sized → 1 < spec.msLevel →
      spec.msLevel ≤ t.param.currentMaxMSLevel → spec.precursors = [] →
      ∃ t', step collab t specPos spec = .ok t' ∧ t'.Sized ∧
        t.prevChargeRanges[spec.msLevel - 1]? = some t'.param.currentChargeRange ∧
        t.prevMaxMasses[spec.msLevel - 1]? = some t'.param.currentMaxMass ∧
        t'.prevChargeRanges = t.prevChargeRanges ∧ t'.prevMaxMasses = t.prevMaxMasses := by
  constructor
  · obtain ⟨s, hs⟩ := Deconvolution_ok collab map param specCntr qspecCntr massCntr specIndex
      massIndex h hr
    refine ⟨s, hs, ?_⟩
    rw [hs]
    rfl
  · intro t specPos spec hsz h1 hle hpre
    obtain ⟨t', ht'⟩ := step_ok collab t specPos spec hsz (by omega)
    have hno : ∀ pre ∈ spec.precursors,
        ∀ k ∈ (t.peakChargeMap (spec.msLevel - 1)).keys, ¬ InWindow pre k := by
      rw [hpre]
      intro pre hp
      cases hp
    rcases step_no_match collab t t' specPos spec h1 hno ht' with ⟨a, b, c, d⟩ | hgt
    · exact ⟨t', ht', step_sized collab t t' specPos spec ht' hsz, a, b, c, d⟩
    · omega

theorem no_fault_on_levels_from_one_witness :
    WellSized [specA, specB, specA] exampleParam [0, 0] [0, 0] [0, 0] ∧
    ReserveSized [specA, specB, specA] exampleParam ∧
    (∃ s, Deconvolution exampleCollab [specA, specB, specA] exampleParam [0, 0] [0, 0] [0, 0]
        7 40 = .ok s ∧
      faultOf (Deconvolution exampleCollab [specA, specB, specA] exampleParam [0, 0] [0, 0]
        [0, 0] 7 40) = none) :=
  ⟨by decide!, by decide!,
    (no_fault_on_levels_from_one exampleCollab [specA, specB, specA] exampleParam
      [0, 0] [0, 0] [0, 0] 7 40 (by decide!) (by decide!)).1⟩

/-- C15 (as stated, refuted): with the configured ceiling at 0, the run over a
single spectrum of MS level 0 does not skip it and ends in the out-of-range
fault. -/
theorem zero_ceiling_level_zero_faults :
    zeroCeilingParam.maxMSLevel = 0 ∧
    computeCurrentMaxMSLevel [specZero] zeroCeilingParam.maxMSLevel = 0 ∧
    faults (Deconvolution exampleCollab [specZero] zeroCeilingParam [0, 0] [0, 0] [0, 0]
      7 40) = true := by
  decide!

/-- C15 (amended): if the configured maxMSLevel is 0 then, for every input
sequence whose spectra all have MS level at least 1, the run completes in the
state it started the main loop with: the ceiling is 0, every spectrum is
skipped, the returned collection is empty, the collaborator is never invoked,
and the counters, the spectrum index and the mass index are unchanged. -/
theorem zero_ceiling_processes_nothing (collab : Collaborator) (map : List Spectrum)
    (param : Parameter) (specCntr qspecCntr massCntr : List Int) (specIndex massIndex : Int)
    (hmax : param.maxMSLevel = 0) (hpos : ∀ sp ∈ map, 1 ≤ sp.msLevel) :
    ∃ s, Deconvolution collab map param specCntr qspecCntr massCntr specIndex massIndex = .ok s ∧
      s.param.currentMaxMSLevel = 0 ∧ s.allPeakGroups = [] ∧ s.calls = [] ∧
      s.specCntr = specCntr ∧ s.qspecCntr = qspecCntr ∧ s.massCntr = massCntr ∧
      s.specIndex = specIndex ∧ s.massIndex = massIndex ∧
      ∀ sp ∈ map, sp.msLevel > s.param.currentMaxMSLevel := by
  have hcur : computeCurrentMaxMSLevel map param.maxMSLevel = 0 := by
    rw [computeCurrentMaxMSLevel_eq, hmax]
    exact Nat.zero_min _
  refine ⟨initState map param specCntr qspecCntr massCntr specIndex massIndex, ?_, hcur,
    rfl, rfl, rfl, rfl, rfl, rfl, rfl, ?_⟩
  · unfold Deconvolution
    rw [init_eq_of_levels _ _ _ _ _ _ _ (by rw [hcur]; rfl)]
    apply processAll_all_skipped
    intro sp hsp
    have := hpos sp hsp
    simp only [initState, hcur]
    omega
  · intro sp hsp
    have := hpos sp hsp
    simp only [initState, hcur]
    omega

theorem zero_ceiling_processes_nothing_witness :
    zeroCeilingParam.maxMSLevel = 0 ∧ (∀ sp ∈ [specA, specB, specE], 1 ≤ sp.msLevel) ∧
    ∃ s, Deconvolution exampleCollab [specA, specB, specE] zeroCeilingParam [0, 0] [0, 0] [0, 0]
        7 40 = .ok s ∧
      s.param.currentMaxMSLevel = 0 ∧ s.allPeakGroups = [] ∧ s.calls = [] ∧
      s.specCntr = [0, 0] ∧ s.qspecCntr = [0, 0] ∧ s.massCntr = [0, 0] ∧
      s.specIndex = 7 ∧ s.massIndex = 40 ∧
      ∀ sp ∈ [specA, specB, specE], sp.msLevel > s.param.currentMaxMSLevel :=
  ⟨rfl, by decide!, zero_ceiling_processes_nothing exampleCollab [specA, specB, specE]
    zeroCeilingParam [0, 0] [0, 0] [0, 0] 7 40 rfl (by decide!)⟩

/-- C16 (as stated, refuted): two runs over the same single level-2 spectrum with
the same configured parameters, collaborator, counters and indices, whose
parameter objects differ only in `current*` values left by earlier runs: the
first hands the collaborator max mass count 9 and returns 9 groups, the second
hands it 11 and returns 11 groups. -/
theorem stale_max_mass_count_is_visible :
    exampleParam.minCharge = staleParam.minCharge ∧
    exampleParam.chargeRange = staleParam.chargeRange ∧
    exampleParam.maxMass = staleParam.maxMass ∧
    exampleParam.maxMassCount = staleParam.maxMassCount ∧
    exampleParam.maxMSLevel = staleParam.maxMSLevel ∧
    exampleParam.numOverlappedScans = staleParam.numOverlappedScans ∧
    runView (Deconvolution countCollab [specB] exampleParam [0, 0] [0, 0] [0, 0] 7 40) =
      some ⟨[⟨50, 100000, 9⟩], 9⟩ ∧
    runView (Deconvolution countCollab [specB] staleParam [0, 0] [0, 0] [0, 0] 7 40) =
      some ⟨[⟨50, 100000, 11⟩], 11⟩ := by
  decide!

/-- C16 (amended): two runs over the same spectrum sequence with the same
configured parameters, the same collaborator, the same initial counters and
indices and the same `currentMaxMassCount` in the parameter object - whatever
an earlier run left in `currentMaxMSLevel`, `currentChargeRange` and
`currentMaxMass` - fault together or complete together, and when they
complete they return identical ordered output, have handed the collaborator
identical parameter objects at every call, and leave identical counters and
indices. -/
theorem rerun_is_identical (collab : Collaborator) (map : List Spectrum) (p q : Parameter)
    (specCntr qspecCntr massCntr : List Int) (specIndex massIndex : Int)
    (h : Parameter.SameInputs p q) :
    (Deconvolution collab map p specCntr qspecCntr massCntr specIndex massIndex).map forgetStale =
      (Deconvolution collab map q specCntr qspecCntr massCntr specIndex massIndex).map
        forgetStale ∧
    ∀ s, Deconvolution collab map p specCntr qspecCntr massCntr specIndex massIndex = .ok s →
      ∃ t, Deconvolution collab map q specCntr qspecCntr massCntr specIndex massIndex = .ok t ∧
        t.allPeakGroups = s.allPeakGroups ∧ t.calls = s.calls ∧
        t.specCntr = s.specCntr ∧ t.qspecCntr = s.qspecCntr ∧ t.massCntr = s.massCntr ∧
        t.specIndex = s.specIndex ∧ t.massIndex = s.massIndex := by
  obtain ⟨h1, h2, h3, h4, h5, h6, h7⟩ := h
  have key : (Deconvolution collab map p specCntr qspecCntr massCntr specIndex massIndex).map
      forgetStale =
      (Deconvolution collab map q specCntr qspecCntr massCntr specIndex massIndex).map
        forgetStale := by
    unfold Deconvolution
    have hl : initLevels q.numOverlappedScans
        (List.range' 1 (computeCurrentMaxMSLevel map q.maxMSLevel)) =
        initLevels p.numOverlappedScans
          (List.range' 1 (computeCurrentMaxMSLevel map p.maxMSLevel)) := by
      rw [h5, h6]
    rcases initLevels_cases p.numOverlappedScans
      (List.range' 1 (computeCurrentMaxMSLevel map p.maxMSLevel)) with hp | hp | hp
    · rw [init_eq_of_levels _ _ _ _ _ _ _ hp, init_eq_of_levels _ _ _ _ _ _ _ (hl.trans hp)]
      apply processAll_forgetStale
      obtain ⟨a1, a2, a3, a4, a5, a6, a7, a8, a9, a10⟩ := p
      obtain ⟨b1, b2, b3, b4, b5, b6, b7, b8, b9, b10⟩ := q
      simp only at h1 h2 h3 h4 h5 h6 h7
      subst h1 h2 h3 h4 h5 h6 h7
      rfl
    · rw [init_error _ _ _ _ _ _ _ _ hp, init_error _ _ _ _ _ _ _ _ (hl.trans hp)]
    · rw [init_error _ _ _ _ _ _ _ _ hp, init_error _ _ _ _ _ _ _ _ (hl.trans hp)]
  refine ⟨key, ?_⟩
  intro s hs
  rw [hs] at key
  cases ht : Deconvolution collab map q specCntr qspecCntr massCntr specIndex massIndex with
  | error e =>
    rw [ht] at key
    cases key
  | ok t =>
    rw [ht] at key
    simp only [Except.map, Except.ok.injEq] at key
    have e := eq_of_forgetStale s t key
    refine ⟨t, rfl, ?_, ?_, ?_, ?_, ?_, ?_, ?_⟩ <;> rw [e]

theorem rerun_is_identical_witness :
    Parameter.SameInputs exampleParam { staleParam with currentMaxMassCount := 9 } ∧
    ∃ s t, Deconvolution countCollab [specB, specA] exampleParam [0, 0] [0, 0] [0, 0] 7 40
        = .ok s ∧
      Deconvolution countCollab [specB, specA] { staleParam with currentMaxMassCount := 9 }
        [0, 0] [0, 0] [0, 0] 7 40 = .ok t ∧
      t.allPeakGroups = s.allPeakGroups ∧ t.calls = s.calls := by
  have hw := rerun_is_identical countCollab [specB, specA] exampleParam
    { staleParam with currentMaxMassCount := 9 } [0, 0] [0, 0] [0, 0] 7 40 (by decide!)
  obtain ⟨s, hs⟩ := Deconvolution_ok countCollab [specB, specA] exampleParam
    [0, 0] [0, 0] [0, 0] 7 40 (by decide!) (by decide!)
  obtain ⟨t, ht, h1, h2, _⟩ := hw.2 s hs
  exact ⟨by decide!, s, t, hs, ht, h1, h2⟩

/-- C17: at every point of a run - after the main loop, started in the initial
state of the run over the input, has processed any sequence of spectra of
level at least 1, in particular any prefix of such an input - and for every
level L in [1, currentMaxMSLevel], level L's fallback pair
(prevChargeRanges[L-1], prevMaxMasses[L-1]) is the pair resolved by the most recent level-L spectrum whose precursor resolution
succeeded, or the configured defaults (chargeRange, maxMass) if there was
none; the resolved pair of a spectrum is the charge range and max mass in
force after its iteration; an iteration for a spectrum at level L leaves the
fallback values of every other level as they were; for well-sized inputs the
loop completes on every such sequence. -/
theorem fallback_tracking (collab : Collaborator) (map : List Spectrum) (param : Parameter)
    (specCntr qspecCntr massCntr : List Int) (specIndex massIndex : Int)
    (front : List Spectrum) (hpos : ∀ sp ∈ front, 1 ≤ sp.msLevel) :
    (WellSized map param specCntr qspecCntr massCntr →
      ∃ s, processAll collab
        (initState map param specCntr qspecCntr massCntr specIndex massIndex) 0 front = .ok s) ∧
    (∀ s, processAll collab
        (initState map param specCntr qspecCntr massCntr specIndex massIndex) 0 front = .ok s →
      ∀ L, 1 ≤ L → L ≤ computeCurrentMaxMSLevel map param.maxMSLevel →
        s.prevChargeRanges[L - 1]? =
          some (expectedFallback (param.chargeRange, param.maxMass) L
            (resolutions collab
              (initState map param specCntr qspecCntr massCntr specIndex massIndex) 0 front)).1 ∧
        s.prevMaxMasses[L - 1]? =
          some (expectedFallback (param.chargeRange, param.maxMass) L
            (resolutions collab
              (initState map param specCntr qspecCntr massCntr specIndex massIndex) 0
              front)).2) ∧
    (∀ (t : RunState) (specPos : Nat) (spec : Spectrum) (t' : RunState),
      step collab t specPos spec = .ok t' → 1 ≤ spec.msLevel →
      ∀ j, j ≠ spec.msLevel - 1 →
        t'.prevChargeRanges[j]? = t.prevChargeRanges[j]? ∧
        t'.prevMaxMasses[j]? = t.prevMaxMasses[j]?) ∧
    (∀ (t : RunState) (specPos : Nat) (spec : Spectrum) (t' : RunState) (r : Resolution),
      step collab t specPos spec = .ok t' → resolutionOf t spec = some r →
      r.level = spec.msLevel ∧ t'.param.currentChargeRange = r.chargeRange ∧
      t'.param.currentMaxMass = r.maxMass) := by
  have hfront : ∀ sp ∈ front, 1 ≤ sp.msLevel := hpos
  refine ⟨?_, ?_, ?_, ?_⟩
  · rintro ⟨_, _, w3, w4, w5⟩
    exact processAll_ok collab front _ 0
      ⟨w3, w4, w5, by simp [initState], by simp [initState]⟩ hfront
  · intro s hs L h1 hle
    have hlt : L - 1 < computeCurrentMaxMSLevel map param.maxMSLevel := by omega
    exact processAll_fallback collab front _ s 0 hs hfront L h1 param.chargeRange param.maxMass
      (by simp [initState, List.getElem?_replicate, hlt])
      (by simp [initState, List.getElem?_replicate, hlt])
  · intro t specPos spec t' ht hsp j hj
    have hu : uintPred spec.msLevel = spec.msLevel - 1 := uintPred_of_pos _ hsp
    rcases step_fallback collab t t' specPos spec ht with
      ⟨_, p1, p2⟩ | ⟨r, _, _, _, _, p1, p2, _, _⟩
    · rw [p1, p2]
      exact ⟨rfl, rfl⟩
    · rw [p1, p2, hu]
      exact ⟨List.getElem?_set_ne (Ne.symm hj), List.getElem?_set_ne (Ne.symm hj)⟩
  · intro t specPos spec t' r ht hr
    rcases step_fallback collab t t' specPos spec ht with
      ⟨hn, _, _⟩ | ⟨r', hr', hl, c1, c2, _⟩
    · rw [hn] at hr
      cases hr
    · rw [hr'] at hr
      obtain rfl := Option.some.inj hr
      exact ⟨hl, c1, c2⟩

theorem fallback_tracking_witness :
    (∀ sp ∈ [specA, specB, specD], 1 ≤ sp.msLevel) ∧
    WellSized [specA, specB, specD, specA] exampleParam [0, 0] [0, 0] [0, 0] ∧
    ∃ s, processAll exampleCollab
        (initState [specA, specB, specD, specA] exampleParam [0, 0] [0, 0] [0, 0] 7 40) 0
        [specA, specB, specD] = .ok s ∧
      s.prevChargeRanges[0]? = some 50 ∧ s.prevMaxMasses[0]? = some 100000 ∧
      s.prevChargeRanges[1]? = some 3 ∧ s.prevMaxMasses[1]? = some 2600 := by
  have hw := fallback_tracking exampleCollab [specA, specB, specD, specA] exampleParam
    [0, 0] [0, 0] [0, 0] 7 40 [specA, specB, specD] (by decide!)
  obtain ⟨s, hs⟩ := hw.1 (by decide!)
  have h1 := hw.2.1 s hs 1 (by decide!) (by decide!)
  have h2 := hw.2.1 s hs 2 (by decide!) (by decide!)
  refine ⟨by decide!, by decide!, s, hs, ?_, ?_, ?_, ?_⟩
  · rw [h1.1]; decide!
  · rw [h1.2]; decide!
  · rw [h2.1]; decide!
  · rw [h2.2]; decide!

/-- C18: the early-exit window scan is a range filter. For a parent charge map
with strictly increasing keys and any window [lo, hi], the inner loop - pass
over keys below lo, stop at the first key above hi - runs its body at exactly
the keys k of the map with lo <= k <= hi, in increasing order, which are the
keys a full pass filtering on the closed interval keeps; for hi < lo it runs
its body at no key and leaves the scan state as it was; and the scan for one
precursor is the body folded over the filtered keys of its isolation window. -/
theorem early_exit_scan_is_range_filter (chargeMap : MzMap Int) (hwf : chargeMap.WF)
    (lo hi : ℚ) (st : ScanState) :
    scanKeys lo hi chargeMap.keys st = (examinedKeys lo hi chargeMap.keys).foldl scanVisit st ∧
    examinedKeys lo hi chargeMap.keys = rangeFilter lo hi chargeMap.keys ∧
    scanKeys lo hi chargeMap.keys st = (rangeFilter lo hi chargeMap.keys).foldl scanVisit st ∧
    (∀ k, k ∈ examinedKeys lo hi chargeMap.keys ↔ k ∈ chargeMap.keys ∧ lo ≤ k ∧ k ≤ hi) ∧
    (examinedKeys lo hi chargeMap.keys).Pairwise (fun a b => a < b) ∧
    (hi < lo → examinedKeys lo hi chargeMap.keys = [] ∧ scanKeys lo hi chargeMap.keys st = st) ∧
    (∀ pre : Precursor, st.subPeakChargeMap = chargeMap →
      scanPrecursor st pre =
        (rangeFilter (startMz pre) (endMz pre) chargeMap.keys).foldl scanVisit st) := by
  have hp := MzMap.keys_pairwise chargeMap hwf
  have he := examinedKeys_eq_rangeFilter lo hi chargeMap.keys hp
  refine ⟨scanKeys_eq_foldl _ _ _ _, he, ?_, ?_, ?_, ?_, ?_⟩
  · rw [← he]
    exact scanKeys_eq_foldl _ _ _ _
  · intro k
    rw [he]
    unfold rangeFilter
    simp [List.mem_filter]
  · exact hp.sublist (examinedKeys_sublist lo hi chargeMap.keys)
  · intro h
    have h0 := examinedKeys_empty_window lo hi chargeMap.keys h
    refine ⟨h0, ?_⟩
    rw [scanKeys_eq_foldl, h0]
    rfl
  · intro pre hst
    unfold scanPrecursor
    rw [hst, scanKeys_eq_foldl,
      examinedKeys_eq_rangeFilter (startMz pre) (endMz pre) chargeMap.keys hp]

theorem early_exit_scan_is_range_filter_witness :
    MzMap.WF ([(498, 7), (500, 10), (501, 5), (600, 2), (700, 3)] : MzMap Int) ∧
    examinedKeys 499 502
      (MzMap.keys ([(498, 7), (500, 10), (501, 5), (600, 2), (700, 3)] : MzMap Int)) =
      [500, 501] ∧
    rangeFilter 499 502
      (MzMap.keys ([(498, 7), (500, 10), (501, 5), (600, 2), (700, 3)] : MzMap Int)) =
      [500, 501] ∧
    examinedKeys 499 502
      (MzMap.keys ([(498, 7), (500, 10), (501, 5), (600, 2), (700, 3)] : MzMap Int)) =
    rangeFilter 499 502
      (MzMap.keys ([(498, 7), (500, 10), (501, 5), (600, 2), (700, 3)] : MzMap Int)) :=
  ⟨by decide!, by decide!, by decide!,
    (early_exit_scan_is_range_filter [(498, 7), (500, 10), (501, 5), (600, 2), (700, 3)]
      (by decide!) 499 502
      { mc := -1, pint := 0, mm := -1,
        subPeakChargeMap := [(498, 7), (500, 10), (501, 5), (600, 2), (700, 3)],
        subPeakIntMap := [(498, 1), (500, 100), (501, 50), (600, 20), (700, 1)],
        subPeakMassMap := [(498, 1), (500, 5000), (501, 2500), (600, 1200), (700, 1)] }).2.1⟩

/-- C19: index safety under well-formed input. If every input spectrum has MS
level at least 1 and the overlap-scan list and the three counter arrays each
have at least currentMaxMSLevel entries, then every read numOverlappedScans[j-1],
j in [1, currentMaxMSLevel], is in range, so initialisation does not take the
out-of-range branch: it returns the initial state, or `reserve` rejects a
negative argument, and it returns the initial state whenever the reserve
arguments are sizes; every prefix of the main loop completes, and in the state
reached after any prefix the index msLevel-1 of every spectrum within the level
ceiling is in range for prevChargeRanges, prevMaxMasses, specCntr, qspecCntr
and massCntr; hence the whole call never takes the out-of-range branch, and it
returns a state whenever the reserve arguments are sizes. -/
theorem index_safety (collab : Collaborator) (map : List Spectrum) (param : Parameter)
    (specCntr qspecCntr massCntr : List Int) (specIndex massIndex : Int)
    (h : WellSized map param specCntr qspecCntr massCntr) :
    init map param specCntr qspecCntr massCntr specIndex massIndex ≠ .error .outOfRange ∧
    (init map param specCntr qspecCntr massCntr specIndex massIndex =
        .ok (initState map param specCntr qspecCntr massCntr specIndex massIndex) ∨
      init map param specCntr qspecCntr massCntr specIndex massIndex = .error .lengthError) ∧
    (ReserveSized map param →
      init map param specCntr qspecCntr massCntr specIndex massIndex =
        .ok (initState map param specCntr qspecCntr massCntr specIndex massIndex)) ∧
    (∀ j, 1 ≤ j → j ≤ computeCurrentMaxMSLevel map param.maxMSLevel →
      ∃ v, param.numOverlappedScans[j - 1]? = some v) ∧
    (∀ front back : List Spectrum, map = front ++ back →
      ∃ s, processAll collab
          (initState map param specCntr qspecCntr massCntr specIndex massIndex) 0 front = .ok s ∧
        ∀ spec ∈ map, spec.msLevel ≤ s.param.currentMaxMSLevel →
          uintPred spec.msLevel < s.prevChargeRanges.length ∧
          uintPred spec.msLevel < s.prevMaxMasses.length ∧
          uintPred spec.msLevel < s.specCntr.length ∧
          uintPred spec.msLevel < s.qspecCntr.length ∧
          uintPred spec.msLevel < s.massCntr.length) ∧
    (ReserveSized map param →
      ∃ s, Deconvolution collab map param specCntr qspecCntr massCntr specIndex massIndex
        = .ok s) ∧
    Deconvolution collab map param specCntr qspecCntr massCntr specIndex massIndex
      ≠ .error .outOfRange := by
  have hd := Deconvolution_ok collab map param specCntr qspecCntr massCntr specIndex massIndex h
  obtain ⟨w1, w2, w3, w4, w5⟩ := h
  have hsized : (initState map param specCntr qspecCntr massCntr specIndex massIndex).Sized :=
    ⟨w3, w4, w5, by simp [initState], by simp [initState]⟩
  have hreads : ∀ j ∈ List.range' 1 (computeCurrentMaxMSLevel map param.maxMSLevel),
      j - 1 < param.numOverlappedScans.length := by
    intro j hj
    rw [List.mem_range'_1] at hj
    omega
  have hlev := initLevels_in_range param.numOverlappedScans _ hreads
  have hinit : init map param specCntr qspecCntr massCntr specIndex massIndex =
        .ok (initState map param specCntr qspecCntr massCntr specIndex massIndex) ∨
      init map param specCntr qspecCntr massCntr specIndex massIndex = .error .lengthError := by
    rcases initLevels_cases param.numOverlappedScans
      (List.range' 1 (computeCurrentMaxMSLevel map param.maxMSLevel)) with hl | hl | hl
    · exact Or.inl (init_eq_of_levels _ _ _ _ _ _ _ hl)
    · exact absurd hl hlev
    · exact Or.inr (init_error _ _ _ _ _ _ _ _ hl)
  refine ⟨?_, hinit, fun hr => init_eq _ _ _ _ _ _ _ w2 hr, ?_, ?_, hd, ?_⟩
  · rcases hinit with hi | hi
    · rw [hi]
      intro hc
      cases hc
    · rw [hi]
      intro hc
      cases hc
  · intro j h1 hj
    have hlt : j - 1 < param.numOverlappedScans.length := by omega
    exact ⟨param.numOverlappedScans[j - 1], List.getElem?_eq_getElem hlt⟩
  · intro front back hmap
    have hfront : ∀ sp ∈ front, 1 ≤ sp.msLevel := fun sp hsp =>
      w1 sp (by rw [hmap]; exact List.mem_append_left _ hsp)
    obtain ⟨s, hs⟩ := processAll_ok collab front _ 0 hsized hfront
    have hS : s.Sized :=
      processAll_invariant collab (fun t _ => t.Sized)
        (fun t specPos spec t' ht hstep => step_sized collab t t' specPos spec hstep ht)
        front _ 0 s hsized hs
    refine ⟨s, hs, ?_⟩
    intro spec hspec hle
    have hu : uintPred spec.msLevel = spec.msLevel - 1 := uintPred_of_pos _ (w1 spec hspec)
    have h1 := w1 spec hspec
    obtain ⟨a1, a2, a3, a4, a5⟩ := hS
    rw [hu]
    refine ⟨?_, ?_, ?_, ?_, ?_⟩ <;> omega
  · unfold Deconvolution
    rcases hinit with hi | hi
    · rw [hi]
      obtain ⟨s, hs⟩ := processAll_ok collab map _ 0 hsized w1
      simp only
      rw [hs]
      intro hc
      cases hc
    · rw [hi]
      intro hc
      cases hc

theorem index_safety_witness :
    WellSized [specA, specB, specE, specA] exampleParam [0, 0] [0, 0] [0, 0] ∧
    ReserveSized [specA, specB, specE, specA] exampleParam ∧
    ∃ s, Deconvolution exampleCollab [specA, specB, specE, specA] exampleParam
      [0, 0] [0, 0] [0, 0] 7 40 = .ok s :=
  ⟨by decide!, by decide!,
    (index_safety exampleCollab [specA, specB, specE, specA] exampleParam
      [0, 0] [0, 0] [0, 0] 7 40 (by decide!)).2.2.2.2.2.1 (by decide!)⟩

/-- C20: parallel-map key agreement. In the state reached after any prefix of
a run, and at every level, the charge, intensity and mass maps have strictly
increasing keys and the same keys; so every key of a charge map is present in
the intensity and mass maps of its level, a look-up at such a key returns a
stored value and leaves each of the three maps as it is, and the scan the
resolver runs for any spectrum leaves the parent charge and mass maps unchanged
and adds no key to the parent intensity map; the agreement also holds between
the resolution stage and the level state update. For well-sized inputs every
prefix of the run completes. -/
theorem parallel_map_keys_agree (collab : Collaborator) (map : List Spectrum) (param : Parameter)
    (specCntr qspecCntr massCntr : List Int) (specIndex massIndex : Int)
    (front back : List Spectrum) (hmap : map = front ++ back) :
    (WellSized map param specCntr qspecCntr massCntr →
      ∃ s, processAll collab
        (initState map param specCntr qspecCntr massCntr specIndex massIndex) 0 front = .ok s) ∧
    (∀ s, processAll collab
        (initState map param specCntr qspecCntr massCntr specIndex massIndex) 0 front = .ok s →
      (∀ L, KeysAgree (s.peakChargeMap L) (s.peakIntMap L) (s.peakMassMap L)) ∧
      (∀ L k, (k ∈ (s.peakChargeMap L).keys ↔ k ∈ (s.peakIntMap L).keys) ∧
        (k ∈ (s.peakChargeMap L).keys ↔ k ∈ (s.peakMassMap L).keys)) ∧
      (∀ L k, k ∈ (s.peakChargeMap L).keys →
        (s.peakIntMap L).find? k = some ((s.peakIntMap L).index k 0).1 ∧
        (s.peakChargeMap L).find? k = some ((s.peakChargeMap L).index k 0).1 ∧
        (s.peakMassMap L).find? k = some ((s.peakMassMap L).index k 0).1 ∧
        ((s.peakIntMap L).index k 0).2 = s.peakIntMap L ∧
        ((s.peakChargeMap L).index k 0).2 = s.peakChargeMap L ∧
        ((s.peakMassMap L).index k 0).2 = s.peakMassMap L) ∧
      (∀ spec : Spectrum,
        (scanOf s spec).subPeakChargeMap = s.peakChargeMap (uintPred spec.msLevel) ∧
        (scanOf s spec).subPeakMassMap = s.peakMassMap (uintPred spec.msLevel) ∧
        (scanOf s spec).subPeakIntMap.keys = (s.peakIntMap (uintPred spec.msLevel)).keys) ∧
      (∀ (spec : Spectrum) (s1 : RunState), resolveBounds s spec = .ok s1 →
        s1.peakChargeMap = s.peakChargeMap ∧ s1.peakMassMap = s.peakMassMap ∧
        (∀ L, (s1.peakIntMap L).keys = (s.peakIntMap L).keys) ∧
        ∀ L, KeysAgree (s1.peakChargeMap L) (s1.peakIntMap L) (s1.peakMassMap L))) := by
  constructor
  · rintro ⟨w1, _, w3, w4, w5⟩
    exact processAll_ok collab front _ 0
      ⟨w3, w4, w5, by simp [initState], by simp [initState]⟩
      (fun sp hsp => w1 sp (by rw [hmap]; exact List.mem_append_left _ hsp))
  · intro s hs
    have hi : KeyInv s :=
      processAll_keyInv collab front _ s 0 (initState_keyInv _ _ _ _ _ _ _) hs
    refine ⟨hi, ?_, ?_, ?_, ?_⟩
    · intro L k
      obtain ⟨_, _, _, k2, k3⟩ := hi L
      rw [k2, k3]
      exact ⟨Iff.rfl, Iff.rfl⟩
    · intro L k hk
      obtain ⟨_, _, _, k2, k3⟩ := hi L
      have a := MzMap.index_of_mem (s.peakIntMap L) k 0 (by rw [k2]; exact hk)
      have b := MzMap.index_of_mem (s.peakChargeMap L) k 0 hk
      have c := MzMap.index_of_mem (s.peakMassMap L) k 0 (by rw [k3]; exact hk)
      exact ⟨a.2, b.2, c.2, a.1, b.1, c.1⟩
    · intro spec
      obtain ⟨q1, q2, q3, _⟩ := scanOf_keysAgree s spec (hi _)
      exact ⟨q1, q2, q3⟩
    · intro spec s1 hr
      exact resolveBounds_keys s s1 spec hi hr

theorem parallel_map_keys_agree_witness :
    ([specA, specB, specE, specA] : List Spectrum) = [specA, specB, specE] ++ [specA] ∧
    WellSized [specA, specB, specE, specA] exampleParam [0, 0] [0, 0] [0, 0] ∧
    ∃ s, processAll exampleCollab
        (initState [specA, specB, specE, specA] exampleParam [0, 0] [0, 0] [0, 0] 7 40) 0
        [specA, specB, specE] = .ok s ∧
      ∀ L, KeysAgree (s.peakChargeMap L) (s.peakIntMap L) (s.peakMassMap L) := by
  have hw := parallel_map_keys_agree exampleCollab [specA, specB, specE, specA] exampleParam
    [0, 0] [0, 0] [0, 0] 7 40 [specA, specB, specE] [specA] rfl
  obtain ⟨s, hs⟩ := hw.1 (by decide!)
  exact ⟨rfl, by decide!, s, hs, (hw.2 s hs).1⟩

end FLASHDeconv
